import Mathlib

/-!
# Connection hub of `backend/internal/websocket/hub.go`

A shallow embedding of the hub: the membership registry `Hub.clients`, the
pending-publish channel `Hub.broadcast`, the `Client` objects the registry
points to (subject identifier, outbound channel `send`, stream `conn`), the
three `select` cases of `Hub.Run`, `Hub.Broadcast`, `Hub.HandleWS`,
`Client.writePump` and `Client.readPump`; with them the struct `WSEvent` of
`models/models.go` as `json.Marshal` writes it, `middleware.Auth`, and the
calls of `Hub.Broadcast` in the handlers.

Go semantics made explicit:
* a `*Client` is an address (`ClientPtr`); the objects live in `State.mem`;
* a buffered channel is its buffer plus a `closed` flag; sending on a closed
  channel and closing a closed channel panic (`Halt.sendOnClosed`,
  `Halt.closeOfClosed`); an operation that cannot proceed is `Halt.wouldBlock`,
  a step of a goroutine that has returned is `Halt.exited`;
* `map[*Client]bool` is the duplicate-free list of its keys (the stored value
  is always `true` and never read); the list order stands for the order in
  which `range` happens to visit the keys;
* `log.Printf` has no effect on the state and is left out;
* `Hub.mu` is taken and released only inside `Run`, which is the only code
  touching `Hub.clients`; the lock operations do not change the registry or
  any queue and are not part of the state. `tracedHandle` is `handle` together
  with the lock operations it performs.
-/

namespace Websocket

/-- A Go byte slice. -/
abbrev Bytes := List Nat

/-- The address of a `Client` object: connection identity is memory identity. -/
abbrev ClientPtr := Nat

/-- Ways in which a step fails to produce a next state. -/
inductive Halt where
  | sendOnClosed
  | closeOfClosed
  | wouldBlock
  | exited
  deriving DecidableEq, Repr

/-- Capacity of `Client.send`: `make(chan []byte, 256)`. -/
def sendCap : Nat := 256

/-- Capacity of `Hub.broadcast`: `make(chan broadcastMsg, 256)`. -/
def broadcastCap : Nat := 256

/-- State of a `chan []byte`: buffered messages, oldest first, and whether
`close` has been called. -/
structure Chan where
  buf : List Bytes
  closed : Bool
  deriving DecidableEq, Repr

/-- The channel returned by `make(chan []byte, 256)`. -/
def Chan.make : Chan := ⟨[], false⟩

/-- The statement `select { case ch <- m: ... default: ... }`.
`some ch'` when the send case ran, `none` when the default case ran. -/
def Chan.trySend (ch : Chan) (m : Bytes) : Except Halt (Option Chan) :=
  if ch.closed then .error .sendOnClosed
  else if ch.buf.length < sendCap then .ok (some { ch with buf := ch.buf ++ [m] })
  else .ok none

/-- The builtin `close(ch)`. -/
def Chan.close (ch : Chan) : Except Halt Chan :=
  if ch.closed then .error .closeOfClosed
  else .ok { ch with closed := true }

/-- State of a `*websocket.Conn` as far as the hub uses it: the messages
`WriteMessage` has put on the stream, oldest first, and whether `Close` has
been called. -/
structure Conn where
  written : List Bytes
  closed : Bool
  deriving DecidableEq, Repr

/-- The struct `Client` (its `hub` field always points to the one hub). -/
structure Client where
  userID : String
  send : Chan
  conn : Conn
  deriving DecidableEq, Repr

/-- The struct `broadcastMsg`. -/
structure broadcastMsg where
  userID : String
  data : Bytes
  deriving DecidableEq, Repr

/-- The keys of a `map[*Client]bool`. -/
structure ClientMap where
  keys : List ClientPtr
  nodup : keys.Nodup

/-- The Go expression `make(map[*Client]bool)`. -/
def ClientMap.empty : ClientMap := ⟨[], List.nodup_nil⟩

instance : Membership ClientPtr ClientMap := ⟨fun m c => c ∈ m.keys⟩

instance (c : ClientPtr) (m : ClientMap) : Decidable (c ∈ m) :=
  inferInstanceAs (Decidable (c ∈ m.keys))

/-- The assignment `m[c] = true`. -/
def ClientMap.insert (m : ClientMap) (c : ClientPtr) : ClientMap :=
  if h : c ∈ m.keys then m
  else ⟨m.keys ++ [c], List.Nodup.append m.nodup (List.nodup_singleton c)
    (fun _ ha hb => h (List.mem_singleton.mp hb ▸ ha))⟩

/-- The builtin `delete(m, c)`. -/
def ClientMap.delete (m : ClientMap) (c : ClientPtr) : ClientMap :=
  ⟨m.keys.filter (fun k => k ≠ c), m.nodup.filter _⟩

/-- The struct `Hub`. The channels `register` and `unregister` are unbuffered
and hold nothing between operations. -/
structure Hub where
  clients : ClientMap
  broadcast : List broadcastMsg
  jwtSecret : String

/-- The function `NewHub`. -/
def NewHub (jwtSecret : String) : Hub :=
  { clients := ClientMap.empty, broadcast := [], jwtSecret := jwtSecret }

/-- Process state: the hub, the `Client` objects by address, and for each
client whether its `writePump` goroutine has returned. -/
structure State where
  hub : Hub
  mem : ClientPtr → Client
  writerDone : ClientPtr → Bool

/-- Replace the object at address `c`. -/
def State.setClient (s : State) (c : ClientPtr) (cl : Client) : State :=
  { s with mem := fun p => if p = c then cl else s.mem p }

/-- Replace the state of `c.send`. -/
def State.setSend (s : State) (c : ClientPtr) (ch : Chan) : State :=
  s.setClient c { s.mem c with send := ch }

/-- Replace the registry. -/
def State.setClients (s : State) (m : ClientMap) : State :=
  { s with hub := { s.hub with clients := m } }

/-- `Run`, case `client := <-h.register`. -/
def handleRegister (s : State) (client : ClientPtr) : Except Halt State :=
  .ok (s.setClients (s.hub.clients.insert client))

/-- `Run`, case `client := <-h.unregister`. -/
def handleUnregister (s : State) (client : ClientPtr) : Except Halt State :=
  if client ∈ s.hub.clients then
    match (s.mem client).send.close with
    | .error e => .error e
    | .ok ch => .ok ((s.setClients (s.hub.clients.delete client)).setSend client ch)
  else .ok s

/-- Body of the loop `for client := range h.clients` in `Run`'s broadcast case. -/
def fanOutOne (msg : broadcastMsg) (s : State) (client : ClientPtr) : Except Halt State :=
  if (s.mem client).userID = msg.userID then
    match (s.mem client).send.trySend msg.data with
    | .error e => .error e
    | .ok (some ch) => .ok (s.setSend client ch)
    | .ok none =>
      match (s.mem client).send.close with
      | .error e => .error e
      | .ok ch => .ok ((s.setClients (s.hub.clients.delete client)).setSend client ch)
  else .ok s

/-- The loop `for client := range h.clients`, visiting the keys in `order`.
The only key deleted while the loop runs is the one being visited, so every
key of the map is visited once. -/
def fanOut (msg : broadcastMsg) : List ClientPtr → State → Except Halt State
  | [], s => .ok s
  | client :: rest, s =>
    match fanOutOne msg s client with
    | .error e => .error e
    | .ok s' => fanOut msg rest s'

/-- `Run`, case `msg := <-h.broadcast`, once `msg` has been received. -/
def handleBroadcast (s : State) (msg : broadcastMsg) : Except Halt State :=
  fanOut msg s.hub.clients.keys s

/-- What one iteration of `Run`'s `select` receives. -/
inductive Req where
  | register (client : ClientPtr)
  | unregister (client : ClientPtr)
  | publish (msg : broadcastMsg)
  deriving DecidableEq, Repr

/-- One iteration of the loop of `Run`. -/
def handle (s : State) : Req → Except Halt State
  | .register c => handleRegister s c
  | .unregister c => handleUnregister s c
  | .publish msg => handleBroadcast s msg

/-- The loop of `Run` over the requests it receives, in order. -/
def Run : State → List Req → Except Halt State
  | s, [] => .ok s
  | s, r :: rest =>
    match handle s r with
    | .error e => .error e
    | .ok s' => Run s' rest


/-- `Hub.Broadcast`; `marshal` is `json.Marshal`, `none` when it returns an
error. The send on `h.broadcast` can proceed when fewer than 256 publishes are
pending. -/
def Broadcast {α : Type} (marshal : α → Option Bytes) (s : State) (userID : String)
    (event : α) : Except Halt State :=
  match marshal event with
  | none => .ok s
  | some data =>
    if s.hub.broadcast.length < broadcastCap then
      .ok { s with hub := { s.hub with broadcast := s.hub.broadcast ++ [⟨userID, data⟩] } }
    else .error .wouldBlock

/-- `Run`, case `msg := <-h.broadcast`: the oldest pending publish is received
and fanned out. -/
def recvBroadcast (s : State) : Except Halt State :=
  match s.hub.broadcast with
  | [] => .error .wouldBlock
  | msg :: rest => handleBroadcast { s with hub := { s.hub with broadcast := rest } } msg

/-- The deferred `c.conn.Close()` of `writePump` and the return of the
goroutine. -/
def State.writerExit (s : State) (c : ClientPtr) : State :=
  { s with
    mem := fun p => if p = c then { s.mem c with conn := ⟨(s.mem c).conn.written, true⟩ }
      else s.mem p
    writerDone := fun p => if p = c then true else s.writerDone p }

/-- One iteration of `for message := range c.send` in `writePump`. The loop
waits while the queue is empty and open, ends when it is empty and closed, and
otherwise takes the oldest message and calls `WriteMessage`, which succeeds
when `writeOk` holds and the stream is not closed; leaving the loop runs the
deferred `c.conn.Close()`. -/
def writePumpStep (s : State) (c : ClientPtr) (writeOk : Bool) : Except Halt State :=
  if s.writerDone c then .error .exited
  else
    match (s.mem c).send.buf with
    | [] => if (s.mem c).send.closed then .ok (s.writerExit c) else .error .wouldBlock
    | message :: rest =>
      if writeOk && !(s.mem c).conn.closed then
        .ok (s.setClient c
          { userID := (s.mem c).userID
            send := ⟨rest, (s.mem c).send.closed⟩
            conn := ⟨(s.mem c).conn.written ++ [message], (s.mem c).conn.closed⟩ })
      else .ok ((s.setSend c ⟨rest, (s.mem c).send.closed⟩).writerExit c)

/-- What the goroutines of the process do, one step at a time: a request
handler calls `Broadcast`, `Run` receives on `register`, `unregister` or
`broadcast`, the `writePump` of a client runs one iteration. -/
inductive Action (α : Type) where
  | broadcast (userID : String) (event : α)
  | register (client : ClientPtr)
  | unregister (client : ClientPtr)
  | dispatch
  | write (client : ClientPtr) (writeOk : Bool)

/-- One step of the process. -/
def step {α : Type} (marshal : α → Option Bytes) (s : State) : Action α → Except Halt State
  | .broadcast userID event => Broadcast marshal s userID event
  | .register c => handleRegister s c
  | .unregister c => handleUnregister s c
  | .dispatch => recvBroadcast s
  | .write c writeOk => writePumpStep s c writeOk

/-- An interleaving of steps, in the order they happen. -/
def exec {α : Type} (marshal : α → Option Bytes) : State → List (Action α) → Except Halt State
  | s, [] => .ok s
  | s, a :: rest =>
    match step marshal s a with
    | .error e => .error e
    | .ok s' => exec marshal s' rest

/-- The payloads of the `Broadcast` calls for subject `subject` in an
interleaving, in call order (a call whose serialization fails has none). -/
def submitted {α : Type} (marshal : α → Option Bytes) (subject : String) :
    List (Action α) → List Bytes
  | [] => []
  | .broadcast userID event :: rest =>
    (if userID = subject then (marshal event).toList else []) ++ submitted marshal subject rest
  | .register _ :: rest => submitted marshal subject rest
  | .unregister _ :: rest => submitted marshal subject rest
  | .dispatch :: rest => submitted marshal subject rest
  | .write _ _ :: rest => submitted marshal subject rest

/-- The payloads pending in `h.broadcast` for subject `subject`, oldest first. -/
def pendingFor (s : State) (subject : String) : List Bytes :=
  (s.hub.broadcast.filter (fun m => m.userID = subject)).map (fun m => m.data)

/-- What a connection has seen and will see, in order: the messages written to
its stream, then its queue, then the pending publishes for its subject. -/
def timeline (s : State) (c : ClientPtr) : List Bytes :=
  (s.mem c).conn.written ++ (s.mem c).send.buf ++ pendingFor s (s.mem c).userID

/-- What `HandleWS` reads from the request: `r.URL.Query().Get("token")`,
the value of the cookie `js_token` (`none` when `r.Cookie` returns an error)
and `r.Header.Get("Authorization")`. -/
structure Request where
  queryToken : String
  cookie : Option String
  authorization : String
  deriving DecidableEq, Repr

/-- A value in a claims map: a string or anything else. -/
inductive ClaimValue where
  | str (s : String)
  | other
  deriving DecidableEq, Repr

/-- The dynamic type of `token.Claims`: a `jwt.MapClaims` or something else. -/
inductive Claims where
  | mapClaims (m : String → Option ClaimValue)
  | other

/-- What `jwt.Parse` returns: whether `err != nil`, `token.Valid` and
`token.Claims`. -/
structure ParsedToken where
  err : Bool
  valid : Bool
  claims : Claims

/-- The Go function `strings.TrimPrefix`. -/
def trimPrefix (s pre : String) : String :=
  if pre.data.isPrefixOf s.data then ⟨s.data.drop pre.data.length⟩ else s

/-- The constant `http.StatusUnauthorized`. -/
def StatusUnauthorized : Nat := 401

/-- Lines 96-106 of `HandleWS`: the token string that goes on to be checked. -/
def credential (r : Request) : String :=
  let fromQuery := r.queryToken
  let fromCookie :=
    if fromQuery = "" then
      match r.cookie with
      | some value => value
      | none => fromQuery
    else fromQuery
  if fromCookie = "" then
    if r.authorization ≠ "" then trimPrefix r.authorization "Bearer " else fromCookie
  else fromCookie

/-- The expression `claims["sub"].(string)` with its second result dropped. -/
def subClaim (m : String → Option ClaimValue) : String :=
  match m "sub" with
  | some (.str userID) => userID
  | _ => ""

/-- What `HandleWS` sends back. -/
inductive Reply where
  | httpError (body : String) (status : Nat)
  | upgradeError
  | switched
  deriving DecidableEq, Repr

/-- What a call of `HandleWS` has done when it returns: its reply, whether
`upgrader.Upgrade` was called, the `Client` it built, what it sent on
`h.register`, and the memory it leaves. -/
structure Outcome where
  reply : Reply
  upgradeCalled : Bool
  client : Option ClientPtr
  sent : List Req
  state : State

/-- `Hub.HandleWS`. `jwtParse token secret` is `jwt.Parse` with the key
function of the handler, `upgrade` is `upgrader.Upgrade` (`none` when it
returns an error), `addr` is the address of the `Client` the handler allocates. -/
def HandleWS (jwtParse : String → String → ParsedToken) (upgrade : Request → Option Conn)
    (addr : ClientPtr) (s : State) (r : Request) : Outcome :=
  let tokenStr := credential r
  if tokenStr = "" then
    ⟨.httpError "unauthorized" StatusUnauthorized, false, none, [], s⟩
  else
    let token := jwtParse tokenStr s.hub.jwtSecret
    if token.err || !token.valid then
      ⟨.httpError "invalid token" StatusUnauthorized, false, none, [], s⟩
    else
      match token.claims with
      | .other => ⟨.httpError "invalid claims" StatusUnauthorized, false, none, [], s⟩
      | .mapClaims claims =>
        let userID := subClaim claims
        if userID = "" then
          ⟨.httpError "invalid user" StatusUnauthorized, false, none, [], s⟩
        else
          match upgrade r with
          | none => ⟨.upgradeError, true, none, [], s⟩
          | some conn =>
            ⟨.switched, true, some addr, [.register addr],
              { s with
                mem := fun p => if p = addr then ⟨userID, Chan.make, conn⟩ else s.mem p
                writerDone := fun p => if p = addr then false else s.writerDone p }⟩

/-- The state a request left behind, or the state before it when it halted. -/
def after (s : State) (r : Except Halt State) : State :=
  match r with
  | .ok s' => s'
  | .error _ => s

/-- Every registered connection has an open outbound queue. -/
def RegisteredOpen (s : State) : Prop :=
  ∀ c, c ∈ s.hub.clients → (s.mem c).send.closed = false

/-- A process that has just called `NewHub`; the client at address `p`, once
`HandleWS` has built it, belongs to `users p` and has a new queue. -/
def boot (jwtSecret : String) (users : ClientPtr → String) : State :=
  { hub := NewHub jwtSecret
    mem := fun p => ⟨users p, Chan.make, ⟨[], false⟩⟩
    writerDone := fun _ => false }

/-- Subjects of the scenario: the client at address 3 is "u2", all others "u1". -/
def scenarioUsers : ClientPtr → String := fun p => if p = 3 then "u2" else "u1"

/-- The scenario state: A1 (address 1) and A2 (address 2) registered as "u1",
a third client (address 3) registered as "u2". -/
def scenario : State :=
  after (boot "secret" scenarioUsers)
    (Run (boot "secret" scenarioUsers) [.register 1, .register 2, .register 3])

/-- The bytes of
`{"type":"update","collection":"tasks","document":{"id":"t1"},"userId":"u1"}`. -/
def taskUpdate : Bytes :=
  [123, 34, 116, 121, 112, 101, 34, 58, 34, 117, 112, 100, 97, 116, 101, 34, 44, 34, 99,
   111, 108, 108, 101, 99, 116, 105, 111, 110, 34, 58, 34, 116, 97, 115, 107, 115, 34, 44,
   34, 100, 111, 99, 117, 109, 101, 110, 116, 34, 58, 123, 34, 105, 100, 34, 58, 34, 116,
   49, 34, 125, 44, 34, 117, 115, 101, 114, 73, 100, 34, 58, 34, 117, 49, 34, 125]

/-- A registry operation: what `Run` receives on `register` or `unregister`. -/
inductive RegOp where
  | register (client : ClientPtr)
  | unregister (client : ClientPtr)
  deriving DecidableEq, Repr

/-- The request a registry operation is for `Run`. -/
def RegOp.toReq : RegOp → Req
  | .register c => .register c
  | .unregister c => .unregister c

/-- The reference model's step on a plain set: insert on register, erase on
unregister. -/
def refStep (A : Finset ClientPtr) : RegOp → Finset ClientPtr
  | .register c => insert c A
  | .unregister c => A.erase c

/-- The reference model started from the set `A`. -/
def refModelFrom (A : Finset ClientPtr) (ops : List RegOp) : Finset ClientPtr :=
  ops.foldl refStep A

/-- The reference model: the same operation sequence run against a plain set,
started empty. -/
def refModel (ops : List RegOp) : Finset ClientPtr := refModelFrom ∅ ops

/-- No connection is registered again after an unregister of it. -/
def NoReRegister : List RegOp → Prop
  | [] => True
  | .unregister c :: rest => RegOp.register c ∉ rest ∧ NoReRegister rest
  | .register _ :: rest => NoReRegister rest

/-- A sequence of registry operations: two clients register, one of them
twice, one is unregistered, and a client never registered is unregistered. -/
def sampleOps : List RegOp :=
  [.register 1, .register 2, .register 1, .unregister 2, .unregister 5]

/-- A run in which the client at address 1 leaves by unregister, the client at
address 2 is unregistered twice, and the client at address 3 stays. -/
def sampleRun : List Req :=
  [.register 1, .register 2, .publish ⟨"u1", taskUpdate⟩, .unregister 1, .register 3,
   .unregister 2, .publish ⟨"u1", taskUpdate⟩, .unregister 2]

/-- The bytes of `{"type":"delete","collection":"tasks","document":{"id":"t1"},"userId":"u1"}`. -/
def taskDelete : Bytes :=
  [123, 34, 116, 121, 112, 101, 34, 58, 34, 100, 101, 108, 101, 116, 101, 34, 44, 34, 99,
   111, 108, 108, 101, 99, 116, 105, 111, 110, 34, 58, 34, 116, 97, 115, 107, 115, 34, 44,
   34, 100, 111, 99, 117, 109, 101, 110, 116, 34, 58, 123, 34, 105, 100, 34, 58, 34, 116,
   49, 34, 125, 44, 34, 117, 115, 101, 114, 73, 100, 34, 58, 34, 117, 49, 34, 125]

/-- A stand-in for `json.Marshal` on three events: `0` is the task update, `1`
the task deletion, anything else a value `json.Marshal` rejects. -/
def sampleMarshal : Nat → Option Bytes := fun e =>
  if e = 0 then some taskUpdate else if e = 1 then some taskDelete else none

/-- Two publishes to "u1", both handled by the loop, then one iteration of
the write task of the client at address 1. -/
def sampleActions : List (Action Nat) :=
  [.broadcast "u1" 0, .broadcast "u1" 1, .dispatch, .dispatch, .write 1 true]

/-- A stand-in for `jwt.Parse`: the token "good" verifies with subject "u1",
the token "nosub" verifies with no `sub` claim, every other token (expired,
badly signed, malformed) is rejected. -/
def sampleParse : String → String → ParsedToken := fun token _ =>
  if token = "good" then
    ⟨false, true, .mapClaims (fun k => if k = "sub" then some (.str "u1") else none)⟩
  else if token = "nosub" then ⟨false, true, .mapClaims (fun _ => none)⟩
  else ⟨true, false, .other⟩

/-- A stand-in for `upgrader.Upgrade` that always succeeds. -/
def sampleUpgrade : Request → Option Conn := fun _ => some ⟨[], false⟩

/-- A backlog of 256 messages. -/
def backlog : List Bytes := List.replicate 256 [0]

/-- A connection whose writer has stalled: the client at address 1, subject
"u1", is registered and its queue holds 256 undelivered messages. -/
def saturated : State :=
  { hub := { clients := ⟨[1], List.nodup_singleton 1⟩, broadcast := [], jwtSecret := "secret" }
    mem := fun p =>
      if p = 1 then ⟨"u1", ⟨backlog, false⟩, ⟨[], false⟩⟩
      else ⟨scenarioUsers p, Chan.make, ⟨[], false⟩⟩
    writerDone := fun _ => false }

/-- Lines 18-28 of `middleware.Auth`, the handler of the REST routes: the token
string it goes on to check. The header is used only under
`strings.HasPrefix(auth, "Bearer ")`. -/
def authCredential (r : Request) : String :=
  let fromHeader :=
    if r.authorization ≠ "" then
      if "Bearer ".data.isPrefixOf r.authorization.data then
        trimPrefix r.authorization "Bearer "
      else ""
    else ""
  if fromHeader = "" then
    match r.cookie with
    | some value => value
    | none => fromHeader
  else fromHeader

/-- The struct `WSEvent` of `models.go` (its first field is `Type` in Go);
`Document` is an `interface{}`, here a value of type `δ`. -/
structure WSEvent (δ : Type) where
  Type' : String
  Collection : String
  Document : δ
  UserID : String

/-- The value of a member of a JSON object: a string, or a nested value already
encoded. -/
inductive JsonValue where
  | string (s : String)
  | encoded (bytes : Bytes)
  deriving DecidableEq, Repr

/-- The object `json.Marshal` builds for a `WSEvent`: the struct fields in
declaration order, each under the name of its `json` tag; `encodeDocument` is
`json.Marshal` on the dynamic value of `Document`, `none` when it fails. -/
def marshalWSEvent {δ : Type} (encodeDocument : δ → Option Bytes) (ev : WSEvent δ) :
    Option (List (String × JsonValue)) :=
  match encodeDocument ev.Document with
  | none => none
  | some document =>
    some [("type", .string ev.Type'), ("collection", .string ev.Collection),
      ("document", .encoded document), ("userId", .string ev.UserID)]

/-- The call `json.Marshal(event)` of `Broadcast` on a `WSEvent`;
`encodeObject` writes an object as bytes. -/
def jsonMarshal {δ : Type} (encodeDocument : δ → Option Bytes)
    (encodeObject : List (String × JsonValue) → Bytes) (ev : WSEvent δ) : Option Bytes :=
  (marshalWSEvent encodeDocument ev).map encodeObject

/-- A stand-in for the way `encoding/json` writes a string, right for strings
of ASCII characters that need no escape. -/
def sampleString (s : String) : Bytes := [34] ++ s.data.map Char.toNat ++ [34]

/-- A stand-in for the way `encoding/json` writes an object. -/
def sampleObject (fields : List (String × JsonValue)) : Bytes :=
  [123] ++ List.intercalate [44] (fields.map fun kv =>
    sampleString kv.1 ++ [58] ++
      match kv.2 with
      | .string s => sampleString s
      | .encoded bytes => bytes) ++ [125]

/-- The event of the scenario: an update of task "t1" of "u1", its document
already encoded as `{"id":"t1"}`. -/
def sampleEvent : WSEvent Bytes :=
  ⟨"update", "tasks", [123, 34, 105, 100, 34, 58, 34, 116, 49, 34, 125], "u1"⟩

/-- A backlog of 256 publishes waiting in `h.broadcast`. -/
def pendingBacklog : List broadcastMsg := List.replicate 256 ⟨"u1", taskUpdate⟩

/-- The scenario state while `Run` has not taken any of 256 publishes made to
"u1". -/
def congested : State :=
  { hub := { clients := scenario.hub.clients, broadcast := pendingBacklog,
             jwtSecret := scenario.hub.jwtSecret }
    mem := scenario.mem
    writerDone := scenario.writerDone }

/-- The payloads of the publishes for subject `subject` among the requests the
loop handles, in handling order. -/
def payloadsFor (subject : String) : List Req → List Bytes
  | [] => []
  | .publish msg :: rest =>
    (if msg.userID = subject then [msg.data] else []) ++ payloadsFor subject rest
  | .register _ :: rest => payloadsFor subject rest
  | .unregister _ :: rest => payloadsFor subject rest

/-- A run in which a publish to "u1" is handled before the client at address 1
registers and another one after. -/
def lateJoin : List Req :=
  [.register 2, .publish ⟨"u1", taskUpdate⟩, .register 1, .publish ⟨"u1", taskDelete⟩]

/-- What `readPump` does that others can see. -/
inductive PumpEvent where
  | unregister (client : ClientPtr)
  | closeConn (client : ClientPtr)
  deriving DecidableEq, Repr

/-- `Client.readPump` on the frames `ReadMessage` returns before it returns an
error: each frame is dropped; at the error the loop is left and the deferred
function sends the client on `h.unregister`, then calls `c.conn.Close()`. -/
def readPump (c : ClientPtr) : List Bytes → List PumpEvent
  | [] => [.unregister c, .closeConn c]
  | _ :: frames => readPump c frames

/-- The call `c.conn.Close()`. -/
def State.closeConn (s : State) (c : ClientPtr) : State :=
  s.setClient c { s.mem c with conn := ⟨(s.mem c).conn.written, true⟩ }

/-- What an event of `readPump` does to the process: the send on
`h.unregister` is received by `Run`, which handles it; `Close` acts on the
stream of the client. -/
def pumpStep (s : State) : PumpEvent → Except Halt State
  | .unregister c => handle s (.unregister c)
  | .closeConn c => .ok (s.closeConn c)

/-- The loop of `writePump` from its first iteration to its return, no other
goroutine running in between; `queue` is what `c.send` holds when the loop
starts and `outcomes` are the results of the successive calls of
`WriteMessage` (a call past the end of the list succeeds). After the last
queued message the loop ends if the queue is closed and waits if it is open. -/
def writePumpFrom (c : ClientPtr) : List Bytes → List Bool → State → Except Halt State
  | [], _, s => writePumpStep s c true
  | _ :: rest, outcomes, s =>
    match writePumpStep s c (outcomes.headD true) with
    | .error e => .error e
    | .ok s' => if s'.writerDone c then .ok s' else writePumpFrom c rest outcomes.tail s'

/-- `Client.writePump`, run on the queue as it stands. -/
def writePump (s : State) (c : ClientPtr) (outcomes : List Bool) : Except Halt State :=
  writePumpFrom c (s.mem c).send.buf outcomes s

/-- What `writePump` leaves when it has returned: the messages `wrote` added
to the stream, the stream closed, the messages `left` still in the queue, the
goroutine gone, and the hub and every other client as they were. -/
def WriterReturned (c : ClientPtr) (s s' : State) (wrote left : List Bytes) : Prop :=
  (s'.mem c).conn = ⟨(s.mem c).conn.written ++ wrote, true⟩ ∧
  (s'.mem c).send = ⟨left, (s.mem c).send.closed⟩ ∧
  (s'.mem c).userID = (s.mem c).userID ∧
  s'.writerDone c = true ∧ s'.hub = s.hub ∧ ∀ p, p ≠ c → s'.mem p = s.mem p

/-- The scenario state after a task update and a task deletion were published
to "u1", the peer of A1 (address 1) went away and A1 was unregistered while
its write task had not yet taken the two messages. -/
def draining : State :=
  after scenario (Run scenario [.publish ⟨"u1", taskUpdate⟩, .publish ⟨"u1", taskDelete⟩,
    .unregister 1])

/-- The events of a read task applied in order. -/
def runPump : State → List PumpEvent → Except Halt State
  | s, [] => .ok s
  | s, e :: rest =>
    match pumpStep s e with
    | .error h => .error h
    | .ok s' => runPump s' rest

/-- The function `middleware.GetUserID`; `ctxValue` is the string stored in the
request context under `UserIDKey`, `none` when there is none. -/
def GetUserID (ctxValue : Option String) : String :=
  match ctxValue with
  | some id => id
  | none => ""

/-- The middleware `middleware.Auth`: the value it stores under `UserIDKey`
before calling the next handler, `none` when it answers 401 instead.
`jwtParse token secret` is `jwt.Parse` with the key function of the
middleware. -/
def Auth (jwtParse : String → String → ParsedToken) (jwtSecret : String) (r : Request) :
    Option String :=
  let tokenStr := authCredential r
  if tokenStr = "" then none
  else
    let token := jwtParse tokenStr jwtSecret
    if token.err || !token.valid then none
    else
      match token.claims with
      | .other => none
      | .mapClaims claims =>
        let userID := subClaim claims
        if userID = "" then none else some userID

/-- The handler methods that call `Hub.Broadcast`, one per call site. -/
inductive BroadcastSite where
  | projectCreate | projectUpdate | projectDelete
  | taskCreate | taskCreateBatch | taskUpdate | taskDelete
  | wikiCreate | wikiUpdate | wikiDelete
  | installationCreate | installationUpdate | installationDelete
  | snippetCreate | snippetUpdate | snippetDelete
  | accessGrant
  deriving DecidableEq, Repr

/-- The `Document` of a published event: what the repository returned, or the
map `{"id": id}` a delete handler builds from the URL parameter. -/
inductive Document (ε : Type) where
  | entity (e : ε)
  | idOnly (id : String)

/-- The two arguments of the call of `Hub.Broadcast` at each call site:
`ctxValue` is the context value of the request, `result` what the repository
returned, `id` the URL parameter `id`. Every handler starts from
`userID := middleware.GetUserID(r)`. -/
def BroadcastSite.call {ε : Type} (site : BroadcastSite) (ctxValue : Option String)
    (result : ε) (id : String) : String × WSEvent (Document ε) :=
  let userID := GetUserID ctxValue
  match site with
  | .projectCreate => (userID, ⟨"create", "projects", .entity result, userID⟩)
  | .projectUpdate => (userID, ⟨"update", "projects", .entity result, userID⟩)
  | .projectDelete => (userID, ⟨"delete", "projects", .idOnly id, userID⟩)
  | .taskCreate => (userID, ⟨"create", "tasks", .entity result, userID⟩)
  | .taskCreateBatch => (userID, ⟨"create", "tasks", .entity result, userID⟩)
  | .taskUpdate => (userID, ⟨"update", "tasks", .entity result, userID⟩)
  | .taskDelete => (userID, ⟨"delete", "tasks", .idOnly id, userID⟩)
  | .wikiCreate => (userID, ⟨"create", "wiki_guides", .entity result, userID⟩)
  | .wikiUpdate => (userID, ⟨"update", "wiki_guides", .entity result, userID⟩)
  | .wikiDelete => (userID, ⟨"delete", "wiki_guides", .idOnly id, userID⟩)
  | .installationCreate => (userID, ⟨"create", "installations", .entity result, userID⟩)
  | .installationUpdate => (userID, ⟨"update", "installations", .entity result, userID⟩)
  | .installationDelete => (userID, ⟨"delete", "installations", .idOnly id, userID⟩)
  | .snippetCreate => (userID, ⟨"create", "snippets", .entity result, userID⟩)
  | .snippetUpdate => (userID, ⟨"update", "snippets", .entity result, userID⟩)
  | .snippetDelete => (userID, ⟨"delete", "snippets", .idOnly id, userID⟩)
  | .accessGrant => (userID, ⟨"create", "access_control", .entity result, userID⟩)

/-- The scenario state with the queues of A1 (address 1, "u1") and of the third
client (address 3, "u2") full: a publish to "u1" evicts A1 while A2 has room. -/
def mixed : State :=
  { hub := scenario.hub
    mem := fun p =>
      if p = 1 then ⟨"u1", ⟨backlog, false⟩, ⟨[], false⟩⟩
      else if p = 3 then ⟨"u2", ⟨backlog, false⟩, ⟨[], false⟩⟩
      else scenario.mem p
    writerDone := scenario.writerDone }

/-- The operations `Run` performs on `Hub.mu`. -/
inductive LockOp where
  | Lock
  | Unlock
  | RLock
  | RUnlock
  deriving DecidableEq, Repr

/-- State of the `sync.RWMutex` `Hub.mu`: free, read-held (by `extra + 1`
readers) or write-held. -/
inductive Mutex where
  | free
  | readHeld (extra : Nat)
  | writeHeld
  deriving DecidableEq, Repr

/-- One operation on the mutex, `none` when it is not legal in the state:
`Unlock` of a mutex that is not write-held and `RUnlock` of one that is not
read-held are fatal errors, and a `Lock` or `RLock` that finds the mutex taken
against it would wait for a release that `Run`, the only goroutine using the
mutex, never makes. -/
def Mutex.op : Mutex → LockOp → Option Mutex
  | .free, .Lock => some .writeHeld
  | .writeHeld, .Unlock => some .free
  | .free, .RLock => some (.readHeld 0)
  | .readHeld n, .RLock => some (.readHeld (n + 1))
  | .readHeld 0, .RUnlock => some .free
  | .readHeld (n + 1), .RUnlock => some (.readHeld n)
  | _, _ => none

/-- A sequence of operations, each legal in the state it is issued in. -/
def Mutex.run : Mutex → List LockOp → Option Mutex
  | m, [] => some m
  | m, o :: rest =>
    match m.op o with
    | none => none
    | some m' => Mutex.run m' rest

/-- `Run`, case `client := <-h.register`, with its operations on `h.mu`. -/
def tracedRegister (s : State) (client : ClientPtr) : Except Halt (State × List LockOp) :=
  .ok (s.setClients (s.hub.clients.insert client), [.Lock, .Unlock])

/-- `Run`, case `client := <-h.unregister`, with its operations on `h.mu`. -/
def tracedUnregister (s : State) (client : ClientPtr) : Except Halt (State × List LockOp) :=
  if client ∈ s.hub.clients then
    match (s.mem client).send.close with
    | .error e => .error e
    | .ok ch =>
      .ok ((s.setClients (s.hub.clients.delete client)).setSend client ch, [.Lock, .Unlock])
  else .ok (s, [.Lock, .Unlock])

/-- Body of the loop `for client := range h.clients`, with its operations on
`h.mu`: none when the message is queued or the client skipped, the four of the
default branch when the client is evicted. -/
def tracedFanOutOne (msg : broadcastMsg) (s : State) (client : ClientPtr) :
    Except Halt (State × List LockOp) :=
  if (s.mem client).userID = msg.userID then
    match (s.mem client).send.trySend msg.data with
    | .error e => .error e
    | .ok (some ch) => .ok (s.setSend client ch, [])
    | .ok none =>
      match (s.mem client).send.close with
      | .error e => .error e
      | .ok ch =>
        .ok ((s.setClients (s.hub.clients.delete client)).setSend client ch,
          [.RUnlock, .Lock, .Unlock, .RLock])
  else .ok (s, [])

/-- The loop `for client := range h.clients`, with its operations on `h.mu`. -/
def tracedFanOut (msg : broadcastMsg) :
    List ClientPtr → State → Except Halt (State × List LockOp)
  | [], s => .ok (s, [])
  | client :: rest, s =>
    match tracedFanOutOne msg s client with
    | .error e => .error e
    | .ok (s', ops) =>
      match tracedFanOut msg rest s' with
      | .error e => .error e
      | .ok (s'', ops') => .ok (s'', ops ++ ops')

/-- `Run`, case `msg := <-h.broadcast`, with its operations on `h.mu`: `RLock`
before the loop, `RUnlock` after it. -/
def tracedBroadcast (s : State) (msg : broadcastMsg) : Except Halt (State × List LockOp) :=
  match tracedFanOut msg s.hub.clients.keys s with
  | .error e => .error e
  | .ok (s', ops) => .ok (s', [.RLock] ++ ops ++ [.RUnlock])

/-- One iteration of the loop of `Run`, with its operations on `h.mu`. -/
def tracedHandle (s : State) : Req → Except Halt (State × List LockOp)
  | .register c => tracedRegister s c
  | .unregister c => tracedUnregister s c
  | .publish msg => tracedBroadcast s msg

/-- How many times `Run` receives from `h.broadcast` in an interleaving. The
channel is first in, first out: a publish accepted behind `n` pending ones is
the one received by the dispatch that follows `n` others. -/
def dispatches {α : Type} : List (Action α) → Nat
  | [] => 0
  | .dispatch :: rest => dispatches rest + 1
  | .broadcast _ _ :: rest => dispatches rest
  | .register _ :: rest => dispatches rest
  | .unregister _ :: rest => dispatches rest
  | .write _ _ :: rest => dispatches rest

/-- The task update is published to "u1" and `Broadcast` returns; the client
at address 4, of "u1", registers; only then does `Run` receive the publish. -/
def earlyPublish : List (Action Nat) :=
  [.broadcast "u1" 0, .register 4, .dispatch]

/-- What happens between the acceptance of the task update for "u1" and the
dispatch that receives it: the client at address 4, of "u1", registers and the
task deletion is published to "u1". -/
def lateAdmission : List (Action Nat) :=
  [.register 4, .broadcast "u1" 1]

/-! ## Lemmas on the registry and the fan-out loop -/

theorem ClientMap.mem_iff (m : ClientMap) (c : ClientPtr) : c ∈ m ↔ c ∈ m.keys := Iff.rfl

theorem ClientMap.mem_insert (m : ClientMap) (c p : ClientPtr) :
    p ∈ m.insert c ↔ p = c ∨ p ∈ m := by
  unfold ClientMap.insert
  by_cases h : c ∈ m.keys
  · simp only [h, dite_true]
    constructor
    · intro hp; exact Or.inr hp
    · rintro (rfl | hp)
      · exact h
      · exact hp
  · simp only [h, dite_false, ClientMap.mem_iff, List.mem_append, List.mem_singleton]
    tauto

theorem ClientMap.mem_delete (m : ClientMap) (c p : ClientPtr) :
    p ∈ m.delete c ↔ p ∈ m ∧ p ≠ c := by
  simp [ClientMap.delete, ClientMap.mem_iff]

/-- The three ways the loop body can complete. -/
theorem fanOutOne_ok {msg : broadcastMsg} {s s' : State} {c : ClientPtr}
    (h : fanOutOne msg s c = .ok s') :
    ((s.mem c).userID ≠ msg.userID ∧ s' = s) ∨
    ((s.mem c).userID = msg.userID ∧ (s.mem c).send.closed = false ∧
      (s.mem c).send.buf.length < sendCap ∧
      s' = s.setSend c ⟨(s.mem c).send.buf ++ [msg.data], false⟩) ∨
    ((s.mem c).userID = msg.userID ∧ (s.mem c).send.closed = false ∧
      ¬ (s.mem c).send.buf.length < sendCap ∧
      s' = (s.setClients (s.hub.clients.delete c)).setSend c ⟨(s.mem c).send.buf, true⟩) := by
  unfold fanOutOne at h
  by_cases hu : (s.mem c).userID = msg.userID
  · rw [if_pos hu] at h
    cases hc : (s.mem c).send.closed with
    | true => simp [Chan.trySend, hc] at h
    | false =>
      by_cases hl : (s.mem c).send.buf.length < sendCap
      · simp [Chan.trySend, hc, hl] at h
        exact Or.inr (Or.inl ⟨hu, rfl, hl, h.symm⟩)
      · simp [Chan.trySend, Chan.close, hc, hl] at h
        exact Or.inr (Or.inr ⟨hu, rfl, hl, h.symm⟩)
  · rw [if_neg hu] at h
    simp at h
    exact Or.inl ⟨hu, h.symm⟩


@[simp] theorem State.setSend_mem_self (s : State) (c : ClientPtr) (ch : Chan) :
    (s.setSend c ch).mem c = { s.mem c with send := ch } := by
  simp [State.setSend, State.setClient]

theorem State.setSend_mem_of_ne (s : State) {c p : ClientPtr} (ch : Chan) (h : p ≠ c) :
    (s.setSend c ch).mem p = s.mem p := by
  simp [State.setSend, State.setClient, h]

@[simp] theorem State.setSend_hub (s : State) (c : ClientPtr) (ch : Chan) :
    (s.setSend c ch).hub = s.hub := rfl

@[simp] theorem State.setClients_mem (s : State) (m : ClientMap) :
    (s.setClients m).mem = s.mem := rfl

@[simp] theorem State.setClients_clients (s : State) (m : ClientMap) :
    (s.setClients m).hub.clients = m := rfl

@[simp] theorem State.setClients_broadcast (s : State) (m : ClientMap) :
    (s.setClients m).hub.broadcast = s.hub.broadcast := rfl

theorem fanOutOne_skip {msg : broadcastMsg} {s : State} {c : ClientPtr}
    (h : (s.mem c).userID ≠ msg.userID) : fanOutOne msg s c = .ok s := by
  simp [fanOutOne, h]

theorem fanOutOne_mem_of_ne {msg : broadcastMsg} {s s' : State} {c p : ClientPtr}
    (h : fanOutOne msg s c = .ok s') (hp : p ≠ c) : s'.mem p = s.mem p := by
  rcases fanOutOne_ok h with ⟨_, rfl⟩ | ⟨_, _, _, rfl⟩ | ⟨_, _, _, rfl⟩
  · rfl
  · exact State.setSend_mem_of_ne _ _ hp
  · rw [State.setSend_mem_of_ne _ _ hp]; rfl

theorem fanOutOne_userID {msg : broadcastMsg} {s s' : State} {c : ClientPtr}
    (h : fanOutOne msg s c = .ok s') (p : ClientPtr) :
    (s'.mem p).userID = (s.mem p).userID := by
  by_cases hp : p = c
  · subst hp
    rcases fanOutOne_ok h with ⟨_, rfl⟩ | ⟨_, _, _, rfl⟩ | ⟨_, _, _, rfl⟩ <;> simp
  · rw [fanOutOne_mem_of_ne h hp]

theorem fanOutOne_clients_of_ne {msg : broadcastMsg} {s s' : State} {c p : ClientPtr}
    (h : fanOutOne msg s c = .ok s') (hp : p ≠ c) :
    p ∈ s'.hub.clients ↔ p ∈ s.hub.clients := by
  rcases fanOutOne_ok h with ⟨_, rfl⟩ | ⟨_, _, _, rfl⟩ | ⟨_, _, _, rfl⟩
  · rfl
  · rfl
  · simp [ClientMap.mem_delete, hp]

theorem fanOutOne_clients_sub {msg : broadcastMsg} {s s' : State} {c p : ClientPtr}
    (h : fanOutOne msg s c = .ok s') (hp : p ∈ s'.hub.clients) : p ∈ s.hub.clients := by
  rcases fanOutOne_ok h with ⟨_, rfl⟩ | ⟨_, _, _, rfl⟩ | ⟨_, _, _, rfl⟩
  · exact hp
  · exact hp
  · simp only [State.setSend_hub, State.setClients_clients, ClientMap.mem_delete] at hp
    exact hp.1

/-- What `fanOut` returns is what its first step returns, continued. -/
theorem fanOut_cons_ok {msg : broadcastMsg} {c : ClientPtr} {rest : List ClientPtr}
    {s s' : State} (h : fanOut msg (c :: rest) s = .ok s') :
    ∃ s₁, fanOutOne msg s c = .ok s₁ ∧ fanOut msg rest s₁ = .ok s' := by
  unfold fanOut at h
  cases h1 : fanOutOne msg s c with
  | error e => simp [h1] at h
  | ok s₁ => exact ⟨s₁, rfl, by simpa [h1] using h⟩

theorem fanOut_userID {msg : broadcastMsg} {order : List ClientPtr} {s s' : State}
    (h : fanOut msg order s = .ok s') (p : ClientPtr) :
    (s'.mem p).userID = (s.mem p).userID := by
  induction order generalizing s with
  | nil => simp [fanOut] at h; rw [h]
  | cons c rest ih =>
    obtain ⟨s₁, h1, h2⟩ := fanOut_cons_ok h
    rw [ih h2, fanOutOne_userID h1]

theorem fanOut_mem_of_not_mem {msg : broadcastMsg} {order : List ClientPtr} {s s' : State}
    (h : fanOut msg order s = .ok s') {p : ClientPtr} (hp : p ∉ order) :
    s'.mem p = s.mem p := by
  induction order generalizing s with
  | nil => simp [fanOut] at h; rw [h]
  | cons c rest ih =>
    obtain ⟨s₁, h1, h2⟩ := fanOut_cons_ok h
    rw [List.mem_cons, not_or] at hp
    rw [ih h2 hp.2, fanOutOne_mem_of_ne h1 hp.1]

theorem fanOut_clients_of_not_mem {msg : broadcastMsg} {order : List ClientPtr}
    {s s' : State} (h : fanOut msg order s = .ok s') {p : ClientPtr} (hp : p ∉ order) :
    p ∈ s'.hub.clients ↔ p ∈ s.hub.clients := by
  induction order generalizing s with
  | nil => simp [fanOut] at h; rw [h]
  | cons c rest ih =>
    obtain ⟨s₁, h1, h2⟩ := fanOut_cons_ok h
    rw [List.mem_cons, not_or] at hp
    rw [ih h2 hp.2, fanOutOne_clients_of_ne h1 hp.1]

theorem fanOut_clients_sub {msg : broadcastMsg} {order : List ClientPtr}
    {s s' : State} (h : fanOut msg order s = .ok s') {p : ClientPtr}
    (hp : p ∈ s'.hub.clients) : p ∈ s.hub.clients := by
  induction order generalizing s with
  | nil => simp [fanOut] at h; rw [h]; exact hp
  | cons c rest ih =>
    obtain ⟨s₁, h1, h2⟩ := fanOut_cons_ok h
    exact fanOutOne_clients_sub h1 (ih h2)

/-- A connection of another subject is skipped by every iteration. -/
theorem fanOut_other_subject {msg : broadcastMsg} {order : List ClientPtr} {s s' : State}
    (h : fanOut msg order s = .ok s') {p : ClientPtr}
    (hp : (s.mem p).userID ≠ msg.userID) :
    s'.mem p = s.mem p ∧ (p ∈ s'.hub.clients ↔ p ∈ s.hub.clients) := by
  induction order generalizing s with
  | nil => simp [fanOut] at h; rw [h]; exact ⟨rfl, Iff.rfl⟩
  | cons c rest ih =>
    obtain ⟨s₁, h1, h2⟩ := fanOut_cons_ok h
    by_cases hc : p = c
    · subst hc
      rw [fanOutOne_skip hp] at h1
      cases h1
      exact ih h2 hp
    · have hm := fanOutOne_mem_of_ne h1 hc
      have := ih h2 (by rw [hm]; exact hp)
      rw [this.1, this.2, hm, fanOutOne_clients_of_ne h1 hc]
      exact ⟨rfl, Iff.rfl⟩


theorem fanOutOne_total {msg : broadcastMsg} {s : State} {c : ClientPtr}
    (h : (s.mem c).userID = msg.userID → (s.mem c).send.closed = false) :
    ∃ s', fanOutOne msg s c = .ok s' := by
  unfold fanOutOne
  by_cases hu : (s.mem c).userID = msg.userID
  · have hc := h hu
    by_cases hl : (s.mem c).send.buf.length < sendCap
    · simp [hu, Chan.trySend, hc, hl]
    · simp [hu, Chan.trySend, Chan.close, hc, hl]
  · simp [hu]

/-- The loop completes when the queues it sends on are open. -/
theorem fanOut_total {msg : broadcastMsg} {order : List ClientPtr} (hnd : order.Nodup)
    {s : State}
    (h : ∀ p, p ∈ order → (s.mem p).userID = msg.userID → (s.mem p).send.closed = false) :
    ∃ s', fanOut msg order s = .ok s' := by
  induction order generalizing s with
  | nil => exact ⟨s, rfl⟩
  | cons c rest ih =>
    obtain ⟨s₁, h1⟩ := fanOutOne_total (h c (List.mem_cons_self c rest))
    rw [List.nodup_cons] at hnd
    have hrest : ∀ p, p ∈ rest → (s₁.mem p).userID = msg.userID →
        (s₁.mem p).send.closed = false := by
      intro p hp hu
      have hne : p ≠ c := fun e => hnd.1 (e ▸ hp)
      rw [fanOutOne_mem_of_ne h1 hne] at hu ⊢
      exact h p (List.mem_cons_of_mem c hp) hu
    obtain ⟨s', h2⟩ := ih hnd.2 hrest
    exact ⟨s', by simp [fanOut, h1, h2]⟩

theorem handleBroadcast_total {s : State} (msg : broadcastMsg) (h : RegisteredOpen s) :
    ∃ s', handleBroadcast s msg = .ok s' :=
  fanOut_total s.hub.clients.nodup (fun p hp _ => h p hp)

/-! ## Tenant isolation of the fan-out -/

/-- C1. Handling a publish addressed to subject `msg.userID` leaves unchanged
the outbound queue and the registry membership of every connection of another
subject, and the outbound queue of every connection that is not registered;
and the handling does complete whenever the registered queues are open. -/
theorem tenant_isolation (s : State) (msg : broadcastMsg) :
    (∀ s', handle s (.publish msg) = .ok s' →
      (∀ c, (s.mem c).userID ≠ msg.userID →
        (s'.mem c).send = (s.mem c).send ∧ (c ∈ s'.hub.clients ↔ c ∈ s.hub.clients)) ∧
      (∀ c, c ∉ s.hub.clients → (s'.mem c).send = (s.mem c).send)) ∧
    (RegisteredOpen s → ∃ s', handle s (.publish msg) = .ok s') := by
  refine ⟨fun s' h => ⟨fun c hc => ?_, fun c hc => ?_⟩, fun h => handleBroadcast_total msg h⟩
  · have := fanOut_other_subject h hc
    exact ⟨by rw [this.1], this.2⟩
  · rw [fanOut_mem_of_not_mem h hc]

/-- C1, scenario: with A1, A2 registered as "u1" and a third connection as
"u2", a publish to "u1" completes and leaves the third connection's queue empty
and the connection registered. -/
theorem tenant_isolation_witness :
    handle scenario (.publish ⟨"u1", taskUpdate⟩)
        = .ok (after scenario (handle scenario (.publish ⟨"u1", taskUpdate⟩))) ∧
      ((after scenario (handle scenario (.publish ⟨"u1", taskUpdate⟩))).mem 3).send
        = Chan.make ∧
      3 ∈ (after scenario (handle scenario (.publish ⟨"u1", taskUpdate⟩))).hub.clients :=
  ⟨rfl,
   ((((tenant_isolation scenario ⟨"u1", taskUpdate⟩).1 _ rfl).1 3 (by decide)).1).trans rfl,
   ((((tenant_isolation scenario ⟨"u1", taskUpdate⟩).1 _ rfl).1 3 (by decide)).2).mpr
     (by decide)⟩


/-- The iteration that visits `c`: the loop reaches it with `c` as it was at
the start, and nothing after it touches `c` again. -/
theorem fanOut_visit {msg : broadcastMsg} {order : List ClientPtr} (hnd : order.Nodup)
    {s s' : State} (h : fanOut msg order s = .ok s') {c : ClientPtr} (hc : c ∈ order) :
    ∃ s₀ s₁, s₀.mem c = s.mem c ∧ (c ∈ s₀.hub.clients ↔ c ∈ s.hub.clients) ∧
      fanOutOne msg s₀ c = .ok s₁ ∧
      s'.mem c = s₁.mem c ∧ (c ∈ s'.hub.clients ↔ c ∈ s₁.hub.clients) := by
  induction order generalizing s with
  | nil => cases hc
  | cons d rest ih =>
    obtain ⟨s₁, h1, h2⟩ := fanOut_cons_ok h
    rw [List.nodup_cons] at hnd
    by_cases hcd : c = d
    · subst hcd
      exact ⟨s, s₁, rfl, Iff.rfl, h1, fanOut_mem_of_not_mem h2 hnd.1,
        fanOut_clients_of_not_mem h2 hnd.1⟩
    · have hrest : c ∈ rest := by
        rcases List.mem_cons.mp hc with e | e
        · exact absurd e hcd
        · exact e
      obtain ⟨t₀, t₁, e1, e2, e3, e4, e5⟩ := ih hnd.2 h2 hrest
      exact ⟨t₀, t₁, by rw [e1, fanOutOne_mem_of_ne h1 hcd],
        by rw [e2, fanOutOne_clients_of_ne h1 hcd], e3, e4, e5⟩

/-- A registered connection of the addressed subject with room in its queue
gets the payload appended and stays registered. -/
theorem handleBroadcast_deliver {s s' : State} {msg : broadcastMsg}
    (h : handleBroadcast s msg = .ok s') {c : ClientPtr} (hc : c ∈ s.hub.clients)
    (hu : (s.mem c).userID = msg.userID) (hl : (s.mem c).send.buf.length < sendCap) :
    (s'.mem c).send = ⟨(s.mem c).send.buf ++ [msg.data], false⟩ ∧ c ∈ s'.hub.clients := by
  obtain ⟨s₀, s₁, e1, e2, e3, e4, e5⟩ := fanOut_visit s.hub.clients.nodup h hc
  rcases fanOutOne_ok e3 with ⟨hne, _⟩ | ⟨_, _, _, rfl⟩ | ⟨_, _, hnl, _⟩
  · rw [e1] at hne; exact absurd hu hne
  · rw [e4, e5]
    simp only [State.setSend_mem_self, State.setSend_hub, e1]
    exact ⟨trivial, e2.mpr hc⟩
  · rw [e1] at hnl; exact absurd hl hnl

/-- A registered connection of the addressed subject whose queue is full is
removed from the registry and its queue is closed with its content kept. -/
theorem handleBroadcast_evict {s s' : State} {msg : broadcastMsg}
    (h : handleBroadcast s msg = .ok s') {c : ClientPtr} (hc : c ∈ s.hub.clients)
    (hu : (s.mem c).userID = msg.userID) (hl : ¬ (s.mem c).send.buf.length < sendCap) :
    (s'.mem c).send = ⟨(s.mem c).send.buf, true⟩ ∧ c ∉ s'.hub.clients := by
  obtain ⟨s₀, s₁, e1, _, e3, e4, e5⟩ := fanOut_visit s.hub.clients.nodup h hc
  rcases fanOutOne_ok e3 with ⟨hne, _⟩ | ⟨_, _, hlt, _⟩ | ⟨_, _, _, rfl⟩
  · rw [e1] at hne; exact absurd hu hne
  · rw [e1] at hlt; exact absurd hlt hl
  · rw [e4, e5]
    simp only [State.setSend_mem_self, State.setSend_hub, State.setClients_mem,
      State.setClients_clients, ClientMap.mem_delete, e1]
    exact ⟨trivial, fun hh => hh.2 rfl⟩

theorem backlog_length : backlog.length = 256 := List.length_replicate 256 [0]

theorem not_mem_backlog : taskUpdate ∉ backlog := fun h =>
  absurd (List.eq_of_mem_replicate h) (by decide)

theorem saturated_publish :
    handleBroadcast saturated ⟨"u1", taskUpdate⟩
      = .ok ((saturated.setClients (saturated.hub.clients.delete 1)).setSend 1
          ⟨backlog, true⟩) := by
  have hm : saturated.mem 1 = ⟨"u1", ⟨backlog, false⟩, ⟨[], false⟩⟩ := rfl
  have hk : saturated.hub.clients.keys = [1] := rfl
  simp [handleBroadcast, hk, fanOut, fanOutOne, hm, Chan.trySend, Chan.close, sendCap,
    backlog_length]

theorem Run_cons_of_ok {s s₁ : State} {r : Req} (rest : List Req)
    (h : handle s r = .ok s₁) : Run s (r :: rest) = Run s₁ rest := by
  rw [Run, h]

/-- Publishing `n` more messages to a registered connection that has room for
them queues them all and leaves everything else as it is. -/
theorem Run_fill (n k : Nat) (s : State) (hk : s.hub.clients.keys = [1])
    (hu : (s.mem 1).userID = "u1") (hq : (s.mem 1).send = ⟨List.replicate k [0], false⟩)
    (hroom : k + n ≤ 256) :
    ∃ s', Run s (List.replicate n (.publish ⟨"u1", [0]⟩)) = .ok s' ∧
      s'.hub.clients.keys = [1] ∧ (s'.mem 1).send = ⟨List.replicate (k + n) [0], false⟩ ∧
      (s'.mem 1).userID = "u1" ∧ (s'.mem 1).conn = (s.mem 1).conn ∧
      ∀ p, p ≠ 1 → s'.mem p = s.mem p := by
  induction n generalizing k s with
  | zero => exact ⟨s, rfl, hk, hq, hu, rfl, fun _ _ => rfl⟩
  | succ n ih =>
    have hstep : handle s (.publish ⟨"u1", [0]⟩)
        = .ok (s.setSend 1 ⟨List.replicate (k + 1) [0], false⟩) := by
      have hlen : k < sendCap := by unfold sendCap; omega
      simp [handle, handleBroadcast, hk, fanOut, fanOutOne, hu, hq, Chan.trySend, hlen,
        List.replicate_succ']
    obtain ⟨s', h, h1, h2, h3, h4, h5⟩ := ih (k + 1) (s.setSend 1 ⟨List.replicate (k + 1) [0], false⟩)
      hk (by simp [hu]) (by simp) (by omega)
    refine ⟨s', ?_, h1, ?_, h3, ?_, fun p hp => ?_⟩
    · rw [List.replicate_succ, Run_cons_of_ok _ hstep]; exact h
    · rw [h2]; congr 2; omega
    · rw [h4]; simp
    · rw [h5 p hp, State.setSend_mem_of_ne _ _ hp]

/-- The stalled state is reached from a new hub by registering the client at
address 1 and publishing 256 messages to its subject while its write task
takes none. -/
theorem saturated_reachable :
    ∃ s', Run (boot "secret" scenarioUsers)
        (.register 1 :: List.replicate 256 (.publish ⟨"u1", [0]⟩)) = .ok s' ∧
      s'.hub.clients.keys = saturated.hub.clients.keys ∧ ∀ p, s'.mem p = saturated.mem p := by
  obtain ⟨s', h, h1, h2, h3, h4, h5⟩ := Run_fill 256 0
    ((boot "secret" scenarioUsers).setClients
      ((boot "secret" scenarioUsers).hub.clients.insert 1)) rfl rfl rfl (by omega)
  have hreg : handle (boot "secret" scenarioUsers) (.register 1)
      = .ok ((boot "secret" scenarioUsers).setClients
          ((boot "secret" scenarioUsers).hub.clients.insert 1)) := rfl
  refine ⟨s', by rw [Run_cons_of_ok _ hreg]; exact h, h1, fun p => ?_⟩
  by_cases hp : p = 1
  · subst hp
    cases hm : s'.mem 1 with
    | mk u q cn =>
      rw [hm] at h2 h3 h4
      simp only at h2 h3 h4
      subst h2 h3 h4
      rfl
  · rw [h5 p hp]
    simp [saturated, boot, hp]

/-! ## Completeness of the fan-out -/

/-- C2, as stated, fails: in the stalled state (`saturated_reachable`) the
connection at address 1 is registered under "u1" with 256 queued messages; a
publish to "u1" completes, yet the payload is not in its queue, which is left
as it was. -/
theorem fanout_completeness_counterexample :
    1 ∈ saturated.hub.clients ∧ (saturated.mem 1).userID = "u1" ∧
    ∃ s', handle saturated (.publish ⟨"u1", taskUpdate⟩) = .ok s' ∧
      (s'.mem 1).send.buf = (saturated.mem 1).send.buf ∧
      taskUpdate ∉ (s'.mem 1).send.buf := by
  refine ⟨by decide, rfl, _, saturated_publish, ?_, ?_⟩
  · simp [saturated]
  · simpa using not_mem_backlog

/-- C2, amended. Whenever handling a publish completes, every connection
registered under the addressed subject whose queue holds fewer than 256
messages has the payload appended at the tail of its queue and stays
registered with its queue open; and the handling does complete in every hub
state whose registered connections have open queues. A connection registered
under the addressed subject whose queue already holds 256 messages does not
get the payload: its queue is left as it was and it leaves the registry. -/
theorem fanout_completeness (s : State) (msg : broadcastMsg) :
    (∀ s', handle s (.publish msg) = .ok s' →
      ∀ c, c ∈ s.hub.clients → (s.mem c).userID = msg.userID →
        (s.mem c).send.buf.length < 256 →
        (s'.mem c).send.buf = (s.mem c).send.buf ++ [msg.data] ∧
        (s'.mem c).send.closed = false ∧ c ∈ s'.hub.clients) ∧
    (RegisteredOpen s → ∃ s', handle s (.publish msg) = .ok s') ∧
    (∀ s', handle s (.publish msg) = .ok s' →
      ∀ c, c ∈ s.hub.clients → (s.mem c).userID = msg.userID →
        256 ≤ (s.mem c).send.buf.length →
        (s'.mem c).send.buf = (s.mem c).send.buf ∧ c ∉ s'.hub.clients) := by
  refine ⟨fun s' h c hc hu hl => ?_, fun hopen => handleBroadcast_total msg hopen,
    fun s' h c hc hu hl => ?_⟩
  · have := handleBroadcast_deliver h hc hu hl
    rw [this.1]
    exact ⟨rfl, rfl, this.2⟩
  · have := handleBroadcast_evict h hc hu (Nat.not_lt.mpr hl)
    rw [this.1]
    exact ⟨rfl, this.2⟩

/-- C2, scenario: A1 and A2 are registered as "u1"; handling the publish of
the task update puts that document in the queue of A1 and of A2. -/
theorem fanout_completeness_witness :
    RegisteredOpen scenario ∧
    handle scenario (.publish ⟨"u1", taskUpdate⟩)
      = .ok (after scenario (handle scenario (.publish ⟨"u1", taskUpdate⟩))) ∧
    ((after scenario (handle scenario (.publish ⟨"u1", taskUpdate⟩))).mem 1).send.buf
      = [taskUpdate] ∧
    ((after scenario (handle scenario (.publish ⟨"u1", taskUpdate⟩))).mem 2).send.buf
      = [taskUpdate] :=
  ⟨fun _ _ => rfl, rfl,
   ((fanout_completeness scenario ⟨"u1", taskUpdate⟩).1 _ rfl 1 (by decide) rfl (by decide)).1,
   ((fanout_completeness scenario ⟨"u1", taskUpdate⟩).1 _ rfl 2 (by decide) rfl (by decide)).1⟩

/-! ## Byte-identical payloads -/

/-- Every queue is, after the fan-out, either as before or as before with the
payload appended. -/
theorem handleBroadcast_buf {s s' : State} {msg : broadcastMsg}
    (h : handleBroadcast s msg = .ok s') (c : ClientPtr) :
    (s'.mem c).send.buf = (s.mem c).send.buf ∨
    (s'.mem c).send.buf = (s.mem c).send.buf ++ [msg.data] := by
  by_cases hc : c ∈ s.hub.clients.keys
  · obtain ⟨s₀, s₁, e1, _, e3, e4, _⟩ := fanOut_visit s.hub.clients.nodup h hc
    rcases fanOutOne_ok e3 with ⟨_, rfl⟩ | ⟨_, _, _, rfl⟩ | ⟨_, _, _, rfl⟩
    · left; rw [e4, e1]
    · right; rw [e4]; simp [e1]
    · left; rw [e4]; simp [e1]
  · left; rw [fanOut_mem_of_not_mem h hc]

/-- C3. `Broadcast` hands the dispatch loop one message whose bytes are the one
serialization of the event, and handling a publish changes a queue only by
appending exactly the bytes of that publish: two connections that receive the
same publish hold equal bytes, the serialization of the event. -/
theorem byte_identical {α : Type} (marshal : α → Option Bytes) (userID : String)
    (event : α) (data : Bytes) (hm : marshal event = some data) :
    (∀ s s', Broadcast marshal s userID event = .ok s' →
      s'.hub.broadcast = s.hub.broadcast ++ [⟨userID, data⟩]) ∧
    (∀ t t', handle t (.publish ⟨userID, data⟩) = .ok t' →
      ∀ c, (t'.mem c).send.buf ≠ (t.mem c).send.buf →
        (t'.mem c).send.buf = (t.mem c).send.buf ++ [data]) := by
  refine ⟨fun s s' h => ?_, fun t t' h c hne => ?_⟩
  · unfold Broadcast at h
    rw [hm] at h
    by_cases hl : s.hub.broadcast.length < broadcastCap
    · simp only [hl, if_true, Except.ok.injEq] at h
      rw [← h]
    · simp [hl] at h
  · rcases handleBroadcast_buf h c with e | e
    · exact absurd e hne
    · exact e


/-- C3, scenario: the task update is published to "u1" in the scenario state;
one message with its serialization is pending, and after the loop handles it
A1 and A2 hold the same bytes. -/
theorem byte_identical_witness :
    sampleMarshal 0 = some taskUpdate ∧
    (after scenario (Broadcast sampleMarshal scenario "u1" 0)).hub.broadcast
      = [⟨"u1", taskUpdate⟩] ∧
    ((after scenario (handle scenario (.publish ⟨"u1", taskUpdate⟩))).mem 1).send.buf
      = [taskUpdate] ∧
    ((after scenario (handle scenario (.publish ⟨"u1", taskUpdate⟩))).mem 2).send.buf
      = [taskUpdate] :=
  ⟨rfl,
   (byte_identical sampleMarshal "u1" 0 taskUpdate rfl).1 scenario _ rfl,
   (byte_identical sampleMarshal "u1" 0 taskUpdate rfl).2 scenario _ rfl 1 (by decide),
   (byte_identical sampleMarshal "u1" 0 taskUpdate rfl).2 scenario _ rfl 2 (by decide)⟩

/-! ## Eviction of a saturated receiver -/

theorem fanOutOne_closed {msg : broadcastMsg} {s s' : State} {d : ClientPtr}
    (h : fanOutOne msg s d = .ok s') {c : ClientPtr}
    (hc : (s.mem c).send.closed = true) : (s'.mem c).send = (s.mem c).send := by
  by_cases hcd : c = d
  · subst hcd
    rcases fanOutOne_ok h with ⟨_, rfl⟩ | ⟨_, ho, _, _⟩ | ⟨_, ho, _, _⟩
    · rfl
    · rw [hc] at ho; cases ho
    · rw [hc] at ho; cases ho
  · rw [fanOutOne_mem_of_ne h hcd]

theorem fanOut_closed {msg : broadcastMsg} {order : List ClientPtr} {s s' : State}
    (h : fanOut msg order s = .ok s') {c : ClientPtr}
    (hc : (s.mem c).send.closed = true) : (s'.mem c).send = (s.mem c).send := by
  induction order generalizing s with
  | nil => simp [fanOut] at h; rw [h]
  | cons d rest ih =>
    obtain ⟨s₁, h1, h2⟩ := fanOut_cons_ok h
    have e := fanOutOne_closed h1 hc
    rw [ih h2 (by rw [e]; exact hc), e]

/-- The three ways an unregister request can complete. -/
theorem handleUnregister_ok {s s' : State} {d : ClientPtr}
    (h : handleUnregister s d = .ok s') :
    (d ∉ s.hub.clients ∧ s' = s) ∨
    (d ∈ s.hub.clients ∧ (s.mem d).send.closed = false ∧
      s' = (s.setClients (s.hub.clients.delete d)).setSend d ⟨(s.mem d).send.buf, true⟩) := by
  unfold handleUnregister at h
  by_cases hd : d ∈ s.hub.clients
  · rw [if_pos hd] at h
    cases hc : (s.mem d).send.closed with
    | true => simp [Chan.close, hc] at h
    | false =>
      simp [Chan.close, hc] at h
      exact Or.inr ⟨hd, rfl, h.symm⟩
  · rw [if_neg hd] at h
    simp at h
    exact Or.inl ⟨hd, h.symm⟩

/-- A closed queue is never written to and never reopened. -/
theorem handle_closed {s s' : State} {r : Req} (h : handle s r = .ok s') {c : ClientPtr}
    (hc : (s.mem c).send.closed = true) : (s'.mem c).send = (s.mem c).send := by
  cases r with
  | register d =>
    simp [handle, handleRegister] at h
    rw [← h]; rfl
  | unregister d =>
    rcases handleUnregister_ok h with ⟨_, rfl⟩ | ⟨_, ho, rfl⟩
    · rfl
    · by_cases hcd : c = d
      · subst hcd; rw [hc] at ho; cases ho
      · rw [State.setSend_mem_of_ne _ _ hcd]; rfl
  | publish msg => exact fanOut_closed h hc

theorem Run_cons_ok {s s' : State} {r : Req} {rest : List Req}
    (h : Run s (r :: rest) = .ok s') :
    ∃ s₁, handle s r = .ok s₁ ∧ Run s₁ rest = .ok s' := by
  unfold Run at h
  cases h1 : handle s r with
  | error e => simp [h1] at h
  | ok s₁ => exact ⟨s₁, rfl, by simpa [h1] using h⟩

theorem Run_append_ok {pre post : List Req} {s s' : State}
    (h : Run s (pre ++ post) = .ok s') :
    ∃ s₁, Run s pre = .ok s₁ ∧ Run s₁ post = .ok s' := by
  induction pre generalizing s with
  | nil => exact ⟨s, rfl, h⟩
  | cons r rest ih =>
    have h' : Run s (r :: (rest ++ post)) = .ok s' := h
    obtain ⟨s₁, h1, h2⟩ := Run_cons_ok h'
    obtain ⟨s₂, h3, h4⟩ := ih h2
    exact ⟨s₂, by rw [Run_cons_of_ok _ h1]; exact h3, h4⟩

theorem Run_closed {s s' : State} {reqs : List Req} (h : Run s reqs = .ok s')
    {c : ClientPtr} (hc : (s.mem c).send.closed = true) :
    (s'.mem c).send = (s.mem c).send := by
  induction reqs generalizing s with
  | nil => simp [Run] at h; rw [h]
  | cons r rest ih =>
    obtain ⟨s₁, h1, h2⟩ := Run_cons_ok h
    have e := handle_closed h1 hc
    rw [ih h2 (by rw [e]; exact hc), e]

/-- C4. Let `c` be registered under the addressed subject with 256 messages
in its queue. Whenever handling the publish completes, `c` is no longer in the
registry and its queue is closed, with nothing added to it; and whatever
requests the loop handles afterwards, publishes to any subject included, the
queue of `c` stays exactly as the eviction left it. The handling does complete
in every hub state whose registered connections have open queues. -/
theorem eviction_of_saturated (s : State) (msg : broadcastMsg) (c : ClientPtr)
    (hc : c ∈ s.hub.clients) (hu : (s.mem c).userID = msg.userID)
    (hfull : (s.mem c).send.buf.length = 256) :
    (∀ s', handle s (.publish msg) = .ok s' →
      c ∉ s'.hub.clients ∧ (s'.mem c).send.closed = true ∧
      (s'.mem c).send.buf = (s.mem c).send.buf ∧
      ∀ later s'', Run s' later = .ok s'' → (s''.mem c).send = (s'.mem c).send) ∧
    (RegisteredOpen s → ∃ s', handle s (.publish msg) = .ok s') := by
  refine ⟨fun s' h => ?_, fun hopen => handleBroadcast_total msg hopen⟩
  have hl : ¬ (s.mem c).send.buf.length < sendCap := by
    rw [hfull]; exact Nat.lt_irrefl 256
  have := handleBroadcast_evict h hc hu hl
  refine ⟨this.2, by rw [this.1], by rw [this.1], fun later s'' hr => ?_⟩
  exact Run_closed hr (by rw [this.1])

/-- C4, the stalled connection: the publish evicts the connection at address
1 and closes its queue, and after two further publishes, to its own subject
and to another, its queue still holds the same 256 messages. -/
theorem eviction_of_saturated_witness :
    1 ∈ saturated.hub.clients ∧ (saturated.mem 1).send.buf.length = 256 ∧
    1 ∉ (after saturated (handle saturated (.publish ⟨"u1", taskUpdate⟩))).hub.clients ∧
    ((after saturated (handle saturated (.publish ⟨"u1", taskUpdate⟩))).mem 1).send.closed
      = true ∧
    ((after saturated (handle saturated (.publish ⟨"u1", taskUpdate⟩))).mem 1).send.buf
      = backlog ∧
    ((after saturated (Run saturated [.publish ⟨"u1", taskUpdate⟩,
        .publish ⟨"u1", taskUpdate⟩, .publish ⟨"u2", taskUpdate⟩])).mem 1).send
      = ⟨backlog, true⟩ := by
  have hh : handle saturated (.publish ⟨"u1", taskUpdate⟩)
      = .ok ((saturated.setClients (saturated.hub.clients.delete 1)).setSend 1
          ⟨backlog, true⟩) := saturated_publish
  obtain ⟨h1, h2, h3, h4⟩ :=
    (eviction_of_saturated saturated ⟨"u1", taskUpdate⟩ 1 (by decide) rfl backlog_length).1 _ hh
  have hrun : Run ((saturated.setClients (saturated.hub.clients.delete 1)).setSend 1
      ⟨backlog, true⟩) [.publish ⟨"u1", taskUpdate⟩, .publish ⟨"u2", taskUpdate⟩]
        = .ok ((saturated.setClients (saturated.hub.clients.delete 1)).setSend 1
          ⟨backlog, true⟩) := rfl
  have h5 := h4 _ _ hrun
  refine ⟨by decide, backlog_length, ?_, ?_, ?_, ?_⟩
  · rw [hh]; exact h1
  · rw [hh]; exact h2
  · rw [hh]; exact h3
  · have : Run saturated [.publish ⟨"u1", taskUpdate⟩, .publish ⟨"u1", taskUpdate⟩,
        .publish ⟨"u2", taskUpdate⟩]
          = .ok ((saturated.setClients (saturated.hub.clients.delete 1)).setSend 1
            ⟨backlog, true⟩) := by
      rw [Run, hh]; exact hrun
    rw [this]
    exact h5.trans (by simp [after])

/-! ## Unregister on an absent connection -/

/-- C6. Handling `unregister(c)` for a connection that is not in the registry
returns the very same state: registry and queues unchanged, no close, no
panic. And for every state, two unregisters of `c` in a row end exactly as one
does. -/
theorem unregister_absent_noop (s : State) (c : ClientPtr) :
    (c ∉ s.hub.clients → handle s (.unregister c) = .ok s) ∧
    Run s [.unregister c, .unregister c] = Run s [.unregister c] := by
  have hno : ∀ t : State, c ∉ t.hub.clients → handleUnregister t c = .ok t := by
    intro t ht
    simp [handleUnregister, ht]
  refine ⟨hno s, ?_⟩
  cases h : handleUnregister s c with
  | error e => simp [Run, handle, h]
  | ok s₁ =>
    have hc : c ∉ s₁.hub.clients := by
      rcases handleUnregister_ok h with ⟨hn, rfl⟩ | ⟨_, _, rfl⟩
      · exact hn
      · simp [ClientMap.mem_delete]
    simp [Run, handle, h, hno s₁ hc]

/-- C6, scenario: the client at address 7 was never registered; the client at
address 1 of the stalled state has been evicted by a publish. Unregistering
either leaves the state as it is. -/
theorem unregister_absent_noop_witness :
    7 ∉ scenario.hub.clients ∧ handle scenario (.unregister 7) = .ok scenario ∧
    Run saturated [.publish ⟨"u1", taskUpdate⟩, .unregister 1]
      = Run saturated [.publish ⟨"u1", taskUpdate⟩] := by
  refine ⟨by decide, (unregister_absent_noop scenario 7).1 (by decide), ?_⟩
  have hh : handle saturated (.publish ⟨"u1", taskUpdate⟩)
      = .ok ((saturated.setClients (saturated.hub.clients.delete 1)).setSend 1
          ⟨backlog, true⟩) := saturated_publish
  have := (unregister_absent_noop ((saturated.setClients (saturated.hub.clients.delete 1)).setSend 1
          ⟨backlog, true⟩) 1).1 (by decide)
  simp [Run, hh, this]

/-! ## Serialization failure -/

/-- C9. When serializing the event fails, `Broadcast` returns normally with
the state exactly as it was: nothing is put on the publish queue, so the
registry, the pending publishes and every outbound queue are unchanged. -/
theorem marshal_failure_drops {α : Type} (marshal : α → Option Bytes) (s : State)
    (userID : String) (event : α) (h : marshal event = none) :
    Broadcast marshal s userID event = .ok s := by
  simp [Broadcast, h]

/-- C9, scenario: an event that cannot be serialized, published to "u1". -/
theorem marshal_failure_drops_witness :
    sampleMarshal 2 = none ∧ Broadcast sampleMarshal scenario "u1" 2 = .ok scenario :=
  ⟨rfl, marshal_failure_drops sampleMarshal scenario "u1" 2 rfl⟩

/-! ## The registry against a plain set -/

theorem handleRegister_eq (s : State) (c : ClientPtr) :
    handle s (.register c) = .ok (s.setClients (s.hub.clients.insert c)) := rfl

theorem refModelFrom_cons (A : Finset ClientPtr) (op : RegOp) (ops : List RegOp) :
    refModelFrom A (op :: ops) = refModelFrom (refStep A op) ops := rfl

/-- One registry operation, when it completes, does to the registry what the
reference step does to the set. -/
theorem handle_regop_refines {s s' : State} {op : RegOp} {A : Finset ClientPtr}
    (hA : ∀ c, c ∈ s.hub.clients ↔ c ∈ A) (h : handle s op.toReq = .ok s') :
    ∀ c, c ∈ s'.hub.clients ↔ c ∈ refStep A op := by
  intro c
  cases op with
  | register d =>
    have : s' = s.setClients (s.hub.clients.insert d) := by
      have := handleRegister_eq s d
      simp only [RegOp.toReq] at h
      rw [this] at h
      exact (Except.ok.inj h).symm
    subst this
    simp [refStep, ClientMap.mem_insert, hA]
  | unregister d =>
    rcases handleUnregister_ok h with ⟨hn, rfl⟩ | ⟨_, _, rfl⟩
    · have hd : d ∉ A := fun hd => hn ((hA d).mpr hd)
      simp only [refStep, Finset.mem_erase, hA]
      constructor
      · intro hc; exact ⟨fun e => hd (e ▸ hc), hc⟩
      · intro hc; exact hc.2
    · simp [refStep, ClientMap.mem_delete, hA, and_comm]

theorem Run_regops_refines {ops : List RegOp} {s s' : State} {A : Finset ClientPtr}
    (hA : ∀ c, c ∈ s.hub.clients ↔ c ∈ A) (h : Run s (ops.map RegOp.toReq) = .ok s') :
    ∀ c, c ∈ s'.hub.clients ↔ c ∈ refModelFrom A ops := by
  induction ops generalizing s A with
  | nil => simp [Run] at h; subst h; exact hA
  | cons op rest ih =>
    obtain ⟨s₁, h1, h2⟩ := Run_cons_ok h
    rw [refModelFrom_cons]
    exact ih (handle_regop_refines hA h1) h2

/-- Registry operations complete as long as a closed queue belongs to a
connection that is unregistered and not registered again. -/
theorem Run_regops_total {ops : List RegOp} {s : State} (hno : NoReRegister ops)
    (hinv : ∀ c, (s.mem c).send.closed = true →
      c ∉ s.hub.clients ∧ RegOp.register c ∉ ops) :
    ∃ s', Run s (ops.map RegOp.toReq) = .ok s' := by
  induction ops generalizing s with
  | nil => exact ⟨s, rfl⟩
  | cons op rest ih =>
    cases op with
    | register d =>
      have hd : (s.mem d).send.closed ≠ true := fun hcl =>
        (hinv d hcl).2 (List.mem_cons_self _ _)
      have hstep := handleRegister_eq s d
      have hinv' : ∀ c, ((s.setClients (s.hub.clients.insert d)).mem c).send.closed = true →
          c ∉ (s.setClients (s.hub.clients.insert d)).hub.clients ∧
            RegOp.register c ∉ rest := by
        intro c hcl
        have hcl' : (s.mem c).send.closed = true := hcl
        have hcd : c ≠ d := fun e => hd (e ▸ hcl')
        obtain ⟨h1, h2⟩ := hinv c hcl'
        refine ⟨?_, fun hm => h2 (List.mem_cons_of_mem _ hm)⟩
        simp only [State.setClients_clients, ClientMap.mem_insert, not_or]
        exact ⟨hcd, h1⟩
      obtain ⟨s', h⟩ := ih hno hinv'
      exact ⟨s', by simp only [List.map_cons, Run, RegOp.toReq, hstep]; exact h⟩
    | unregister d =>
      obtain ⟨hnd, hno'⟩ := hno
      by_cases hd : d ∈ s.hub.clients
      · have hopen : (s.mem d).send.closed = false := by
          cases hcl : (s.mem d).send.closed with
          | false => rfl
          | true => exact absurd hd (hinv d hcl).1
        have hstep : handle s (.unregister d)
            = .ok ((s.setClients (s.hub.clients.delete d)).setSend d
                ⟨(s.mem d).send.buf, true⟩) := by
          simp [handle, handleUnregister, hd, Chan.close, hopen]
        have hinv' : ∀ c, (((s.setClients (s.hub.clients.delete d)).setSend d
              ⟨(s.mem d).send.buf, true⟩).mem c).send.closed = true →
            c ∉ ((s.setClients (s.hub.clients.delete d)).setSend d
              ⟨(s.mem d).send.buf, true⟩).hub.clients ∧ RegOp.register c ∉ rest := by
          intro c hcl
          by_cases hcd : c = d
          · subst hcd
            exact ⟨by simp [ClientMap.mem_delete], hnd⟩
          · rw [State.setSend_mem_of_ne _ _ hcd] at hcl
            obtain ⟨h1, h2⟩ := hinv c hcl
            refine ⟨?_, fun hm => h2 (List.mem_cons_of_mem _ hm)⟩
            simp only [State.setSend_hub, State.setClients_clients, ClientMap.mem_delete]
            exact fun hh => h1 hh.1
        obtain ⟨s', h⟩ := ih hno' hinv'
        exact ⟨s', by simp only [List.map_cons, Run, RegOp.toReq, hstep]; exact h⟩
      · have hstep : handle s (.unregister d) = .ok s := by
          simp [handle, handleUnregister, hd]
        have hinv' : ∀ c, (s.mem c).send.closed = true →
            c ∉ s.hub.clients ∧ RegOp.register c ∉ rest := fun c hcl =>
          ⟨(hinv c hcl).1, fun hm => (hinv c hcl).2 (List.mem_cons_of_mem _ hm)⟩
        obtain ⟨s', h⟩ := ih hno' hinv'
        exact ⟨s', by simp only [List.map_cons, Run, RegOp.toReq, hstep]; exact h⟩

/-- What the fan-out does to the closed flag and the membership of a
connection: nothing, or it evicts a registered connection with an open queue. -/
theorem handleBroadcast_effect {s s' : State} {msg : broadcastMsg}
    (h : handleBroadcast s msg = .ok s') (d : ClientPtr) :
    ((s'.mem d).send.closed = (s.mem d).send.closed ∧
      (d ∈ s'.hub.clients ↔ d ∈ s.hub.clients)) ∨
    (d ∈ s.hub.clients ∧ (s.mem d).send.closed = false ∧
      (s'.mem d).send.closed = true ∧ d ∉ s'.hub.clients) := by
  by_cases hd : d ∈ s.hub.clients.keys
  · obtain ⟨s₀, s₁, e1, e2, e3, e4, e5⟩ := fanOut_visit s.hub.clients.nodup h hd
    rcases fanOutOne_ok e3 with ⟨_, rfl⟩ | ⟨_, ho, _, rfl⟩ | ⟨_, ho, _, rfl⟩
    · left; rw [e4, e5, e1, e2]; exact ⟨rfl, Iff.rfl⟩
    · left
      rw [e4, e5]
      simp only [State.setSend_mem_self, State.setSend_hub]
      rw [e1] at ho
      exact ⟨ho.symm, e2⟩
    · right
      rw [e1] at ho
      refine ⟨hd, ho, ?_, ?_⟩
      · rw [e4]; simp
      · rw [e5]; simp [ClientMap.mem_delete]
  · left
    rw [fanOut_mem_of_not_mem h hd, fanOut_clients_of_not_mem h hd]
    exact ⟨rfl, Iff.rfl⟩

/-- The invariant on closed queues: `D` holds the connections registered so far. A
queue is closed exactly when its connection was registered and has left the
registry; under it, a run that registers no connection of `D` and no
connection twice completes and keeps the invariant. -/
theorem Run_closed_iff {reqs : List Req} {s : State} {D : ClientPtr → Prop}
    (hsub : ∀ c, c ∈ s.hub.clients → D c)
    (hcl : ∀ c, (s.mem c).send.closed = true ↔ (D c ∧ c ∉ s.hub.clients))
    (hD : ∀ c, D c → Req.register c ∉ reqs)
    (hreg : ∀ c, reqs.count (.register c) ≤ 1) :
    ∃ s', Run s reqs = .ok s' ∧
      ∀ c, (s'.mem c).send.closed = true ↔
        ((D c ∨ Req.register c ∈ reqs) ∧ c ∉ s'.hub.clients) := by
  induction reqs generalizing s D with
  | nil =>
    refine ⟨s, rfl, fun c => ?_⟩
    rw [hcl c]
    simp
  | cons r rest ih =>
    have hreg' : ∀ c, rest.count (.register c) ≤ 1 := fun c =>
      le_trans (List.count_le_count_cons _ _ _) (hreg c)
    have hD' : ∀ c, D c → Req.register c ∉ rest := fun c hc hm =>
      hD c hc (List.mem_cons_of_mem _ hm)
    cases r with
    | register d =>
      have hdD : ¬ D d := fun hd => hD d hd (List.mem_cons_self _ _)
      have hdrest : Req.register d ∉ rest := by
        intro hm
        have h1 := hreg d
        rw [List.count_cons_self] at h1
        have h2 : 0 < rest.count (.register d) := List.count_pos_iff.mpr hm
        omega
      obtain ⟨s', h, hres⟩ := ih (s := s.setClients (s.hub.clients.insert d))
        (D := fun c => D c ∨ c = d)
        (by
          intro c hc
          simp only [State.setClients_clients, ClientMap.mem_insert] at hc
          rcases hc with e | hc
          · exact Or.inr e
          · exact Or.inl (hsub c hc))
        (by
          intro c
          simp only [State.setClients_mem, State.setClients_clients, ClientMap.mem_insert,
            not_or]
          rw [hcl c]
          constructor
          · rintro ⟨h1, h2⟩
            exact ⟨Or.inl h1, fun e => hdD (e ▸ h1), h2⟩
          · rintro ⟨h1 | h1, h2, h3⟩
            · exact ⟨h1, h3⟩
            · exact absurd h1 h2)
        (by
          rintro c (hc | rfl)
          · exact hD' c hc
          · exact hdrest)
        hreg'
      refine ⟨s', by simp only [Run, handleRegister_eq]; exact h, fun c => ?_⟩
      rw [hres c]
      simp only [List.mem_cons, Req.register.injEq]
      tauto
    | unregister d =>
      have hmem : ∀ c, Req.register c ∈ Req.unregister d :: rest ↔ Req.register c ∈ rest := by
        intro c; simp
      by_cases hd : d ∈ s.hub.clients
      · have hopen : (s.mem d).send.closed = false := by
          cases hc : (s.mem d).send.closed with
          | false => rfl
          | true => exact absurd hd ((hcl d).mp hc).2
        have hstep : handle s (.unregister d)
            = .ok ((s.setClients (s.hub.clients.delete d)).setSend d
                ⟨(s.mem d).send.buf, true⟩) := by
          simp [handle, handleUnregister, hd, Chan.close, hopen]
        obtain ⟨s', h, hres⟩ := ih
          (s := (s.setClients (s.hub.clients.delete d)).setSend d ⟨(s.mem d).send.buf, true⟩)
          (D := D)
          (by
            intro c hc
            simp only [State.setSend_hub, State.setClients_clients,
              ClientMap.mem_delete] at hc
            exact hsub c hc.1)
          (by
            intro c
            simp only [State.setSend_hub, State.setClients_clients, ClientMap.mem_delete]
            by_cases hcd : c = d
            · subst hcd
              simp only [State.setSend_mem_self, ne_eq, not_true_eq_false, and_false,
                not_false_eq_true, and_true, true_iff]
              exact hsub c hd
            · rw [State.setSend_mem_of_ne _ _ hcd, State.setClients_mem, hcl c]
              simp [hcd])
          hD' hreg'
        refine ⟨s', by simp only [Run, hstep]; exact h, fun c => ?_⟩
        rw [hres c, hmem c]
      · have hstep : handle s (.unregister d) = .ok s := by
          simp [handle, handleUnregister, hd]
        obtain ⟨s', h, hres⟩ := ih hsub hcl hD' hreg'
        refine ⟨s', by simp only [Run, hstep]; exact h, fun c => ?_⟩
        rw [hres c, hmem c]
    | publish msg =>
      have hmem : ∀ c, Req.register c ∈ Req.publish msg :: rest ↔ Req.register c ∈ rest := by
        intro c; simp
      have hopen : RegisteredOpen s := by
        intro c hc
        cases hcc : (s.mem c).send.closed with
        | false => rfl
        | true => exact absurd hc ((hcl c).mp hcc).2
      obtain ⟨s₁, h1⟩ := handleBroadcast_total msg hopen
      obtain ⟨s', h, hres⟩ := ih (s := s₁) (D := D)
        (fun c hc => hsub c (fanOut_clients_sub h1 hc))
        (by
          intro c
          rcases handleBroadcast_effect h1 c with ⟨e1, e2⟩ | ⟨e1, _, e3, e4⟩
          · rw [e1, e2]; exact hcl c
          · simp only [e3, true_iff]
            exact ⟨hsub c e1, e4⟩)
        hD' hreg'
      refine ⟨s', ?_, fun c => ?_⟩
      · have : handle s (.publish msg) = .ok s₁ := h1
        simp only [Run, this]; exact h
      · rw [hres c, hmem c]

/-- Why a premise on the registrations is needed for the loop to go on: were a
connection registered again after its unregister and unregistered again, the
loop would close its queue a second time and halt. `HandleWS` builds a new
`Client` for every registration and is the only sender on `h.register`, so
`Run` receives no such sequence. -/
theorem Run_reregister_halts :
    Run (boot "secret" scenarioUsers)
        [.register 1, .unregister 1, .register 1, .unregister 1] = .error .closeOfClosed :=
  rfl

/-- C5. On a hub created by `NewHub`, let the loop handle a sequence of register
and unregister operations. Then the registry holds exactly the connections of
the reference set (insert on register, erase on unregister) and no connection
twice, and the same is true after each operation: for every split of the
sequence the loop has handled the first part, the registry is then the
reference set of that part, and the run goes on from there. The loop does
handle the whole sequence when no connection is registered again after an
unregister of it (registering a connection that is registered is allowed and
leaves a single entry), and also when no connection is registered twice. -/
theorem registry_refines_set (jwtSecret : String) (users : ClientPtr → String)
    (ops : List RegOp) :
    (∀ s', Run (boot jwtSecret users) (ops.map RegOp.toReq) = .ok s' →
      (∀ c, c ∈ s'.hub.clients ↔ c ∈ refModel ops) ∧
      (∀ c, s'.hub.clients.keys.count c ≤ 1) ∧
      ∀ done todo, ops = done ++ todo →
        ∃ s₁, Run (boot jwtSecret users) (done.map RegOp.toReq) = .ok s₁ ∧
          (∀ c, c ∈ s₁.hub.clients ↔ c ∈ refModel done) ∧
          (∀ c, s₁.hub.clients.keys.count c ≤ 1) ∧
          Run s₁ (todo.map RegOp.toReq) = .ok s') ∧
    (NoReRegister ops → ∃ s', Run (boot jwtSecret users) (ops.map RegOp.toReq) = .ok s') ∧
    ((∀ c, ops.count (.register c) ≤ 1) →
      ∃ s', Run (boot jwtSecret users) (ops.map RegOp.toReq) = .ok s') := by
  have hboot : ∀ c, c ∈ (boot jwtSecret users).hub.clients ↔ c ∈ (∅ : Finset ClientPtr) :=
    fun c => by simp [boot, NewHub, ClientMap.empty, ClientMap.mem_iff]
  refine ⟨fun s' h => ⟨Run_regops_refines hboot h,
      fun c => List.nodup_iff_count_le_one.mp s'.hub.clients.nodup c, ?_⟩,
    fun hno => Run_regops_total hno (fun c hcl => ?_), fun honce => ?_⟩
  rotate_left 2
  · have hinj : Function.Injective RegOp.toReq := by
      intro a b hab
      cases a <;> cases b <;> simp [RegOp.toReq] at hab <;> simp [hab]
    obtain ⟨s', h, _⟩ := Run_closed_iff (s := boot jwtSecret users) (D := fun _ => False)
      (fun c hc => by simp [boot, NewHub, ClientMap.empty, ClientMap.mem_iff] at hc)
      (fun c => by simp [boot, Chan.make])
      (fun c hc => hc.elim)
      (fun c => by
        have := List.count_map_of_injective ops RegOp.toReq hinj (.register c)
        simp only [RegOp.toReq] at this
        rw [this]
        exact honce c)
    exact ⟨s', h⟩
  · intro done todo hsplit
    subst hsplit
    rw [List.map_append] at h
    obtain ⟨s₁, h1, h2⟩ := Run_append_ok h
    exact ⟨s₁, h1, Run_regops_refines hboot h1,
      fun c => List.nodup_iff_count_le_one.mp s₁.hub.clients.nodup c, h2⟩
  · simp [boot, Chan.make] at hcl

/-- C5, a sample sequence: two clients register, one of them twice, one is
unregistered and a client never registered is unregistered. It registers no
connection after unregistering it, the loop handles it, and the registry ends
as the set with the one connection still registered; after the first three
operations it was the set of both. -/
theorem registry_refines_set_witness :
    NoReRegister sampleOps ∧
    Run (boot "secret" scenarioUsers) (sampleOps.map RegOp.toReq)
      = .ok (after (boot "secret" scenarioUsers)
          (Run (boot "secret" scenarioUsers) (sampleOps.map RegOp.toReq))) ∧
    (∀ c, c ∈ (after (boot "secret" scenarioUsers)
        (Run (boot "secret" scenarioUsers) (sampleOps.map RegOp.toReq))).hub.clients
      ↔ c ∈ ({1} : Finset ClientPtr)) ∧
    (∃ s₁, Run (boot "secret" scenarioUsers)
        ([RegOp.register 1, RegOp.register 2, RegOp.register 1].map RegOp.toReq) = .ok s₁ ∧
      ∀ c, c ∈ s₁.hub.clients ↔ c ∈ ({1, 2} : Finset ClientPtr)) := by
  have key := (registry_refines_set "secret" scenarioUsers sampleOps).1 _ rfl
  obtain ⟨s₁, h1, h2, _⟩ := key.2.2 [.register 1, .register 2, .register 1]
    [.unregister 2, .unregister 5] rfl
  have e : refModel [.register 1, .register 2, .register 1] = ({1, 2} : Finset ClientPtr) := by
    decide
  exact ⟨by simp [NoReRegister, sampleOps], rfl, key.1, s₁, h1, fun c => by
    rw [← e]; exact h2 c⟩

/-! ## The outbound queue is closed once -/

/-- C7. Closing a closed queue halts the loop (`Halt.closeOfClosed`), so a run
that returns a state has closed no queue twice. For every run of register,
unregister and publish requests on a new hub in which no connection is
registered twice, the loop handles the whole run, and at its end a
connection's queue is closed exactly when the connection was registered in the
run and has left the registry, by unregister or by eviction. -/
theorem queue_closed_once (jwtSecret : String) (users : ClientPtr → String)
    (reqs : List Req) (hreg : ∀ c, reqs.count (.register c) ≤ 1) :
    ∃ s', Run (boot jwtSecret users) reqs = .ok s' ∧
      ∀ c, (s'.mem c).send.closed = true ↔ (Req.register c ∈ reqs ∧ c ∉ s'.hub.clients) := by
  obtain ⟨s', h, hres⟩ := Run_closed_iff (s := boot jwtSecret users) (D := fun _ => False)
    (fun c hc => by simp [boot, NewHub, ClientMap.empty, ClientMap.mem_iff] at hc)
    (fun c => by simp [boot, Chan.make])
    (fun c hc => hc.elim) hreg
  refine ⟨s', h, fun c => ?_⟩
  rw [hres c]
  simp


/-- C7, a sample run: no connection is registered twice; the loop handles the
run; the queue of the client at address 1, which left by unregister, and of the
client at address 2, unregistered twice, are closed, and the queue of the
client at address 3, still registered, is open. -/
theorem queue_closed_once_witness :
    (∀ c, sampleRun.count (.register c) ≤ 1) ∧
    Run (boot "secret" scenarioUsers) sampleRun
      = .ok (after (boot "secret" scenarioUsers) (Run (boot "secret" scenarioUsers) sampleRun)) ∧
    ((after (boot "secret" scenarioUsers)
      (Run (boot "secret" scenarioUsers) sampleRun)).mem 1).send.closed = true ∧
    ((after (boot "secret" scenarioUsers)
      (Run (boot "secret" scenarioUsers) sampleRun)).mem 2).send.closed = true ∧
    ¬ ((after (boot "secret" scenarioUsers)
      (Run (boot "secret" scenarioUsers) sampleRun)).mem 3).send.closed = true := by
  have hreg : ∀ c, sampleRun.count (.register c) ≤ 1 := by
    intro c
    simp only [sampleRun, List.count_cons, List.count_nil, beq_iff_eq, Req.register.injEq]
    simp only [reduceCtorEq, if_false]
    split_ifs <;> first | omega | (exfalso; subst_vars; simp at *)
  obtain ⟨s', h, hres⟩ := queue_closed_once "secret" scenarioUsers sampleRun hreg
  have hs : s' = after (boot "secret" scenarioUsers)
      (Run (boot "secret" scenarioUsers) sampleRun) := by rw [h]; rfl
  subst hs
  refine ⟨hreg, h, (hres 1).mpr ⟨by decide, by decide⟩, (hres 2).mpr ⟨by decide, by decide⟩,
    fun hc => ((hres 3).mp hc).2 (by decide)⟩


/-! ## Per-connection FIFO delivery -/

theorem fanOutOne_conn_broadcast {msg : broadcastMsg} {s s' : State} {d : ClientPtr}
    (h : fanOutOne msg s d = .ok s') (c : ClientPtr) :
    (s'.mem c).conn = (s.mem c).conn ∧ s'.hub.broadcast = s.hub.broadcast := by
  rcases fanOutOne_ok h with ⟨_, rfl⟩ | ⟨_, _, _, rfl⟩ | ⟨_, _, _, rfl⟩
  · exact ⟨rfl, rfl⟩
  · by_cases hcd : c = d
    · subst hcd; simp
    · rw [State.setSend_mem_of_ne _ _ hcd]; exact ⟨rfl, rfl⟩
  · by_cases hcd : c = d
    · subst hcd; simp
    · rw [State.setSend_mem_of_ne _ _ hcd]; exact ⟨rfl, rfl⟩

theorem fanOut_conn_broadcast {msg : broadcastMsg} {order : List ClientPtr} {s s' : State}
    (h : fanOut msg order s = .ok s') (c : ClientPtr) :
    (s'.mem c).conn = (s.mem c).conn ∧ s'.hub.broadcast = s.hub.broadcast := by
  induction order generalizing s with
  | nil => simp [fanOut] at h; rw [h]; exact ⟨rfl, rfl⟩
  | cons d rest ih =>
    obtain ⟨s₁, h1, h2⟩ := fanOut_cons_ok h
    have e1 := fanOutOne_conn_broadcast h1 c
    have e2 := ih h2
    exact ⟨e2.1.trans e1.1, e2.2.trans e1.2⟩

theorem pendingFor_cons (s : State) (msg : broadcastMsg) (rest : List broadcastMsg)
    (subject : String) (hb : s.hub.broadcast = msg :: rest) :
    pendingFor s subject
      = (if msg.userID = subject then [msg.data] else []) ++
        (rest.filter (fun m => m.userID = subject)).map (fun m => m.data) := by
  unfold pendingFor
  rw [hb, List.filter_cons]
  by_cases hu : msg.userID = subject <;> simp [hu]

/-- One step keeps the subject of every client and can only shorten its
timeline or extend it by the payloads the step submits. -/
theorem step_timeline {α : Type} (marshal : α → Option Bytes) {s s' : State} {a : Action α}
    (h : step marshal s a = .ok s') (c : ClientPtr) :
    (s'.mem c).userID = (s.mem c).userID ∧
    List.Sublist (timeline s' c) (timeline s c ++ submitted marshal (s.mem c).userID [a]) := by
  cases a with
  | broadcast userID event =>
    simp only [step, Broadcast] at h
    cases hm : marshal event with
    | none =>
      rw [hm] at h
      cases h
      exact ⟨rfl, List.sublist_append_left _ _⟩
    | some data =>
      rw [hm] at h
      by_cases hl : s.hub.broadcast.length < broadcastCap
      · simp only [hl, if_true, Except.ok.injEq] at h
        subst h
        refine ⟨rfl, ?_⟩
        simp only [timeline, pendingFor, submitted, hm, Option.toList, List.filter_append,
          List.map_append, List.append_nil]
        by_cases hu : userID = (s.mem c).userID
        · simp [hu]
        · simp [hu]
      · simp [hl] at h
  | register d =>
    simp only [step, handleRegister, Except.ok.injEq] at h
    subst h
    exact ⟨rfl, List.sublist_append_left _ _⟩
  | unregister d =>
    rcases handleUnregister_ok h with ⟨_, rfl⟩ | ⟨_, _, rfl⟩
    · exact ⟨rfl, List.sublist_append_left _ _⟩
    · by_cases hcd : c = d
      · subst hcd
        refine ⟨by simp, ?_⟩
        simp only [timeline, pendingFor, State.setSend_mem_self, State.setSend_hub,
          State.setClients_mem, State.setClients_broadcast]
        exact List.sublist_append_left _ _
      · simp only [timeline, pendingFor, State.setSend_mem_of_ne _ _ hcd, State.setSend_hub,
          State.setClients_mem, State.setClients_broadcast]
        exact ⟨trivial, List.sublist_append_left _ _⟩
  | dispatch =>
    simp only [step, recvBroadcast] at h
    cases hb : s.hub.broadcast with
    | nil => simp [hb] at h
    | cons msg rest =>
      rw [hb] at h
      simp only at h
      have hu := fanOut_userID h c
      have hcb := fanOut_conn_broadcast h c
      have hbuf := handleBroadcast_buf h c
      simp only at hu hcb hbuf
      refine ⟨hu, ?_⟩
      simp only [timeline, submitted, List.append_nil, hu, hcb.1]
      rw [pendingFor_cons s msg rest _ hb]
      have hp : pendingFor s' (s.mem c).userID
          = (rest.filter (fun m => m.userID = (s.mem c).userID)).map (fun m => m.data) := by
        unfold pendingFor
        rw [hcb.2]
      rw [hp]
      by_cases hsub : (s.mem c).userID = msg.userID
      · rw [if_pos hsub.symm]
        rcases hbuf with e | e
        · rw [e]
          exact List.Sublist.append (List.Sublist.refl _)
            (List.sublist_append_right _ _)
        · rw [e]
          simp
      · have hne : msg.userID ≠ (s.mem c).userID := fun e => hsub e.symm
        rw [if_neg hne]
        have := (fanOut_other_subject h (p := c) hsub).1
        simp only at this
        rw [this]
        simp
  | write d writeOk =>
    simp only [step, writePumpStep] at h
    by_cases hdone : s.writerDone d = true
    · simp [hdone] at h
    · simp only [hdone, Bool.false_eq_true, if_false] at h
      by_cases hcd : c = d
      · subst hcd
        cases hq : (s.mem c).send.buf with
        | nil =>
          rw [hq] at h
          simp only at h
          by_cases hcl : (s.mem c).send.closed = true
          · simp only [hcl, if_true, Except.ok.injEq] at h
            subst h
            simp [timeline, pendingFor, State.writerExit, hq]
          · simp [hcl] at h
        | cons m rest =>
          rw [hq] at h
          simp only at h
          by_cases hw : (writeOk && !(s.mem c).conn.closed) = true
          · simp only [hw, if_true, Except.ok.injEq] at h
            subst h
            simp [timeline, pendingFor, State.setClient, hq]
          · simp only [hw, Bool.false_eq_true, if_false, Except.ok.injEq] at h
            subst h
            simp [timeline, pendingFor, State.writerExit, State.setSend, State.setClient, hq]
      · have hmem : s'.mem c = s.mem c ∧ s'.hub = s.hub := by
          cases hq : (s.mem d).send.buf with
          | nil =>
            rw [hq] at h
            simp only at h
            by_cases hcl : (s.mem d).send.closed = true
            · simp only [hcl, if_true, Except.ok.injEq] at h
              subst h
              simp [State.writerExit, hcd]
            · simp [hcl] at h
          | cons m rest =>
            rw [hq] at h
            simp only at h
            by_cases hw : (writeOk && !(s.mem d).conn.closed) = true
            · simp only [hw, if_true, Except.ok.injEq] at h
              subst h
              simp [State.setClient, hcd]
            · simp only [hw, Bool.false_eq_true, if_false, Except.ok.injEq] at h
              subst h
              simp [State.writerExit, State.setSend, State.setClient, hcd]
        simp only [timeline, pendingFor, hmem.1, hmem.2]
        exact ⟨trivial, List.sublist_append_left _ _⟩


theorem submitted_cons {α : Type} (marshal : α → Option Bytes) (subject : String)
    (a : Action α) (rest : List (Action α)) :
    submitted marshal subject (a :: rest)
      = submitted marshal subject [a] ++ submitted marshal subject rest := by
  cases a <;> simp [submitted]

/-- C8. Along every interleaving of `Broadcast` calls, registry requests,
dispatches of pending publishes and write-task iterations, a connection keeps
its subject, and what it has been sent, in the order stream, queue, pending
publishes, is a subsequence, in the same order, of what it started with
followed by the payloads submitted through `Broadcast` for its subject in
call order: of two publishes that reach the connection, the one submitted
first is ahead in its queue and is written to the stream first. -/
theorem fifo_delivery {α : Type} (marshal : α → Option Bytes) (s s' : State)
    (acts : List (Action α)) (c : ClientPtr) (h : exec marshal s acts = .ok s') :
    (s'.mem c).userID = (s.mem c).userID ∧
    List.Sublist ((s'.mem c).conn.written ++ (s'.mem c).send.buf ++
        pendingFor s' (s'.mem c).userID)
      ((s.mem c).conn.written ++ (s.mem c).send.buf ++ pendingFor s (s.mem c).userID ++
        submitted marshal (s.mem c).userID acts) := by
  induction acts generalizing s with
  | nil =>
    simp only [exec, Except.ok.injEq] at h
    subst h
    exact ⟨rfl, List.sublist_append_left _ _⟩
  | cons a rest ih =>
    unfold exec at h
    cases h1 : step marshal s a with
    | error e => simp [h1] at h
    | ok s₁ =>
      rw [h1] at h
      simp only at h
      obtain ⟨hu1, hs1⟩ := step_timeline marshal h1 c
      obtain ⟨hu2, hs2⟩ := ih s₁ h
      refine ⟨hu2.trans hu1, ?_⟩
      rw [submitted_cons, ← List.append_assoc]
      rw [hu1] at hs2
      simp only [timeline, hu1] at hs1
      exact hs2.trans (List.Sublist.append hs1 (List.Sublist.refl _))

/-- C8, scenario: the task update and then the task deletion are published to
"u1" and handled, and the write task of A1 runs once: the update is on A1's
stream, the deletion is next in its queue, in submission order. -/
theorem fifo_delivery_witness :
    exec sampleMarshal scenario sampleActions
      = .ok (after scenario (exec sampleMarshal scenario sampleActions)) ∧
    ((after scenario (exec sampleMarshal scenario sampleActions)).mem 1).conn.written
      = [taskUpdate] ∧
    ((after scenario (exec sampleMarshal scenario sampleActions)).mem 1).send.buf
      = [taskDelete] ∧
    submitted sampleMarshal "u1" sampleActions = [taskUpdate, taskDelete] ∧
    List.Sublist
      (((after scenario (exec sampleMarshal scenario sampleActions)).mem 1).conn.written ++
        ((after scenario (exec sampleMarshal scenario sampleActions)).mem 1).send.buf ++
        pendingFor (after scenario (exec sampleMarshal scenario sampleActions)) "u1")
      (submitted sampleMarshal "u1" sampleActions) :=
  ⟨rfl, rfl, rfl, rfl, (fifo_delivery sampleMarshal scenario _ sampleActions 1 rfl).2⟩

/-! ## Authentication failure -/

/-- C10. When no credential is present, or the token fails verification, or
its claims are not a claims map, or the `sub` claim is missing, not a string
or empty, `HandleWS` answers 401 Unauthorized, does not call the upgrader,
builds no `Client`, sends no register request and leaves the memory as it
was; the loop has nothing to handle, so the registry is unchanged. -/
theorem auth_failure_rejects (jwtParse : String → String → ParsedToken)
    (upgrade : Request → Option Conn) (addr : ClientPtr) (s : State) (r : Request)
    (hfail : credential r = "" ∨
      (jwtParse (credential r) s.hub.jwtSecret).err = true ∨
      (jwtParse (credential r) s.hub.jwtSecret).valid = false ∨
      (∀ m, (jwtParse (credential r) s.hub.jwtSecret).claims ≠ .mapClaims m) ∨
      (∃ m, (jwtParse (credential r) s.hub.jwtSecret).claims = .mapClaims m ∧
        (m "sub" = none ∨ m "sub" = some .other ∨ m "sub" = some (.str "")))) :
    (∃ body, (HandleWS jwtParse upgrade addr s r).reply = .httpError body 401) ∧
    (HandleWS jwtParse upgrade addr s r).upgradeCalled = false ∧
    (HandleWS jwtParse upgrade addr s r).client = none ∧
    (HandleWS jwtParse upgrade addr s r).sent = [] ∧
    (HandleWS jwtParse upgrade addr s r).state = s ∧
    Run (HandleWS jwtParse upgrade addr s r).state (HandleWS jwtParse upgrade addr s r).sent
      = .ok s := by
  have key : ∃ body, HandleWS jwtParse upgrade addr s r
      = ⟨.httpError body StatusUnauthorized, false, none, [], s⟩ := by
    unfold HandleWS
    by_cases h0 : credential r = ""
    · exact ⟨"unauthorized", by simp [h0]⟩
    · simp only [h0, if_false]
      by_cases h1 : ((jwtParse (credential r) s.hub.jwtSecret).err ||
          !(jwtParse (credential r) s.hub.jwtSecret).valid) = true
      · exact ⟨"invalid token", by simp only [h1, if_true]⟩
      · simp only [h1, Bool.false_eq_true, if_false]
        have herr : (jwtParse (credential r) s.hub.jwtSecret).err = false := by
          cases he : (jwtParse (credential r) s.hub.jwtSecret).err with
          | false => rfl
          | true => simp [he] at h1
        have hval : (jwtParse (credential r) s.hub.jwtSecret).valid = true := by
          cases hv : (jwtParse (credential r) s.hub.jwtSecret).valid with
          | true => rfl
          | false => simp [hv] at h1
        cases hc : (jwtParse (credential r) s.hub.jwtSecret).claims with
        | other => exact ⟨"invalid claims", rfl⟩
        | mapClaims m =>
          simp only
          by_cases hu : subClaim m = ""
          · exact ⟨"invalid user", by simp only [hu, if_true]⟩
          · exfalso
            rcases hfail with h | h | h | h | ⟨m', hm', h⟩
            · exact h0 h
            · rw [herr] at h; cases h
            · rw [hval] at h; cases h
            · exact h m hc
            · rw [hc] at hm'
              cases hm'
              apply hu
              unfold subClaim
              rcases h with h | h | h <;> rw [h]
  obtain ⟨body, hk⟩ := key
  rw [hk]
  exact ⟨⟨body, rfl⟩, rfl, rfl, rfl, rfl, rfl⟩

/-- C10, scenario: a request carrying an expired credential is answered 401,
nothing is sent to the loop, and the registry still has its three entries. -/
theorem auth_failure_rejects_witness :
    (sampleParse (credential ⟨"expired", none, ""⟩) scenario.hub.jwtSecret).err = true ∧
    (HandleWS sampleParse sampleUpgrade 4 scenario ⟨"expired", none, ""⟩).reply
      = .httpError "invalid token" 401 ∧
    (HandleWS sampleParse sampleUpgrade 4 scenario ⟨"expired", none, ""⟩).sent = [] ∧
    (HandleWS sampleParse sampleUpgrade 4 scenario ⟨"expired", none, ""⟩).state.hub.clients.keys.length
      = scenario.hub.clients.keys.length :=
  ⟨by decide, by decide,
   (auth_failure_rejects sampleParse sampleUpgrade 4 scenario ⟨"expired", none, ""⟩
      (Or.inr (Or.inl (by decide)))).2.2.2.1,
   by rw [(auth_failure_rejects sampleParse sampleUpgrade 4 scenario ⟨"expired", none, ""⟩
      (Or.inr (Or.inl (by decide)))).2.2.2.2.1]⟩

/-! ## Where the credential comes from -/

/-- The outcome of `HandleWS` depends on the verifier only through what it
returns for the string `credential r`. -/
theorem HandleWS_congr (p₁ p₂ : String → String → ParsedToken)
    (upgrade : Request → Option Conn) (addr : ClientPtr) (s : State) (r : Request)
    (h : p₁ (credential r) s.hub.jwtSecret = p₂ (credential r) s.hub.jwtSecret) :
    HandleWS p₁ upgrade addr s r = HandleWS p₂ upgrade addr s r := by
  unfold HandleWS
  simp only [h]

/-- C11. The string `HandleWS` hands to the verifier is the query parameter
`token` when that is non-empty, else the value of the cookie when the cookie
is present and its value non-empty, else what the Authorization header gives
(the header with a leading `Bearer ` removed, nothing when the header is
empty); and no other string is verified: two verifiers that agree on this
string give the same outcome. -/
theorem credential_priority (r : Request) :
    credential r =
      (if r.queryToken ≠ "" then r.queryToken
       else if r.cookie.getD "" ≠ "" then r.cookie.getD ""
       else if r.authorization ≠ "" then trimPrefix r.authorization "Bearer " else "") ∧
    ∀ (p₁ p₂ : String → String → ParsedToken) (upgrade : Request → Option Conn)
      (addr : ClientPtr) (s : State),
      p₁ (credential r) s.hub.jwtSecret = p₂ (credential r) s.hub.jwtSecret →
      HandleWS p₁ upgrade addr s r = HandleWS p₂ upgrade addr s r := by
  refine ⟨?_, fun p₁ p₂ upgrade addr s h => HandleWS_congr p₁ p₂ upgrade addr s r h⟩
  unfold credential
  by_cases hq : r.queryToken = ""
  · cases hc : r.cookie with
    | none => simp [hq]
    | some v =>
      by_cases hv : v = ""
      · simp [hq, hv]
      · simp [hq, hv]
  · simp [hq]

/-- C11, three requests: with a query token the query token is verified
whatever the cookie and the header hold; without it the cookie; without both
the header's token. -/
theorem credential_priority_witness :
    credential ⟨"good", some "fromcookie", "Bearer fromheader"⟩ = "good" ∧
    credential ⟨"", some "fromcookie", "Bearer fromheader"⟩ = "fromcookie" ∧
    credential ⟨"", none, "Bearer fromheader"⟩ = "fromheader" ∧
    HandleWS sampleParse sampleUpgrade 4 scenario ⟨"good", some "fromcookie", "Bearer fromheader"⟩
      = HandleWS (fun token _ => sampleParse (if token = "good" then "good" else "nosub") "")
          sampleUpgrade 4 scenario ⟨"good", some "fromcookie", "Bearer fromheader"⟩ :=
  ⟨by decide, by decide, by decide,
   (credential_priority ⟨"good", some "fromcookie", "Bearer fromheader"⟩).2 _ _ _ _ _ rfl⟩

/-- C12, as stated, fails: a request without a query token carries the cookie
value "expired" and the header `Bearer good`; the string verified is the
cookie's, and the request is rejected although the header's token verifies. -/
theorem header_before_cookie_counterexample :
    credential ⟨"", some "expired", "Bearer good"⟩ = "expired" ∧
    trimPrefix "Bearer good" "Bearer " = "good" ∧
    (HandleWS sampleParse sampleUpgrade 4 scenario ⟨"", some "expired", "Bearer good"⟩).reply
      = .httpError "invalid token" 401 ∧
    (HandleWS sampleParse sampleUpgrade 4 scenario ⟨"", none, "Bearer good"⟩).reply
      = .switched :=
  ⟨by decide, by decide, by decide, by decide⟩

/-- C12, amended. The order is query parameter, then cookie, then
Authorization header: for every request without a query token that carries
both an Authorization header and the session cookie, the string verified is
the cookie's value when that is non-empty, and the header's token only when
the cookie's value is empty. -/
theorem cookie_before_header (r : Request) (value : String) (hq : r.queryToken = "")
    (hc : r.cookie = some value) (ha : r.authorization ≠ "") :
    credential r = if value ≠ "" then value else trimPrefix r.authorization "Bearer " := by
  unfold credential
  by_cases hv : value = ""
  · simp [hq, hc, hv, ha]
  · simp [hq, hc, hv]

/-- C12, two requests without a query token, both with the header
`Bearer fromheader`: with the cookie value "fromcookie" the cookie's value is
verified, with an empty cookie value the header's token. -/
theorem cookie_before_header_witness :
    credential ⟨"", some "fromcookie", "Bearer fromheader"⟩ = "fromcookie" ∧
    credential ⟨"", some "", "Bearer fromheader"⟩ = "fromheader" :=
  ⟨(cookie_before_header ⟨"", some "fromcookie", "Bearer fromheader"⟩ "fromcookie" rfl rfl
      (by decide)).trans (by decide),
   (cookie_before_header ⟨"", some "", "Bearer fromheader"⟩ "" rfl rfl
      (by decide)).trans (by decide)⟩

/-- A header of the form `Bearer <token>` gives exactly the text after the
marker. -/
theorem trimPrefix_append (pre rest : String) : trimPrefix (pre ++ rest) pre = rest := by
  unfold trimPrefix
  have h1 : (pre ++ rest).data = pre.data ++ rest.data := rfl
  rw [h1]
  simp

/-- A value that does not start with the marker is returned as it is. -/
theorem trimPrefix_of_not_isPrefixOf (s pre : String)
    (h : pre.data.isPrefixOf s.data = false) : trimPrefix s pre = s := by
  unfold trimPrefix
  simp [h]

/-- Without a query token and a cookie, a non-empty Authorization header that
does not start with `Bearer ` is itself the string `HandleWS` verifies. -/
theorem credential_bare_header (auth : String) (hne : auth ≠ "")
    (h : "Bearer ".data.isPrefixOf auth.data = false) :
    credential ⟨"", none, auth⟩ = auth := by
  unfold credential
  simp [hne, trimPrefix_of_not_isPrefixOf _ _ h]

/-- C13, the code at the failing input: a request whose only credential source
is the Authorization header `good`, a token with no `Bearer ` in front.
`HandleWS` verifies the header value as it is and admits the connection, while
the same request with the header absent is answered 401; the REST middleware,
which tests `strings.HasPrefix`, takes no credential from that header. With
the marker in front, the text after it is what is verified. -/
theorem bare_header_accepted :
    credential ⟨"", none, "good"⟩ = "good" ∧
    (HandleWS sampleParse sampleUpgrade 4 scenario ⟨"", none, "good"⟩).reply = .switched ∧
    (HandleWS sampleParse sampleUpgrade 4 scenario ⟨"", none, "good"⟩).sent = [.register 4] ∧
    (HandleWS sampleParse sampleUpgrade 4 scenario ⟨"", none, ""⟩).reply
      = .httpError "unauthorized" 401 ∧
    authCredential ⟨"", none, "good"⟩ = "" ∧
    credential ⟨"", none, "Bearer good"⟩ = "good" :=
  ⟨by decide, by decide, by decide, by decide, by decide, by decide⟩

/-! ## Field names on the wire -/

/-- C14, as stated, fails: the object written for the task update has the
members type, collection, document and userId; none is named subjectID, and
the bytes put on the publish queue are those of `taskUpdate`. -/
theorem wire_format_fields_counterexample :
    (marshalWSEvent some sampleEvent).map (fun fields => fields.map Prod.fst)
      = some ["type", "collection", "document", "userId"] ∧
    "subjectID" ∉ ["type", "collection", "document", "userId"] ∧
    jsonMarshal some sampleObject sampleEvent = some taskUpdate :=
  ⟨by decide, by decide, by decide⟩

/-- C14, amended. Every message `Broadcast` puts on the publish queue for a
`WSEvent` is the encoding of an object whose members are named exactly type,
collection, document and userId, in this order, carrying the event's `Type`,
its `Collection`, its encoded `Document` and its `UserID`; and what the loop
appends to a connection's queue when it handles that publish is this message. -/
theorem wire_format_fields {δ : Type} (encodeDocument : δ → Option Bytes)
    (encodeObject : List (String × JsonValue) → Bytes) (userID : String) (ev : WSEvent δ) :
    (∀ s s', Broadcast (jsonMarshal encodeDocument encodeObject) s userID ev = .ok s' →
      s'.hub.broadcast ≠ s.hub.broadcast →
      ∃ document, encodeDocument ev.Document = some document ∧
        s'.hub.broadcast = s.hub.broadcast ++
          [⟨userID, encodeObject [("type", .string ev.Type'),
            ("collection", .string ev.Collection), ("document", .encoded document),
            ("userId", .string ev.UserID)]⟩]) ∧
    (∀ t t' data, handle t (.publish ⟨userID, data⟩) = .ok t' →
      ∀ c, (t'.mem c).send.buf ≠ (t.mem c).send.buf →
        (t'.mem c).send.buf = (t.mem c).send.buf ++ [data]) := by
  refine ⟨fun s s' h hne => ?_, fun t t' data h c hne => ?_⟩
  · unfold Broadcast at h
    cases hd : encodeDocument ev.Document with
    | none =>
      have hm : jsonMarshal encodeDocument encodeObject ev = none := by
        simp [jsonMarshal, marshalWSEvent, hd]
      rw [hm] at h
      cases h
      exact absurd rfl hne
    | some document =>
      have hm : jsonMarshal encodeDocument encodeObject ev
          = some (encodeObject [("type", .string ev.Type'),
            ("collection", .string ev.Collection), ("document", .encoded document),
            ("userId", .string ev.UserID)]) := by
        simp [jsonMarshal, marshalWSEvent, hd]
      rw [hm] at h
      by_cases hl : s.hub.broadcast.length < broadcastCap
      · simp only [hl, if_true, Except.ok.injEq] at h
        exact ⟨document, rfl, by rw [← h]⟩
      · simp [hl] at h
  · rcases handleBroadcast_buf h c with e | e
    · exact absurd e hne
    · exact e

/-- C14, scenario: the task update is published to "u1" in the scenario state;
the pending message is the object with members type, collection, document and
userId, whose bytes are `taskUpdate`, and A1 receives these bytes. -/
theorem wire_format_fields_witness :
    (after scenario (Broadcast (jsonMarshal some sampleObject) scenario "u1"
        sampleEvent)).hub.broadcast
      = [⟨"u1", sampleObject [("type", .string "update"), ("collection", .string "tasks"),
          ("document", .encoded [123, 34, 105, 100, 34, 58, 34, 116, 49, 34, 125]),
          ("userId", .string "u1")]⟩] ∧
    sampleObject [("type", .string "update"), ("collection", .string "tasks"),
      ("document", .encoded [123, 34, 105, 100, 34, 58, 34, 116, 49, 34, 125]),
      ("userId", .string "u1")] = taskUpdate ∧
    ((after scenario (handle scenario (.publish ⟨"u1", taskUpdate⟩))).mem 1).send.buf
      = [taskUpdate] := by
  obtain ⟨document, hd, hb⟩ := (wire_format_fields some sampleObject "u1" sampleEvent).1
    scenario (after scenario (Broadcast (jsonMarshal some sampleObject) scenario "u1"
      sampleEvent)) rfl (by decide)
  cases hd
  exact ⟨hb, by decide,
    (wire_format_fields some sampleObject "u1" sampleEvent).2 scenario _ taskUpdate rfl 1
      (by decide)⟩

/-! ## When `Broadcast` returns -/

theorem pendingBacklog_length : pendingBacklog.length = 256 :=
  List.length_replicate 256 _

theorem exec_cons_of_ok {α : Type} (marshal : α → Option Bytes) {s s₁ : State}
    {a : Action α} (rest : List (Action α)) (h : step marshal s a = .ok s₁) :
    exec marshal s (a :: rest) = exec marshal s₁ rest := by
  rw [exec, h]

/-- While there is room in `h.broadcast`, `n` calls of `Broadcast` for an
event that serializes queue `n` messages and change nothing else. -/
theorem exec_broadcasts {α : Type} (marshal : α → Option Bytes) (userID : String)
    (event : α) (data : Bytes) (hm : marshal event = some data) (n : Nat) (s : State)
    (hroom : s.hub.broadcast.length + n ≤ 256) :
    exec marshal s (List.replicate n (.broadcast userID event))
      = .ok { hub := { clients := s.hub.clients,
                       broadcast := s.hub.broadcast ++ List.replicate n ⟨userID, data⟩,
                       jwtSecret := s.hub.jwtSecret }
              mem := s.mem
              writerDone := s.writerDone } := by
  induction n generalizing s with
  | zero => simp [exec]
  | succ n ih =>
    have hl : s.hub.broadcast.length < broadcastCap := by unfold broadcastCap; omega
    have hstep : step marshal s (.broadcast userID event)
        = .ok { hub := { clients := s.hub.clients,
                         broadcast := s.hub.broadcast ++ [⟨userID, data⟩],
                         jwtSecret := s.hub.jwtSecret }
                mem := s.mem
                writerDone := s.writerDone } := by
      simp [step, Broadcast, hm, hl]
    rw [List.replicate_succ, exec_cons_of_ok marshal _ hstep, ih]
    · simp [List.append_assoc, List.replicate_succ]
    · simp only [List.length_append, List.length_singleton]; omega

/-- The congested state is reached from the scenario state by 256 calls of
`Broadcast` made while `Run` takes none of them. -/
theorem congested_reachable :
    exec sampleMarshal scenario (List.replicate 256 (.broadcast "u1" 0)) = .ok congested := by
  have h := exec_broadcasts sampleMarshal "u1" 0 taskUpdate rfl 256 scenario (by decide)
  rw [h]
  rfl

/-- C15, as stated, fails: in the congested state (`congested_reachable`) 256
publishes are pending, and a call of `Broadcast` for an event that serializes
cannot send on `h.broadcast`: it waits. -/
theorem broadcast_returns_counterexample :
    congested.hub.broadcast.length = 256 ∧
    Broadcast sampleMarshal congested "u1" 0 = .error .wouldBlock := by
  have hl : congested.hub.broadcast.length = 256 := pendingBacklog_length
  refine ⟨hl, ?_⟩
  have hm : sampleMarshal 0 = some taskUpdate := rfl
  simp [Broadcast, hm, hl, broadcastCap]

/-- C15, amended. For every hub state in which fewer than 256 publishes are
pending, whatever the fill level of any connection's queue, and every event,
`Broadcast` returns without waiting, and it does so with any number pending
when the serialization fails; it waits exactly when the event serializes and
256 publishes are pending. -/
theorem broadcast_returns {α : Type} (marshal : α → Option Bytes) (s : State)
    (userID : String) (event : α) :
    ((marshal event = none ∨ s.hub.broadcast.length < 256) →
      ∃ s', Broadcast marshal s userID event = .ok s') ∧
    (Broadcast marshal s userID event = .error .wouldBlock ↔
      (marshal event ≠ none ∧ 256 ≤ s.hub.broadcast.length)) := by
  unfold Broadcast
  cases hm : marshal event with
  | none => simp
  | some data =>
    by_cases hl : s.hub.broadcast.length < broadcastCap
    · have hl' : s.hub.broadcast.length < 256 := hl
      simp [hl, hl']
    · have hl' : ¬ s.hub.broadcast.length < 256 := hl
      simp only [hl, if_false, hl', or_false, reduceCtorEq, false_implies, true_and, ne_eq,
        not_false_eq_true, not_true_eq_false, true_iff]
      omega

/-- C15, scenario: nothing is pending in the scenario state, and publishing the
task update returns with one publish pending, also when the queue of the one
registered connection is full, as in the stalled state. -/
theorem broadcast_returns_witness :
    scenario.hub.broadcast.length < 256 ∧
    (after scenario (Broadcast sampleMarshal scenario "u1" 0)).hub.broadcast
      = [⟨"u1", taskUpdate⟩] ∧
    Broadcast sampleMarshal saturated "u1" 0
      = .ok (after saturated (Broadcast sampleMarshal saturated "u1" 0)) := by
  obtain ⟨s', h⟩ := (broadcast_returns sampleMarshal saturated "u1" 0).1 (Or.inr (by decide))
  refine ⟨by decide, by decide, ?_⟩
  rw [h]
  rfl

/-! ## What the loop handled before an admission -/

theorem handle_userID {s s' : State} {r : Req} (h : handle s r = .ok s') (c : ClientPtr) :
    (s'.mem c).userID = (s.mem c).userID := by
  cases r with
  | register d =>
    rw [handleRegister_eq] at h
    cases h
    rfl
  | unregister d =>
    rcases handleUnregister_ok h with ⟨_, rfl⟩ | ⟨_, _, rfl⟩
    · rfl
    · by_cases hcd : c = d
      · subst hcd; simp
      · rw [State.setSend_mem_of_ne _ _ hcd]; rfl
  | publish msg => exact fanOut_userID h c

/-- One request leaves a queue as it is or, when it is a publish for the
subject of the connection, may append its payload. -/
theorem handle_buf_sublist {s s' : State} {r : Req} (h : handle s r = .ok s')
    (c : ClientPtr) :
    List.Sublist (s'.mem c).send.buf
      ((s.mem c).send.buf ++ payloadsFor (s.mem c).userID [r]) := by
  cases r with
  | register d =>
    rw [handleRegister_eq] at h
    cases h
    exact List.sublist_append_left _ _
  | unregister d =>
    rcases handleUnregister_ok h with ⟨_, rfl⟩ | ⟨_, _, rfl⟩
    · exact List.sublist_append_left _ _
    · by_cases hcd : c = d
      · subst hcd
        simp only [State.setSend_mem_self]
        exact List.sublist_append_left _ _
      · rw [State.setSend_mem_of_ne _ _ hcd]
        exact List.sublist_append_left _ _
  | publish msg =>
    have hh : handleBroadcast s msg = .ok s' := h
    by_cases hu : (s.mem c).userID = msg.userID
    · rcases handleBroadcast_buf hh c with e | e
      · rw [e]; exact List.sublist_append_left _ _
      · rw [e]; simp [payloadsFor, hu]
    · rw [(fanOut_other_subject hh hu).1]
      exact List.sublist_append_left _ _

theorem payloadsFor_cons (subject : String) (r : Req) (rest : List Req) :
    payloadsFor subject (r :: rest) = payloadsFor subject [r] ++ payloadsFor subject rest := by
  cases r <;> simp [payloadsFor]

theorem Run_buf_sublist {reqs : List Req} {s s' : State} (h : Run s reqs = .ok s')
    (c : ClientPtr) :
    (s'.mem c).userID = (s.mem c).userID ∧
    List.Sublist (s'.mem c).send.buf
      ((s.mem c).send.buf ++ payloadsFor (s.mem c).userID reqs) := by
  induction reqs generalizing s with
  | nil =>
    simp only [Run, Except.ok.injEq] at h
    subst h
    exact ⟨rfl, List.sublist_append_left _ _⟩
  | cons r rest ih =>
    obtain ⟨s₁, h1, h2⟩ := Run_cons_ok h
    have hu := handle_userID h1 c
    obtain ⟨hu2, hs2⟩ := ih h2
    refine ⟨hu2.trans hu, ?_⟩
    rw [payloadsFor_cons, ← List.append_assoc]
    rw [hu] at hs2
    exact hs2.trans (List.Sublist.append (handle_buf_sublist h1 c) (List.Sublist.refl _))

/-- While a connection is not registered and no request registers it, the loop
leaves it unregistered and does not touch its queue. -/
theorem Run_unregistered {reqs : List Req} {s s' : State} (h : Run s reqs = .ok s')
    {c : ClientPtr} (hc : c ∉ s.hub.clients) (hreg : Req.register c ∉ reqs) :
    c ∉ s'.hub.clients ∧ (s'.mem c).send = (s.mem c).send := by
  induction reqs generalizing s with
  | nil =>
    simp only [Run, Except.ok.injEq] at h
    subst h
    exact ⟨hc, rfl⟩
  | cons r rest ih =>
    obtain ⟨s₁, h1, h2⟩ := Run_cons_ok h
    have hrest : Req.register c ∉ rest := fun hm => hreg (List.mem_cons_of_mem _ hm)
    have hstep : c ∉ s₁.hub.clients ∧ (s₁.mem c).send = (s.mem c).send := by
      cases r with
      | register d =>
        have hcd : c ≠ d := fun e => hreg (e ▸ List.mem_cons_self _ _)
        rw [handleRegister_eq] at h1
        cases h1
        refine ⟨?_, rfl⟩
        simp only [State.setClients_clients, ClientMap.mem_insert, not_or]
        exact ⟨hcd, hc⟩
      | unregister d =>
        rcases handleUnregister_ok h1 with ⟨_, rfl⟩ | ⟨hd, _, rfl⟩
        · exact ⟨hc, rfl⟩
        · have hcd : c ≠ d := fun e => hc (e ▸ hd)
          refine ⟨?_, by rw [State.setSend_mem_of_ne _ _ hcd]; rfl⟩
          simp only [State.setSend_hub, State.setClients_clients, ClientMap.mem_delete]
          exact fun hh => hc hh.1
      | publish msg =>
        have hh : handleBroadcast s msg = .ok s₁ := h1
        exact ⟨fun hm => hc (fanOut_clients_sub hh hm), by rw [fanOut_mem_of_not_mem hh hc]⟩
    obtain ⟨e1, e2⟩ := ih h2 hstep.1 hrest
    exact ⟨e1, e2.trans hstep.2⟩

/-! ## The outbound queue is bounded -/

/-- The fan-out appends to a queue only when the queue has room. -/
theorem handleBroadcast_buf_room {s s' : State} {msg : broadcastMsg}
    (h : handleBroadcast s msg = .ok s') (c : ClientPtr) :
    (s'.mem c).send.buf = (s.mem c).send.buf ∨
    ((s.mem c).send.buf.length < sendCap ∧
      (s'.mem c).send.buf = (s.mem c).send.buf ++ [msg.data]) := by
  by_cases hc : c ∈ s.hub.clients.keys
  · obtain ⟨s₀, s₁, e1, _, e3, e4, _⟩ := fanOut_visit s.hub.clients.nodup h hc
    rcases fanOutOne_ok e3 with ⟨_, rfl⟩ | ⟨_, _, hl, rfl⟩ | ⟨_, _, _, rfl⟩
    · left; rw [e4, e1]
    · right
      rw [e1] at hl
      exact ⟨hl, by rw [e4]; simp [e1]⟩
    · left; rw [e4]; simp [e1]
  · left; rw [fanOut_mem_of_not_mem h hc]

theorem handle_bounded {s s' : State} {r : Req} (h : handle s r = .ok s')
    (hb : ∀ c, (s.mem c).send.buf.length ≤ 256) (c : ClientPtr) :
    (s'.mem c).send.buf.length ≤ 256 := by
  cases r with
  | register d =>
    rw [handleRegister_eq] at h
    cases h
    exact hb c
  | unregister d =>
    rcases handleUnregister_ok h with ⟨_, rfl⟩ | ⟨_, _, rfl⟩
    · exact hb c
    · by_cases hcd : c = d
      · subst hcd
        simp only [State.setSend_mem_self]
        exact hb c
      · rw [State.setSend_mem_of_ne _ _ hcd]
        exact hb c
  | publish msg =>
    have hh : handleBroadcast s msg = .ok s' := h
    rcases handleBroadcast_buf_room hh c with e | ⟨hl, e⟩
    · rw [e]; exact hb c
    · rw [e, List.length_append, List.length_singleton]
      unfold sendCap at hl
      omega

theorem Run_bounded {reqs : List Req} {s s' : State} (h : Run s reqs = .ok s')
    (hb : ∀ c, (s.mem c).send.buf.length ≤ 256) (c : ClientPtr) :
    (s'.mem c).send.buf.length ≤ 256 := by
  induction reqs generalizing s with
  | nil =>
    simp only [Run, Except.ok.injEq] at h
    subst h
    exact hb c
  | cons r rest ih =>
    obtain ⟨s₁, h1, h2⟩ := Run_cons_ok h
    exact ih h2 (fun d => handle_bounded h1 hb d)

/-- The memory `HandleWS` leaves differs from the one it found at most at the
address of the client it built, whose queue is new. -/
theorem HandleWS_mem (jwtParse : String → String → ParsedToken)
    (upgrade : Request → Option Conn) (addr : ClientPtr) (s : State) (r : Request)
    (c : ClientPtr) :
    ((HandleWS jwtParse upgrade addr s r).state.mem c).send = (s.mem c).send ∨
    ((HandleWS jwtParse upgrade addr s r).state.mem c).send = Chan.make := by
  unfold HandleWS
  simp only
  split_ifs
  · exact Or.inl rfl
  · exact Or.inl rfl
  · split
    · exact Or.inl rfl
    · split_ifs
      · exact Or.inl rfl
      · split
        · exact Or.inl rfl
        · simp only
          by_cases hc : c = addr
          · exact Or.inr (by simp [hc])
          · exact Or.inl (by simp [hc])

/-- C17. In every state reached from a new hub by register, unregister and
publish requests each connection's queue holds at most 256 messages; a client
that `HandleWS` builds starts with an empty queue and `HandleWS` lengthens no
other queue; and handling a publish adds nothing to a queue that already holds
256 messages. -/
theorem bounded_queue (jwtSecret : String) (users : ClientPtr → String) :
    (∀ reqs s', Run (boot jwtSecret users) reqs = .ok s' →
      ∀ c, (s'.mem c).send.buf.length ≤ 256) ∧
    (∀ jwtParse upgrade addr s r,
      (∀ c, (s.mem c).send.buf.length ≤ 256) →
      ∀ c, (((HandleWS jwtParse upgrade addr s r).state.mem c).send.buf.length ≤ 256)) ∧
    (∀ s s' msg c, handle s (.publish msg) = .ok s' →
      (s.mem c).send.buf.length = 256 → (s'.mem c).send.buf = (s.mem c).send.buf) := by
  refine ⟨fun reqs s' h c => Run_bounded h (fun d => ?_) c, ?_, ?_⟩
  · simp [boot, Chan.make]
  · intro jwtParse upgrade addr s r hb c
    rcases HandleWS_mem jwtParse upgrade addr s r c with e | e
    · rw [e]; exact hb c
    · rw [e]; simp [Chan.make]
  · intro s s' msg c h hfull
    have hh : handleBroadcast s msg = .ok s' := h
    rcases handleBroadcast_buf_room hh c with e | ⟨hl, _⟩
    · exact e
    · unfold sendCap at hl
      omega

/-- C17, two states: after the sample run on a new hub the queue of the client
at address 2 is within the bound; in the stalled state the queue of the client
at address 1 holds 256 messages and the publish leaves it as it is. -/
theorem bounded_queue_witness :
    ((after (boot "secret" scenarioUsers)
      (Run (boot "secret" scenarioUsers) lateJoin)).mem 2).send.buf.length ≤ 256 ∧
    (saturated.mem 1).send.buf.length = 256 ∧
    (((saturated.setClients (saturated.hub.clients.delete 1)).setSend 1
      ⟨backlog, true⟩).mem 1).send.buf = (saturated.mem 1).send.buf :=
  ⟨(bounded_queue "secret" scenarioUsers).1 lateJoin _ rfl 2,
   backlog_length,
   (bounded_queue "secret" scenarioUsers).2.2 saturated _ ⟨"u1", taskUpdate⟩ 1
     saturated_publish backlog_length⟩

/-! ## A slow receiver blocks nobody -/

theorem fanOutOne_error {msg : broadcastMsg} {s : State} {c : ClientPtr} {e : Halt}
    (h : fanOutOne msg s c = .error e) : e = .sendOnClosed := by
  unfold fanOutOne at h
  by_cases hu : (s.mem c).userID = msg.userID
  · rw [if_pos hu] at h
    cases hc : (s.mem c).send.closed with
    | true =>
      simp [Chan.trySend, hc] at h
      exact h.symm
    | false =>
      by_cases hl : (s.mem c).send.buf.length < sendCap
      · simp [Chan.trySend, hc, hl] at h
      · simp [Chan.trySend, Chan.close, hc, hl] at h
  · rw [if_neg hu] at h
    cases h

theorem fanOut_error {msg : broadcastMsg} {order : List ClientPtr} {s : State} {e : Halt}
    (h : fanOut msg order s = .error e) : e = .sendOnClosed := by
  induction order generalizing s with
  | nil => cases h
  | cons c rest ih =>
    unfold fanOut at h
    cases h1 : fanOutOne msg s c with
    | error e' =>
      rw [h1] at h
      cases h
      exact fanOutOne_error h1
    | ok s₁ =>
      rw [h1] at h
      exact ih h

/-- C19. Handling one publish never waits, whatever the registry and the fill
levels: it does not end in `wouldBlock`, and in every hub state whose
registered connections have open queues it completes, each connection
registered under the addressed subject having either the payload appended to
its queue or, its queue being full, been evicted with its queue closed.
`Broadcast` waits only when 256 publishes are pending in `h.broadcast`; with
fewer pending it returns, whatever the queues of the connections hold. -/
theorem slow_receiver_never_blocks {α : Type} (marshal : α → Option Bytes) (s : State) :
    (∀ msg, handle s (.publish msg) ≠ .error .wouldBlock) ∧
    (RegisteredOpen s → ∀ msg, ∃ s', handle s (.publish msg) = .ok s' ∧
      ∀ c, c ∈ s.hub.clients → (s.mem c).userID = msg.userID →
        ((s'.mem c).send.buf = (s.mem c).send.buf ++ [msg.data] ∧ c ∈ s'.hub.clients) ∨
        (256 ≤ (s.mem c).send.buf.length ∧ (s'.mem c).send = ⟨(s.mem c).send.buf, true⟩ ∧
          c ∉ s'.hub.clients)) ∧
    (∀ userID event, Broadcast marshal s userID event = .error .wouldBlock →
      256 ≤ s.hub.broadcast.length) ∧
    (s.hub.broadcast.length < 256 →
      ∀ userID event, ∃ s', Broadcast marshal s userID event = .ok s' ∧ s'.mem = s.mem) := by
  refine ⟨fun msg h => ?_, fun hopen msg => ?_, fun userID event h => ?_,
    fun hl userID event => ?_⟩
  · have := fanOut_error h
    cases this
  · obtain ⟨s', h⟩ := handleBroadcast_total msg hopen
    refine ⟨s', h, fun c hc hu => ?_⟩
    by_cases hlen : (s.mem c).send.buf.length < sendCap
    · have := handleBroadcast_deliver h hc hu hlen
      exact Or.inl ⟨by rw [this.1], this.2⟩
    · have := handleBroadcast_evict h hc hu hlen
      refine Or.inr ⟨?_, this.1, this.2⟩
      unfold sendCap at hlen
      omega
  · unfold Broadcast at h
    cases hm : marshal event with
    | none => rw [hm] at h; cases h
    | some data =>
      rw [hm] at h
      by_cases hl : s.hub.broadcast.length < broadcastCap
      · simp [hl] at h
      · unfold broadcastCap at hl
        omega
  · unfold Broadcast
    have hl' : s.hub.broadcast.length < broadcastCap := hl
    cases hm : marshal event with
    | none => exact ⟨s, rfl, rfl⟩
    | some data =>
      simp only [hl', if_true]
      exact ⟨_, rfl, rfl⟩

theorem saturated_open : RegisteredOpen saturated := by
  intro c hc
  have : c = 1 := by simpa [saturated, ClientMap.mem_iff] using hc
  subst this
  rfl

/-- C19, the stalled state: its registered queues are open and the queue of the
one connection is full; handling a publish to its subject completes, and so
does a call of `Broadcast`, nothing being pending. -/
theorem slow_receiver_never_blocks_witness :
    RegisteredOpen saturated ∧ saturated.hub.broadcast.length < 256 ∧
    handle saturated (.publish ⟨"u1", taskUpdate⟩)
      = .ok ((saturated.setClients (saturated.hub.clients.delete 1)).setSend 1
          ⟨backlog, true⟩) ∧
    Broadcast sampleMarshal saturated "u1" 0
      = .ok (after saturated (Broadcast sampleMarshal saturated "u1" 0)) := by
  obtain ⟨s', h, _⟩ := (slow_receiver_never_blocks sampleMarshal saturated).2.1
    saturated_open ⟨"u1", taskUpdate⟩
  obtain ⟨t, ht, _⟩ := (slow_receiver_never_blocks sampleMarshal saturated).2.2.2
    (by decide) "u1" 0
  refine ⟨saturated_open, by decide, saturated_publish, ?_⟩
  rw [ht]
  rfl

/-! ## Only the loop changes the registry -/

theorem readPump_events (c : ClientPtr) (frames : List Bytes) :
    readPump c frames = [.unregister c, .closeConn c] := by
  induction frames with
  | nil => rfl
  | cons _ rest ih => simpa [readPump] using ih

/-- What one iteration of the write task changes: nothing of the hub, nothing
of another client, and of its own client the stream and the head of the queue. -/
theorem writePumpStep_frame {s s' : State} {c : ClientPtr} {writeOk : Bool}
    (h : writePumpStep s c writeOk = .ok s') :
    s'.hub = s.hub ∧ (∀ p, p ≠ c → s'.mem p = s.mem p) ∧
    (s'.mem c).userID = (s.mem c).userID ∧
    (s'.mem c).send.closed = (s.mem c).send.closed ∧
    ((s'.mem c).send.buf = (s.mem c).send.buf ∨
      ∃ message, (s.mem c).send.buf = message :: (s'.mem c).send.buf) := by
  unfold writePumpStep at h
  by_cases hdone : s.writerDone c = true
  · simp [hdone] at h
  · simp only [hdone, Bool.false_eq_true, if_false] at h
    cases hq : (s.mem c).send.buf with
    | nil =>
      rw [hq] at h
      simp only at h
      by_cases hcl : (s.mem c).send.closed = true
      · simp only [hcl, if_true, Except.ok.injEq] at h
        subst h
        refine ⟨rfl, fun p hp => by simp [State.writerExit, hp], ?_, ?_, ?_⟩
        · simp [State.writerExit]
        · simp [State.writerExit]
        · left; simp [State.writerExit, hq]
      · simp [hcl] at h
    | cons m rest =>
      rw [hq] at h
      simp only at h
      by_cases hw : (writeOk && !(s.mem c).conn.closed) = true
      · simp only [hw, if_true, Except.ok.injEq] at h
        subst h
        refine ⟨rfl, fun p hp => by simp [State.setClient, hp], ?_, ?_, ?_⟩
        · simp [State.setClient]
        · simp [State.setClient]
        · right; exact ⟨m, by simp [State.setClient]⟩
      · simp only [hw, Bool.false_eq_true, if_false, Except.ok.injEq] at h
        subst h
        refine ⟨rfl, fun p hp => by simp [State.writerExit, State.setSend, State.setClient, hp],
          ?_, ?_, ?_⟩
        · simp [State.writerExit, State.setSend, State.setClient]
        · simp [State.writerExit, State.setSend, State.setClient]
        · right; exact ⟨m, by simp [State.writerExit, State.setSend, State.setClient]⟩

/-- `HandleWS` leaves the hub as it is and sends nothing or one register
request for the client it built. -/
theorem HandleWS_frame (jwtParse : String → String → ParsedToken)
    (upgrade : Request → Option Conn) (addr : ClientPtr) (s : State) (r : Request) :
    (HandleWS jwtParse upgrade addr s r).state.hub = s.hub ∧
    ((HandleWS jwtParse upgrade addr s r).sent = [] ∨
      (HandleWS jwtParse upgrade addr s r).sent = [.register addr]) ∧
    ∀ p, p ≠ addr → (HandleWS jwtParse upgrade addr s r).state.mem p = s.mem p := by
  unfold HandleWS
  simp only
  split_ifs
  · exact ⟨rfl, Or.inl rfl, fun _ _ => rfl⟩
  · exact ⟨rfl, Or.inl rfl, fun _ _ => rfl⟩
  · split
    · exact ⟨rfl, Or.inl rfl, fun _ _ => rfl⟩
    · split_ifs
      · exact ⟨rfl, Or.inl rfl, fun _ _ => rfl⟩
      · split
        · exact ⟨rfl, Or.inl rfl, fun _ _ => rfl⟩
        · exact ⟨rfl, Or.inr rfl, fun p hp => by simp [hp]⟩

/-- C20. `Broadcast` changes nothing but the pending-publish queue, to which it
appends at most one message. `HandleWS` leaves the hub as it is, touches no
client but the one it builds, and sends at most one register request, for that
client. `readPump` sends one unregister request for its own client and closes
its stream, which leaves the hub and every queue as they are. An iteration of
`writePump` leaves the hub and every other client as they are and takes at
most the oldest message off its own queue. So the registry changes only when
`Run` handles a request. -/
theorem registry_only_by_loop {α : Type} (marshal : α → Option Bytes) (s : State) :
    (∀ userID event s', Broadcast marshal s userID event = .ok s' →
      s'.hub.clients = s.hub.clients ∧ s'.hub.jwtSecret = s.hub.jwtSecret ∧
      s'.mem = s.mem ∧ s'.writerDone = s.writerDone ∧
      (s'.hub.broadcast = s.hub.broadcast ∨
        ∃ data, s'.hub.broadcast = s.hub.broadcast ++ [⟨userID, data⟩])) ∧
    (∀ jwtParse upgrade addr r,
      (HandleWS jwtParse upgrade addr s r).state.hub = s.hub ∧
      ((HandleWS jwtParse upgrade addr s r).sent = [] ∨
        (HandleWS jwtParse upgrade addr s r).sent = [.register addr]) ∧
      ∀ p, p ≠ addr → (HandleWS jwtParse upgrade addr s r).state.mem p = s.mem p) ∧
    (∀ c frames, readPump c frames = [.unregister c, .closeConn c] ∧
      pumpStep s (.unregister c) = handle s (.unregister c) ∧
      ∃ s', pumpStep s (.closeConn c) = .ok s' ∧ s'.hub = s.hub ∧
        ∀ p, (s'.mem p).send = (s.mem p).send) ∧
    (∀ c writeOk s', writePumpStep s c writeOk = .ok s' →
      s'.hub = s.hub ∧ (∀ p, p ≠ c → s'.mem p = s.mem p) ∧
      (s'.mem c).send.closed = (s.mem c).send.closed ∧
      ((s'.mem c).send.buf = (s.mem c).send.buf ∨
        ∃ message, (s.mem c).send.buf = message :: (s'.mem c).send.buf)) := by
  refine ⟨fun userID event s' h => ?_, fun jwtParse upgrade addr r =>
    HandleWS_frame jwtParse upgrade addr s r, fun c frames => ?_, fun c writeOk s' h => ?_⟩
  · unfold Broadcast at h
    cases hm : marshal event with
    | none =>
      rw [hm] at h
      cases h
      exact ⟨rfl, rfl, rfl, rfl, Or.inl rfl⟩
    | some data =>
      rw [hm] at h
      by_cases hl : s.hub.broadcast.length < broadcastCap
      · simp only [hl, if_true, Except.ok.injEq] at h
        subst h
        exact ⟨rfl, rfl, rfl, rfl, Or.inr ⟨data, rfl⟩⟩
      · simp [hl] at h
  · refine ⟨readPump_events c frames, rfl, s.closeConn c, rfl, rfl, fun p => ?_⟩
    by_cases hp : p = c
    · subst hp; simp [State.closeConn, State.setClient]
    · simp [State.closeConn, State.setClient, hp]
  · have := writePumpStep_frame h
    exact ⟨this.1, this.2.1, this.2.2.2.1, this.2.2.2.2⟩

/-- C20, scenario: a publish, an accepted request, a read task that saw two
frames and a write-task iteration each leave the three registered connections
registered; the accepted request sends one register request, the read task one
unregister request. -/
theorem registry_only_by_loop_witness :
    (after scenario (Broadcast sampleMarshal scenario "u1" 0)).hub.clients
      = scenario.hub.clients ∧
    (HandleWS sampleParse sampleUpgrade 4 scenario ⟨"good", none, ""⟩).state.hub
      = scenario.hub ∧
    (HandleWS sampleParse sampleUpgrade 4 scenario ⟨"good", none, ""⟩).sent = [.register 4] ∧
    readPump 1 [taskUpdate, taskDelete] = [.unregister 1, .closeConn 1] ∧
    (after scenario (exec sampleMarshal scenario sampleActions)).hub.clients.keys
      = [1, 2, 3] :=
  ⟨((registry_only_by_loop sampleMarshal scenario).1 "u1" 0 _ rfl).1,
   ((registry_only_by_loop sampleMarshal scenario).2.1 sampleParse sampleUpgrade 4
      ⟨"good", none, ""⟩).1,
   by decide,
   ((registry_only_by_loop sampleMarshal scenario).2.2.1 1 [taskUpdate, taskDelete]).1,
   by decide⟩

/-! ## The write task -/

theorem getD_tail (outcomes : List Bool) (i : Nat) :
    outcomes.tail.getD i true = outcomes.getD (i + 1) true := by
  cases outcomes with
  | nil => rfl
  | cons o os => rfl

theorem getD_zero (outcomes : List Bool) : outcomes.getD 0 true = outcomes.headD true := by
  cases outcomes with
  | nil => rfl
  | cons o os => rfl

/-- The loop of `writePump` on a client whose write task is running and whose
stream is open: it writes the queued messages in order up to the first write
that fails, which is the last it attempts, and returns with the stream closed;
when no write fails it returns after the last message if the queue is closed
and waits if the queue is open. -/
theorem writePumpFrom_spec (c : ClientPtr) (queue : List Bytes) (outcomes : List Bool)
    (s : State) (hq : (s.mem c).send.buf = queue) (hrun : s.writerDone c = false)
    (hopen : (s.mem c).conn.closed = false) :
    ∃ k, k ≤ queue.length ∧ (∀ i, i < k → outcomes.getD i true = true) ∧
      ((k < queue.length ∧ outcomes.getD k true = false ∧
          ∃ s', writePumpFrom c queue outcomes s = .ok s' ∧
            WriterReturned c s s' (queue.take k) (queue.drop (k + 1))) ∨
       (k = queue.length ∧ (s.mem c).send.closed = true ∧
          ∃ s', writePumpFrom c queue outcomes s = .ok s' ∧ WriterReturned c s s' queue []) ∨
       (k = queue.length ∧ (s.mem c).send.closed = false ∧
          writePumpFrom c queue outcomes s = .error .wouldBlock)) := by
  induction queue generalizing outcomes s with
  | nil =>
    refine ⟨0, Nat.le_refl _, fun i hi => absurd hi (Nat.not_lt_zero i), ?_⟩
    cases hcl : (s.mem c).send.closed with
    | true =>
      refine Or.inr (Or.inl ⟨rfl, rfl, s.writerExit c, ?_, ?_⟩)
      · simp [writePumpFrom, writePumpStep, hrun, hq, hcl]
      · refine ⟨?_, ?_, ?_, ?_, rfl, fun p hp => ?_⟩
        · simp [State.writerExit]
        · have hs : (s.mem c).send = ⟨[], true⟩ := by
            cases hc : (s.mem c).send with
            | mk b cl =>
              rw [hc] at hq hcl
              simp only at hq hcl
              rw [hq, hcl]
          simp [State.writerExit, hs]
        · simp [State.writerExit]
        · simp [State.writerExit]
        · simp [State.writerExit, hp]
    | false =>
      refine Or.inr (Or.inr ⟨rfl, rfl, ?_⟩)
      simp [writePumpFrom, writePumpStep, hrun, hq, hcl]
  | cons m rest ih =>
    cases ho : outcomes.headD true with
    | false =>
      refine ⟨0, Nat.zero_le _, fun i hi => absurd hi (Nat.not_lt_zero i), Or.inl ⟨?_, ?_, ?_⟩⟩
      · simp
      · rw [getD_zero, ho]
      · have hstep : writePumpStep s c false
            = .ok ((s.setSend c ⟨rest, (s.mem c).send.closed⟩).writerExit c) := by
          simp [writePumpStep, hrun, hq]
        refine ⟨(s.setSend c ⟨rest, (s.mem c).send.closed⟩).writerExit c, ?_, ?_⟩
        · rw [writePumpFrom, ho, hstep]
          simp [State.writerExit]
        · refine ⟨?_, ?_, ?_, ?_, rfl, fun p hp => ?_⟩
          · simp [State.writerExit, State.setSend, State.setClient]
          · simp [State.writerExit, State.setSend, State.setClient]
          · simp [State.writerExit, State.setSend, State.setClient]
          · simp [State.writerExit]
          · simp [State.writerExit, State.setSend, State.setClient, hp]
    | true =>
      have hstep : writePumpStep s c true
          = .ok (s.setClient c
              { userID := (s.mem c).userID
                send := ⟨rest, (s.mem c).send.closed⟩
                conn := ⟨(s.mem c).conn.written ++ [m], (s.mem c).conn.closed⟩ }) := by
        simp [writePumpStep, hrun, hq, hopen]
      have hnext : writePumpFrom c (m :: rest) outcomes s
          = writePumpFrom c rest outcomes.tail (s.setClient c
              { userID := (s.mem c).userID
                send := ⟨rest, (s.mem c).send.closed⟩
                conn := ⟨(s.mem c).conn.written ++ [m], (s.mem c).conn.closed⟩ }) := by
        rw [writePumpFrom, ho, hstep]
        simp [State.setClient, hrun]
      obtain ⟨k, hk, hall, hcases⟩ := ih outcomes.tail (s.setClient c
          { userID := (s.mem c).userID
            send := ⟨rest, (s.mem c).send.closed⟩
            conn := ⟨(s.mem c).conn.written ++ [m], (s.mem c).conn.closed⟩ })
        (by simp [State.setClient]) (by simp [State.setClient, hrun])
        (by simp [State.setClient, hopen])
      have hall' : ∀ i, i < k + 1 → outcomes.getD i true = true := by
        intro i hi
        cases i with
        | zero => rw [getD_zero, ho]
        | succ j => rw [← getD_tail]; exact hall j (by omega)
      have hpost : ∀ s' w b, WriterReturned c (s.setClient c
          { userID := (s.mem c).userID
            send := ⟨rest, (s.mem c).send.closed⟩
            conn := ⟨(s.mem c).conn.written ++ [m], (s.mem c).conn.closed⟩ }) s' w b →
          WriterReturned c s s' (m :: w) b := by
        intro s' w b ⟨h1, h2, h3, h4, h5, h6⟩
        refine ⟨?_, ?_, ?_, h4, ?_, fun p hp => ?_⟩
        · rw [h1]; simp [State.setClient]
        · rw [h2]; simp [State.setClient]
        · rw [h3]; simp [State.setClient]
        · rw [h5]; rfl
        · rw [h6 p hp]; simp [State.setClient, hp]
      refine ⟨k + 1, by simp only [List.length_cons]; omega, hall', ?_⟩
      rcases hcases with ⟨h1, h2, s', h3, h4⟩ | ⟨h1, h2, s', h3, h4⟩ | ⟨h1, h2, h3⟩
      · refine Or.inl ⟨by simp only [List.length_cons]; omega, by rw [← getD_tail]; exact h2,
          s', by rw [hnext]; exact h3, ?_⟩
        simpa using hpost s' _ _ h4
      · refine Or.inr (Or.inl ⟨by simp only [List.length_cons]; omega, ?_, s',
          by rw [hnext]; exact h3, hpost s' _ _ h4⟩)
        simpa [State.setClient] using h2
      · refine Or.inr (Or.inr ⟨by simp only [List.length_cons]; omega, ?_,
          by rw [hnext]; exact h3⟩)
        simpa [State.setClient] using h2

/-- The loop of `writePump` on a client whose stream is already closed: the
first write fails, so nothing is written; with a message queued the loop takes
it and returns, with none it returns if the queue is closed and waits if it is
open. -/
theorem writePumpFrom_closedConn (c : ClientPtr) (queue : List Bytes) (outcomes : List Bool)
    (s : State) (hq : (s.mem c).send.buf = queue) (hrun : s.writerDone c = false)
    (hconn : (s.mem c).conn.closed = true) :
    (0 < queue.length ∧ ∃ s', writePumpFrom c queue outcomes s = .ok s' ∧
        WriterReturned c s s' [] (queue.drop 1)) ∨
    (queue = [] ∧ (s.mem c).send.closed = true ∧
        ∃ s', writePumpFrom c queue outcomes s = .ok s' ∧ WriterReturned c s s' [] []) ∨
    (queue = [] ∧ (s.mem c).send.closed = false ∧
        writePumpFrom c queue outcomes s = .error .wouldBlock) := by
  cases queue with
  | nil =>
    cases hcl : (s.mem c).send.closed with
    | true =>
      refine Or.inr (Or.inl ⟨rfl, rfl, s.writerExit c, ?_, ?_⟩)
      · simp [writePumpFrom, writePumpStep, hrun, hq, hcl]
      · have hs : (s.mem c).send = ⟨[], true⟩ := by
          cases hc : (s.mem c).send with
          | mk b cl =>
            rw [hc] at hq hcl
            simp only at hq hcl
            rw [hq, hcl]
        refine ⟨?_, ?_, ?_, ?_, rfl, fun p hp => ?_⟩
        · simp [State.writerExit]
        · simp [State.writerExit, hs]
        · simp [State.writerExit]
        · simp [State.writerExit]
        · simp [State.writerExit, hp]
    | false =>
      refine Or.inr (Or.inr ⟨rfl, rfl, ?_⟩)
      simp [writePumpFrom, writePumpStep, hrun, hq, hcl]
  | cons m rest =>
    have hstep : writePumpStep s c (outcomes.headD true)
        = .ok ((s.setSend c ⟨rest, (s.mem c).send.closed⟩).writerExit c) := by
      simp [writePumpStep, hrun, hq, hconn]
    refine Or.inl ⟨by simp, (s.setSend c ⟨rest, (s.mem c).send.closed⟩).writerExit c, ?_, ?_⟩
    · rw [writePumpFrom, hstep]
      simp [State.writerExit]
    · refine ⟨?_, ?_, ?_, ?_, rfl, fun p hp => ?_⟩
      · simp [State.writerExit, State.setSend, State.setClient]
      · simp [State.writerExit, State.setSend, State.setClient]
      · simp [State.writerExit, State.setSend, State.setClient]
      · simp [State.writerExit]
      · simp [State.writerExit, State.setSend, State.setClient, hp]

/-- C22. For every queue content and every pattern of write outcomes, a write
succeeding when its outcome says so and the stream is not closed, `writePump`
writes the queued messages in queue order up to the first write that fails:
`k` messages are written, all writes before the `k`-th succeed, and when a
write fails the failing message is the last one taken from the queue, the
later ones staying there unwritten. It closes the stream when it stops, after
the failing write or after the last message of a closed queue; with an open
queue and no failing write it does not stop but waits for the next message. -/
theorem write_task_semantics (s : State) (c : ClientPtr) (outcomes : List Bool)
    (hrun : s.writerDone c = false) :
    ∃ k, k ≤ (s.mem c).send.buf.length ∧
      (∀ i, i < k → (outcomes.getD i true && !(s.mem c).conn.closed) = true) ∧
      ((k < (s.mem c).send.buf.length ∧
          (outcomes.getD k true && !(s.mem c).conn.closed) = false ∧
          ∃ s', writePump s c outcomes = .ok s' ∧
            (s'.mem c).conn = ⟨(s.mem c).conn.written ++ (s.mem c).send.buf.take k, true⟩ ∧
            (s'.mem c).send.buf = (s.mem c).send.buf.drop (k + 1) ∧
            s'.writerDone c = true) ∨
       (k = (s.mem c).send.buf.length ∧ (s.mem c).send.closed = true ∧
          ∃ s', writePump s c outcomes = .ok s' ∧
            (s'.mem c).conn = ⟨(s.mem c).conn.written ++ (s.mem c).send.buf, true⟩ ∧
            (s'.mem c).send.buf = [] ∧ s'.writerDone c = true) ∨
       (k = (s.mem c).send.buf.length ∧ (s.mem c).send.closed = false ∧
          writePump s c outcomes = .error .wouldBlock)) := by
  cases hconn : (s.mem c).conn.closed with
  | false =>
    obtain ⟨k, hk, hall, h⟩ := writePumpFrom_spec c _ outcomes s rfl hrun hconn
    refine ⟨k, hk, fun i hi => by rw [hall i hi]; rfl, ?_⟩
    rcases h with ⟨h1, h2, s', h3, h4⟩ | ⟨h1, h2, s', h3, h4⟩ | ⟨h1, h2, h3⟩
    · exact Or.inl ⟨h1, by rw [h2]; rfl, s', h3, h4.1, by rw [h4.2.1], h4.2.2.2.1⟩
    · exact Or.inr (Or.inl ⟨h1, h2, s', h3, h4.1, by rw [h4.2.1], h4.2.2.2.1⟩)
    · exact Or.inr (Or.inr ⟨h1, h2, h3⟩)
  | true =>
    refine ⟨0, Nat.zero_le _, fun i hi => absurd hi (Nat.not_lt_zero i), ?_⟩
    rcases writePumpFrom_closedConn c _ outcomes s rfl hrun hconn with
      ⟨h1, s', h3, h4⟩ | ⟨h1, h2, s', h3, h4⟩ | ⟨h1, h2, h3⟩
    · refine Or.inl ⟨h1, by simp, s', h3, ?_, by rw [h4.2.1], h4.2.2.2.1⟩
      rw [h4.1]; simp
    · refine Or.inr (Or.inl ⟨by rw [h1]; rfl, h2, s', h3, ?_, by rw [h4.2.1], h4.2.2.2.1⟩)
      rw [h4.1, h1]
    · exact Or.inr (Or.inr ⟨by rw [h1]; rfl, h2, h3⟩)

/-- C22, the draining client: its queue holds the task update and the task
deletion and is closed. With every write succeeding both are written in that
order; with the second write failing only the update is written; either way
the stream ends closed. -/
theorem write_task_semantics_witness :
    draining.writerDone 1 = false ∧ (draining.mem 1).conn.closed = false ∧
    (draining.mem 1).send = ⟨[taskUpdate, taskDelete], true⟩ ∧
    ((after draining (writePump draining 1 [])).mem 1).conn
      = ⟨[taskUpdate, taskDelete], true⟩ ∧
    ((after draining (writePump draining 1 [true, false])).mem 1).conn
      = ⟨[taskUpdate], true⟩ ∧
    ((after draining (writePump draining 1 [true, false, true])).mem 1).conn.closed
      = true := by
  refine ⟨rfl, rfl, by decide, by decide, by decide, ?_⟩
  obtain ⟨k, _, _, h⟩ := write_task_semantics draining 1 [true, false, true] rfl
  rcases h with ⟨_, _, s', h3, h4, _⟩ | ⟨_, _, s', h3, h4, _⟩ | ⟨_, h2, _⟩
  · rw [h3]
    simp only [after, h4]
  · rw [h3]
    simp only [after, h4]
  · exact absurd h2 (by decide)

/-! ## Queued messages survive the closing -/

theorem fanOutOne_writerDone {msg : broadcastMsg} {s s' : State} {d : ClientPtr}
    (h : fanOutOne msg s d = .ok s') : s'.writerDone = s.writerDone := by
  rcases fanOutOne_ok h with ⟨_, rfl⟩ | ⟨_, _, _, rfl⟩ | ⟨_, _, _, rfl⟩ <;> rfl

theorem fanOut_writerDone {msg : broadcastMsg} {order : List ClientPtr} {s s' : State}
    (h : fanOut msg order s = .ok s') : s'.writerDone = s.writerDone := by
  induction order generalizing s with
  | nil => simp [fanOut] at h; rw [h]
  | cons d rest ih =>
    obtain ⟨s₁, h1, h2⟩ := fanOut_cons_ok h
    rw [ih h2, fanOutOne_writerDone h1]

/-- The loop touches neither a stream nor the state of a write task. -/
theorem handle_conn_writer {s s' : State} {r : Req} (h : handle s r = .ok s')
    (c : ClientPtr) :
    (s'.mem c).conn = (s.mem c).conn ∧ s'.writerDone = s.writerDone := by
  cases r with
  | register d =>
    rw [handleRegister_eq] at h
    cases h
    exact ⟨rfl, rfl⟩
  | unregister d =>
    rcases handleUnregister_ok h with ⟨_, rfl⟩ | ⟨_, _, rfl⟩
    · exact ⟨rfl, rfl⟩
    · by_cases hcd : c = d
      · subst hcd; exact ⟨by simp, rfl⟩
      · rw [State.setSend_mem_of_ne _ _ hcd]; exact ⟨rfl, rfl⟩
  | publish msg => exact ⟨(fanOut_conn_broadcast h c).1, fanOut_writerDone h⟩

/-- A write task that is running with its stream open on a closed queue writes
the whole queue, in order, when no write fails, and returns. -/
theorem writePump_flush {s : State} {c : ClientPtr} {queue : List Bytes}
    (hs : (s.mem c).send = ⟨queue, true⟩) (hrun : s.writerDone c = false)
    (hopen : (s.mem c).conn.closed = false) :
    ∃ s', writePump s c [] = .ok s' ∧
      (s'.mem c).conn = ⟨(s.mem c).conn.written ++ queue, true⟩ ∧
      (s'.mem c).send.buf = [] := by
  have hq : (s.mem c).send.buf = queue := by rw [hs]
  have hcl : (s.mem c).send.closed = true := by rw [hs]
  obtain ⟨k, hk, _, h⟩ := writePumpFrom_spec c queue [] s hq hrun hopen
  rcases h with ⟨_, h2, _⟩ | ⟨_, _, s', h3, h4⟩ | ⟨_, h2, _⟩
  · simp at h2
  · exact ⟨s', by unfold writePump; rw [hq]; exact h3, h4.1, by rw [h4.2.1]⟩
  · rw [hcl] at h2; cases h2

/-- C21. When a registered connection is removed by unregister, or evicted
because its queue is full, its queue is closed with the messages it held kept
unchanged and in order (on eviction the payload being published is not among
them); and if its write task is still running on an open stream, the task
then writes exactly those messages, in order, and returns. -/
theorem queued_messages_survive (s : State) (c : ClientPtr) (hc : c ∈ s.hub.clients) :
    (∀ s', handle s (.unregister c) = .ok s' →
      (s'.mem c).send = ⟨(s.mem c).send.buf, true⟩ ∧
      (s.writerDone c = false → (s.mem c).conn.closed = false →
        ∃ s'', writePump s' c [] = .ok s'' ∧
          (s''.mem c).conn = ⟨(s.mem c).conn.written ++ (s.mem c).send.buf, true⟩ ∧
          (s''.mem c).send.buf = [])) ∧
    (∀ msg s', handle s (.publish msg) = .ok s' → (s.mem c).userID = msg.userID →
      256 ≤ (s.mem c).send.buf.length →
      (s'.mem c).send = ⟨(s.mem c).send.buf, true⟩ ∧
      (s.writerDone c = false → (s.mem c).conn.closed = false →
        ∃ s'', writePump s' c [] = .ok s'' ∧
          (s''.mem c).conn = ⟨(s.mem c).conn.written ++ (s.mem c).send.buf, true⟩ ∧
          (s''.mem c).send.buf = [])) := by
  have hflush : ∀ (r : Req) (s' : State), handle s r = .ok s' →
      (s'.mem c).send = ⟨(s.mem c).send.buf, true⟩ →
      s.writerDone c = false → (s.mem c).conn.closed = false →
      ∃ s'', writePump s' c [] = .ok s'' ∧
        (s''.mem c).conn = ⟨(s.mem c).conn.written ++ (s.mem c).send.buf, true⟩ ∧
        (s''.mem c).send.buf = [] := by
    intro r s' h hs hrun hopen
    obtain ⟨e1, e2⟩ := handle_conn_writer h c
    obtain ⟨s'', h1, h2, h3⟩ := writePump_flush (s := s') hs (by rw [e2]; exact hrun)
      (by rw [e1]; exact hopen)
    exact ⟨s'', h1, by rw [h2, e1], h3⟩
  refine ⟨fun s' h => ?_, fun msg s' h hu hfull => ?_⟩
  · have hs : (s'.mem c).send = ⟨(s.mem c).send.buf, true⟩ := by
      rcases handleUnregister_ok h with ⟨hn, _⟩ | ⟨_, _, rfl⟩
      · exact absurd hc hn
      · simp
    exact ⟨hs, hflush _ s' h hs⟩
  · have hl : ¬ (s.mem c).send.buf.length < sendCap := by unfold sendCap; omega
    have hs := (handleBroadcast_evict h hc hu hl).1
    exact ⟨hs, hflush _ s' h hs⟩

/-- C21, two closings: the publish that evicts the stalled connection leaves
its 256 messages in its closed queue; the draining client, unregistered with
the update and the deletion queued, has both in its closed queue, and its write
task then writes both, in order. -/
theorem queued_messages_survive_witness :
    1 ∈ saturated.hub.clients ∧ 256 ≤ (saturated.mem 1).send.buf.length ∧
    (((saturated.setClients (saturated.hub.clients.delete 1)).setSend 1
      ⟨backlog, true⟩).mem 1).send = ⟨(saturated.mem 1).send.buf, true⟩ ∧
    (draining.mem 1).send = ⟨[taskUpdate, taskDelete], true⟩ ∧
    ((after draining (writePump draining 1 [])).mem 1).conn
      = ⟨[taskUpdate, taskDelete], true⟩ :=
  ⟨by decide, le_of_eq backlog_length.symm,
   ((queued_messages_survive saturated 1 (by decide)).2 ⟨"u1", taskUpdate⟩ _
      saturated_publish rfl (le_of_eq backlog_length.symm)).1,
   by decide, by decide⟩

/-! ## The read task -/

/-- C23. Whatever frames are read before the read error, and however many,
`readPump` does the same two things in this order: it sends one unregister
request for its own client, which the loop handles, and then closes its
stream. Nothing else reaches the hub: when the request has been handled and
the stream closed, the state is the one the loop's handling of the unregister
left, with the stream of the client closed; every queue holds what it held,
and only the queue of the client itself may have been closed, by the
unregister. -/
theorem read_task_semantics (s : State) (c : ClientPtr) (frames : List Bytes) :
    readPump c frames = [.unregister c, .closeConn c] ∧
    runPump s (readPump c frames) = runPump s (readPump c []) ∧
    (∀ s', runPump s (readPump c frames) = .ok s' →
      ∃ s₁, handle s (.unregister c) = .ok s₁ ∧ s' = s₁.closeConn c ∧
        (s'.mem c).conn.closed = true ∧
        (∀ p, (s'.mem p).send.buf = (s.mem p).send.buf) ∧
        (∀ p, p ≠ c → s'.mem p = s.mem p) ∧ c ∉ s'.hub.clients) := by
  have hev := readPump_events c frames
  refine ⟨hev, by rw [hev, readPump_events c []], fun s' h => ?_⟩
  rw [hev] at h
  simp only [runPump, pumpStep] at h
  cases h1 : handle s (.unregister c) with
  | error e => rw [h1] at h; cases h
  | ok s₁ =>
    rw [h1] at h
    simp only [Except.ok.injEq] at h
    subst h
    have hh : handleUnregister s c = .ok s₁ := h1
    refine ⟨s₁, rfl, rfl, by simp [State.closeConn, State.setClient], fun p => ?_,
      fun p hp => ?_, ?_⟩
    · have hb : (s₁.mem p).send.buf = (s.mem p).send.buf := by
        rcases handleUnregister_ok hh with ⟨_, rfl⟩ | ⟨_, _, rfl⟩
        · rfl
        · by_cases hpc : p = c
          · subst hpc; simp
          · rw [State.setSend_mem_of_ne _ _ hpc]; rfl
      by_cases hpc : p = c
      · subst hpc; simpa [State.closeConn, State.setClient] using hb
      · simpa [State.closeConn, State.setClient, hpc] using hb
    · have hm : s₁.mem p = s.mem p := by
        rcases handleUnregister_ok hh with ⟨_, rfl⟩ | ⟨_, _, rfl⟩
        · rfl
        · rw [State.setSend_mem_of_ne _ _ hp]; rfl
      simpa [State.closeConn, State.setClient, hp] using hm
    · have hc : c ∉ s₁.hub.clients := by
        rcases handleUnregister_ok hh with ⟨hn, rfl⟩ | ⟨_, _, rfl⟩
        · exact hn
        · simp [ClientMap.mem_delete]
      exact hc

/-- C23, scenario: the read task of A1 reads a task update and a task
deletion sent by the peer and then an error; A1 is unregistered and its stream
closed, A2 and the third client stay registered, and no queue has received
anything. -/
theorem read_task_semantics_witness :
    runPump scenario (readPump 1 [taskUpdate, taskDelete])
      = .ok (after scenario (runPump scenario (readPump 1 [taskUpdate, taskDelete]))) ∧
    (after scenario (runPump scenario (readPump 1 [taskUpdate, taskDelete]))).hub.clients.keys
      = [2, 3] ∧
    ((after scenario (runPump scenario (readPump 1 [taskUpdate, taskDelete]))).mem 1).conn.closed
      = true ∧
    ((after scenario (runPump scenario (readPump 1 [taskUpdate, taskDelete]))).mem 2).send.buf
      = [] := by
  obtain ⟨s₁, _, _, h3, h4, _⟩ :=
    (read_task_semantics scenario 1 [taskUpdate, taskDelete]).2.2 _ rfl
  exact ⟨rfl, by decide, h3, h4 2⟩

/-! ## What the handlers publish -/

/-- What `Auth` stores in the context is the non-empty `sub` claim of the
token it verified. -/
theorem Auth_some {jwtParse : String → String → ParsedToken} {jwtSecret : String}
    {r : Request} {userID : String} (h : Auth jwtParse jwtSecret r = some userID) :
    userID ≠ "" ∧ ∃ claims,
      (jwtParse (authCredential r) jwtSecret).claims = .mapClaims claims ∧
      subClaim claims = userID := by
  unfold Auth at h
  simp only at h
  split_ifs at h with h0 h1
  split at h
  · cases h
  · rename_i claims hc
    split_ifs at h with h2
    cases h
    exact ⟨h2, claims, hc, rfl⟩

/-- C24. At every call of `Hub.Broadcast` in the handlers of projects, tasks,
wiki guides, installations, snippets and access grants, the event's type is
"create", "update" or "delete", and the subject published to is the event's
own `UserID` and the user of the request, `middleware.GetUserID(r)`: for a
request that `middleware.Auth` let through, the `sub` claim of its verified
token. An access grant is thus published to the user who grants. -/
theorem handlers_publish_to_requester {ε : Type} (site : BroadcastSite)
    (ctxValue : Option String) (result : ε) (id : String) :
    ((site.call ctxValue result id).2.Type' = "create" ∨
      (site.call ctxValue result id).2.Type' = "update" ∨
      (site.call ctxValue result id).2.Type' = "delete") ∧
    (site.call ctxValue result id).1 = (site.call ctxValue result id).2.UserID ∧
    (site.call ctxValue result id).1 = GetUserID ctxValue ∧
    (∀ jwtParse jwtSecret r userID, Auth jwtParse jwtSecret r = some userID →
      ctxValue = some userID →
      (site.call ctxValue result id).1 = userID ∧ userID ≠ "" ∧
      ∃ claims, (jwtParse (authCredential r) jwtSecret).claims = .mapClaims claims ∧
        subClaim claims = userID) := by
  refine ⟨?_, ?_, ?_, fun jwtParse jwtSecret r userID h hctx => ?_⟩
  · cases site <;> simp [BroadcastSite.call]
  · cases site <;> rfl
  · cases site <;> rfl
  · obtain ⟨h1, h2⟩ := Auth_some h
    refine ⟨?_, h1, h2⟩
    subst hctx
    cases site <;> rfl

/-- C24, an access grant: the request carries the header `Bearer good`, whose
token verifies with subject "u1"; the grant is published to "u1" as a "create"
event of collection "access_control" with `UserID` "u1". -/
theorem handlers_publish_to_requester_witness :
    Auth sampleParse "secret" ⟨"", none, "Bearer good"⟩ = some "u1" ∧
    (BroadcastSite.accessGrant.call (some "u1") taskUpdate "").1 = "u1" ∧
    (BroadcastSite.accessGrant.call (some "u1") taskUpdate "").2.Type' = "create" ∧
    (BroadcastSite.accessGrant.call (some "u1") taskUpdate "").2.Collection
      = "access_control" ∧
    (BroadcastSite.accessGrant.call (some "u1") taskUpdate "").2.UserID = "u1" :=
  ⟨by decide,
   ((handlers_publish_to_requester BroadcastSite.accessGrant (some "u1") taskUpdate "").2.2.2
      sampleParse "secret" ⟨"", none, "Bearer good"⟩ "u1" (by decide) rfl).1,
   by decide, by decide,
   ((handlers_publish_to_requester BroadcastSite.accessGrant (some "u1") taskUpdate
      "").2.1).symm.trans (by decide)⟩

/-! ## No fallback between credential sources -/

/-- C25. `HandleWS` verifies one string, the first non-empty credential it
finds: its outcome depends on the verifier only through that string. When
that credential does not verify the request is answered 401 without any
upgrade, whatever the lower-priority sources carry; and when the query
parameter is empty, the cookie absent or empty and the header empty or a bare
`Bearer `, the request is answered 401 without any upgrade. -/
theorem no_fallback (jwtParse : String → String → ParsedToken)
    (upgrade : Request → Option Conn) (addr : ClientPtr) (s : State) (r : Request) :
    (∀ other, other (credential r) s.hub.jwtSecret = jwtParse (credential r) s.hub.jwtSecret →
      HandleWS other upgrade addr s r = HandleWS jwtParse upgrade addr s r) ∧
    (credential r ≠ "" →
      ((jwtParse (credential r) s.hub.jwtSecret).err = true ∨
        (jwtParse (credential r) s.hub.jwtSecret).valid = false) →
      (HandleWS jwtParse upgrade addr s r).reply = .httpError "invalid token" 401 ∧
      (HandleWS jwtParse upgrade addr s r).upgradeCalled = false ∧
      (HandleWS jwtParse upgrade addr s r).sent = []) ∧
    (r.queryToken = "" → r.cookie.getD "" = "" →
      (r.authorization = "" ∨ r.authorization = "Bearer ") →
      (HandleWS jwtParse upgrade addr s r).reply = .httpError "unauthorized" 401 ∧
      (HandleWS jwtParse upgrade addr s r).upgradeCalled = false ∧
      (HandleWS jwtParse upgrade addr s r).sent = []) := by
  refine ⟨fun other h => HandleWS_congr other jwtParse upgrade addr s r h,
    fun hne hbad => ?_, fun hq hc ha => ?_⟩
  · have hb : ((jwtParse (credential r) s.hub.jwtSecret).err ||
        !(jwtParse (credential r) s.hub.jwtSecret).valid) = true := by
      rcases hbad with h | h <;> simp [h]
    unfold HandleWS
    simp only [hne, if_false, hb, if_true]
    simp [StatusUnauthorized]
  · have hcred : credential r = "" := by
      unfold credential
      cases hck : r.cookie with
      | none =>
        rcases ha with h | h
        · simp [hq, h]
        · simp only [hq, h, if_true]
          decide
      | some v =>
        have hv : v = "" := by simpa [hck] using hc
        rcases ha with h | h
        · simp [hq, hv, h]
        · simp only [hq, hv, h, if_true]
          decide
    unfold HandleWS
    simp only [hcred, if_true]
    simp [StatusUnauthorized]

/-- C25, a request whose query token is expired while its cookie and its
header carry a token that verifies: it is rejected; the same cookie and header
without the query token are accepted. -/
theorem no_fallback_witness :
    credential ⟨"expired", some "good", "Bearer good"⟩ ≠ "" ∧
    (sampleParse (credential ⟨"expired", some "good", "Bearer good"⟩)
      scenario.hub.jwtSecret).err = true ∧
    (HandleWS sampleParse sampleUpgrade 4 scenario ⟨"expired", some "good", "Bearer good"⟩).reply
      = .httpError "invalid token" 401 ∧
    (HandleWS sampleParse sampleUpgrade 4 scenario ⟨"", some "good", "Bearer good"⟩).reply
      = .switched ∧
    (HandleWS sampleParse sampleUpgrade 4 scenario ⟨"", some "", "Bearer "⟩).reply
      = .httpError "unauthorized" 401 :=
  ⟨by decide, by decide,
   ((no_fallback sampleParse sampleUpgrade 4 scenario ⟨"expired", some "good", "Bearer good"⟩).2.1
      (by decide) (Or.inl (by decide))).1,
   by decide,
   ((no_fallback sampleParse sampleUpgrade 4 scenario ⟨"", some "", "Bearer "⟩).2.2
      rfl rfl (Or.inr rfl)).1⟩

/-! ## Registered connections have an open queue -/

/-- C26. On a new hub, for every run of register, unregister and publish
requests in which no connection is registered twice, the loop handles the
whole run and every connection then in the registry has a queue that has not
been closed; so handling one more publish completes: no send is made on a
closed queue. -/
theorem registered_queues_open (jwtSecret : String) (users : ClientPtr → String)
    (reqs : List Req) (hreg : ∀ c, reqs.count (.register c) ≤ 1) :
    ∃ s', Run (boot jwtSecret users) reqs = .ok s' ∧ RegisteredOpen s' ∧
      ∀ msg, ∃ s'', handle s' (.publish msg) = .ok s'' := by
  obtain ⟨s', h, hres⟩ := Run_closed_iff (s := boot jwtSecret users) (D := fun _ => False)
    (fun c hc => by simp [boot, NewHub, ClientMap.empty, ClientMap.mem_iff] at hc)
    (fun c => by simp [boot, Chan.make])
    (fun c hc => hc.elim) hreg
  have hopen : RegisteredOpen s' := by
    intro c hc
    cases hcl : (s'.mem c).send.closed with
    | false => rfl
    | true => exact absurd hc ((hres c).mp hcl).2
  exact ⟨s', h, hopen, fun msg => handleBroadcast_total msg hopen⟩

/-- C26, the sample run: no connection is registered twice, and at its end the
one connection left in the registry, at address 3, has an open queue. -/
theorem registered_queues_open_witness :
    (∀ c, sampleRun.count (.register c) ≤ 1) ∧
    (after (boot "secret" scenarioUsers)
      (Run (boot "secret" scenarioUsers) sampleRun)).hub.clients.keys = [3] ∧
    RegisteredOpen (after (boot "secret" scenarioUsers)
      (Run (boot "secret" scenarioUsers) sampleRun)) := by
  have hreg : ∀ c, sampleRun.count (.register c) ≤ 1 := by
    intro c
    simp only [sampleRun, List.count_cons, List.count_nil, beq_iff_eq, Req.register.injEq]
    simp only [reduceCtorEq, if_false]
    split_ifs <;> first | omega | (exfalso; subst_vars; simp at *)
  obtain ⟨s', h, hopen, _⟩ := registered_queues_open "secret" scenarioUsers sampleRun hreg
  have hs : s' = after (boot "secret" scenarioUsers)
      (Run (boot "secret" scenarioUsers) sampleRun) := by rw [h]; rfl
  subst hs
  exact ⟨hreg, by decide, hopen⟩

/-! ## Evictions and the rest of the fan-out -/

theorem mixed_open : RegisteredOpen mixed := by
  intro c _
  by_cases hc : c = 1
  · subst hc; rfl
  · by_cases hc3 : c = 3
    · subst hc3; rfl
    · have : mixed.mem c = scenario.mem c := by simp [mixed, hc, hc3]
      rw [this]
      rfl

/-- C27. Let the loop visit the registry in any order. Whenever the fan-out of
a publish completes, every registered connection of the addressed subject
whose queue has room has the payload appended once, at the tail of its queue,
and is still registered, however many other connections were evicted on the
way; and in every hub state whose registered connections have open queues the
fan-out completes, in every order. -/
theorem eviction_keeps_fanout (s : State) (msg : broadcastMsg) (order : List ClientPtr)
    (hperm : order.Perm s.hub.clients.keys) :
    (∀ s', fanOut msg order s = .ok s' →
      ∀ c, c ∈ s.hub.clients → (s.mem c).userID = msg.userID →
        (s.mem c).send.buf.length < 256 →
        (s'.mem c).send.buf = (s.mem c).send.buf ++ [msg.data] ∧
        (s'.mem c).send.closed = false ∧ c ∈ s'.hub.clients) ∧
    (RegisteredOpen s → ∃ s', fanOut msg order s = .ok s') := by
  have hnd : order.Nodup := hperm.nodup_iff.mpr s.hub.clients.nodup
  refine ⟨fun s' h c hc hu hl => ?_, fun hopen => ?_⟩
  · have hco : c ∈ order := hperm.mem_iff.mpr hc
    obtain ⟨s₀, s₁, e1, e2, e3, e4, e5⟩ := fanOut_visit hnd h hco
    rcases fanOutOne_ok e3 with ⟨hne, _⟩ | ⟨_, _, _, rfl⟩ | ⟨_, _, hnl, _⟩
    · rw [e1] at hne; exact absurd hu hne
    · rw [e4, e5]
      simp only [State.setSend_mem_self, State.setSend_hub, e1]
      exact ⟨trivial, trivial, e2.mpr hc⟩
    · rw [e1] at hnl; exact absurd hl hnl
  · exact fanOut_total hnd (fun p hp _ => hopen p (hperm.mem_iff.mp hp))

/-- C27, the mixed state: A1 is saturated, A2 has room. Whether the loop
visits A1 first or last, A2 gets the task update once and A1 is evicted. -/
theorem eviction_keeps_fanout_witness :
    List.Perm [3, 2, 1] mixed.hub.clients.keys ∧ RegisteredOpen mixed ∧
    ((after mixed (fanOut ⟨"u1", taskUpdate⟩ [3, 2, 1] mixed)).mem 2).send.buf
      = [taskUpdate] ∧
    ((after mixed (fanOut ⟨"u1", taskUpdate⟩ [1, 2, 3] mixed)).mem 2).send.buf
      = [taskUpdate] := by
  have hp1 : List.Perm [3, 2, 1] mixed.hub.clients.keys := by decide
  have hp2 : List.Perm [1, 2, 3] mixed.hub.clients.keys := by decide
  obtain ⟨s₁, h1⟩ := (eviction_keeps_fanout mixed ⟨"u1", taskUpdate⟩ [3, 2, 1] hp1).2 mixed_open
  obtain ⟨s₂, h2⟩ := (eviction_keeps_fanout mixed ⟨"u1", taskUpdate⟩ [1, 2, 3] hp2).2 mixed_open
  have e1 := ((eviction_keeps_fanout mixed ⟨"u1", taskUpdate⟩ [3, 2, 1] hp1).1 s₁ h1 2
    (by decide) rfl (by decide)).1
  have e2 := ((eviction_keeps_fanout mixed ⟨"u1", taskUpdate⟩ [1, 2, 3] hp2).1 s₂ h2 2
    (by decide) rfl (by decide)).1
  refine ⟨hp1, mixed_open, ?_, ?_⟩
  · rw [h1]; exact e1
  · rw [h2]; exact e2

/-! ## Which connections a publish evicts -/

/-- C28. After a publish to a subject is handled, the registry is the prior
registry without the connections that were registered under that subject with
a full queue (256 messages, the most a queue reached from a new hub holds): a
connection with fewer than 256 messages is not removed, nor is a connection of
another subject, saturated or not, and no connection is added. -/
theorem publish_evicts_exactly (s s' : State) (msg : broadcastMsg)
    (h : handle s (.publish msg) = .ok s') :
    (∀ c, c ∈ s'.hub.clients ↔
      (c ∈ s.hub.clients ∧
        ¬ ((s.mem c).userID = msg.userID ∧ 256 ≤ (s.mem c).send.buf.length))) ∧
    ((∀ c, (s.mem c).send.buf.length ≤ 256) →
      ∀ c, c ∈ s'.hub.clients ↔
        (c ∈ s.hub.clients ∧
          ¬ ((s.mem c).userID = msg.userID ∧ (s.mem c).send.buf.length = 256))) ∧
    (∀ c, c ∈ s.hub.clients → (s.mem c).send.buf.length < 256 → c ∈ s'.hub.clients) ∧
    (∀ c, c ∈ s.hub.clients → (s.mem c).userID ≠ msg.userID → c ∈ s'.hub.clients) := by
  have hh : handleBroadcast s msg = .ok s' := h
  have key : ∀ c, c ∈ s'.hub.clients ↔
      (c ∈ s.hub.clients ∧
        ¬ ((s.mem c).userID = msg.userID ∧ 256 ≤ (s.mem c).send.buf.length)) := by
    intro c
    by_cases hc : c ∈ s.hub.clients
    · by_cases hu : (s.mem c).userID = msg.userID
      · by_cases hl : (s.mem c).send.buf.length < sendCap
        · have := (handleBroadcast_deliver hh hc hu hl).2
          unfold sendCap at hl
          constructor
          · intro _; exact ⟨hc, fun hx => by omega⟩
          · intro _; exact this
        · have := (handleBroadcast_evict hh hc hu hl).2
          unfold sendCap at hl
          constructor
          · intro hx; exact absurd hx this
          · intro hx; exact absurd ⟨hu, by omega⟩ hx.2
      · have := (fanOut_other_subject hh hu).2
        rw [this]
        constructor
        · intro _; exact ⟨hc, fun hx => hu hx.1⟩
        · intro _; exact hc
    · constructor
      · intro hx; exact absurd (fanOut_clients_sub hh hx) hc
      · intro hx; exact absurd hx.1 hc
  refine ⟨key, fun hb c => ?_, fun c hc hl => ?_, fun c hc hu => ?_⟩
  · rw [key c]
    have := hb c
    constructor
    · rintro ⟨h1, h2⟩; exact ⟨h1, fun hx => h2 ⟨hx.1, by omega⟩⟩
    · rintro ⟨h1, h2⟩; exact ⟨h1, fun hx => h2 ⟨hx.1, by omega⟩⟩
  · exact (key c).mpr ⟨hc, fun hx => by omega⟩
  · exact (key c).mpr ⟨hc, fun hx => hu hx.1⟩

/-- C28, the mixed state: A1 ("u1") and the third client ("u2") are saturated,
A2 ("u1") has room. A publish to "u1" removes A1 and nobody else. -/
theorem publish_evicts_exactly_witness :
    handle mixed (.publish ⟨"u1", taskUpdate⟩)
      = .ok (after mixed (handle mixed (.publish ⟨"u1", taskUpdate⟩))) ∧
    1 ∉ (after mixed (handle mixed (.publish ⟨"u1", taskUpdate⟩))).hub.clients ∧
    2 ∈ (after mixed (handle mixed (.publish ⟨"u1", taskUpdate⟩))).hub.clients ∧
    3 ∈ (after mixed (handle mixed (.publish ⟨"u1", taskUpdate⟩))).hub.clients := by
  obtain ⟨s', h⟩ := handleBroadcast_total ⟨"u1", taskUpdate⟩ mixed_open
  have hh : handle mixed (.publish ⟨"u1", taskUpdate⟩) = .ok s' := h
  have key := publish_evicts_exactly mixed s' ⟨"u1", taskUpdate⟩ hh
  have hfull : 256 ≤ (mixed.mem 1).send.buf.length := le_of_eq backlog_length.symm
  rw [hh]
  refine ⟨rfl, fun hx => ((key.1 1).mp hx).2 ⟨rfl, hfull⟩, key.2.2.1 2 (by decide) (by decide),
    key.2.2.2 3 (by decide) (by decide)⟩

/-! ## A pending publish and a later registration -/

theorem exec_cons_ok {α : Type} {marshal : α → Option Bytes} {s s' : State}
    {a : Action α} {rest : List (Action α)} (h : exec marshal s (a :: rest) = .ok s') :
    ∃ s₁, step marshal s a = .ok s₁ ∧ exec marshal s₁ rest = .ok s' := by
  unfold exec at h
  cases h1 : step marshal s a with
  | error e => simp [h1] at h
  | ok s₁ => exact ⟨s₁, rfl, by simpa [h1] using h⟩

/-- Receiving from `h.broadcast` takes the oldest pending publish, fans it out
and leaves the later ones pending. -/
theorem recvBroadcast_ok {s s' : State} (h : recvBroadcast s = .ok s') :
    ∃ msg rest, s.hub.broadcast = msg :: rest ∧
      handleBroadcast ⟨⟨s.hub.clients, rest, s.hub.jwtSecret⟩, s.mem, s.writerDone⟩ msg
        = .ok s' ∧
      s'.hub.broadcast = rest := by
  unfold recvBroadcast at h
  cases hb : s.hub.broadcast with
  | nil => simp [hb] at h
  | cons msg rest =>
    rw [hb] at h
    simp only at h
    exact ⟨msg, rest, rfl, h, (fanOut_conn_broadcast h 0).2⟩

theorem dispatch_userID {s s' : State} (h : recvBroadcast s = .ok s') (c : ClientPtr) :
    (s'.mem c).userID = (s.mem c).userID := by
  obtain ⟨msg, rest, _, h2, _⟩ := recvBroadcast_ok h
  exact fanOut_userID h2 c

/-- As many dispatches as there are older pending publishes leave exactly the
newer ones pending. -/
theorem exec_dispatches {α : Type} (marshal : α → Option Bytes) (n : Nat) {s s' : State}
    (h : exec marshal s (List.replicate n .dispatch) = .ok s')
    (older newer : List broadcastMsg) (hb : s.hub.broadcast = older ++ newer)
    (hn : older.length = n) (c : ClientPtr) :
    s'.hub.broadcast = newer ∧ (s'.mem c).userID = (s.mem c).userID := by
  induction n generalizing s older with
  | zero =>
    simp only [List.replicate_zero, exec, Except.ok.injEq] at h
    subst h
    have : older = [] := List.length_eq_zero.mp hn
    subst this
    exact ⟨hb, rfl⟩
  | succ n ih =>
    rw [List.replicate_succ] at h
    obtain ⟨s₁, h1, h2⟩ := exec_cons_ok h
    have h1' : recvBroadcast s = .ok s₁ := h1
    obtain ⟨msg, rest, e1, _, e3⟩ := recvBroadcast_ok h1'
    cases older with
    | nil => simp at hn
    | cons m older' =>
      rw [hb] at e1
      simp only [List.cons_append, List.cons.injEq] at e1
      have hn' : older'.length = n := by simpa using hn
      obtain ⟨r1, r2⟩ := ih h2 older' (by rw [e3, ← e1.2]) hn'
      exact ⟨r1, r2.trans (dispatch_userID h1' c)⟩

/-! ## Interleavings: the pending publishes and one connection -/

theorem exec_append_ok {α : Type} {marshal : α → Option Bytes} {pre post : List (Action α)}
    {s s' : State} (h : exec marshal s (pre ++ post) = .ok s') :
    ∃ s₁, exec marshal s pre = .ok s₁ ∧ exec marshal s₁ post = .ok s' := by
  induction pre generalizing s with
  | nil => exact ⟨s, rfl, h⟩
  | cons a rest ih =>
    have h' : exec marshal s (a :: (rest ++ post)) = .ok s' := h
    obtain ⟨s₁, h1, h2⟩ := exec_cons_ok h'
    obtain ⟨s₂, h3, h4⟩ := ih h2
    exact ⟨s₂, by rw [exec_cons_of_ok marshal _ h1]; exact h3, h4⟩

theorem dispatches_cons {α : Type} (a : Action α) (rest : List (Action α)) :
    dispatches (a :: rest) = dispatches [a] + dispatches rest := by
  cases a <;> simp [dispatches]
  omega

theorem dispatches_append {α : Type} (pre post : List (Action α)) :
    dispatches (pre ++ post) = dispatches pre + dispatches post := by
  induction pre with
  | nil => simp [dispatches]
  | cons a rest ih =>
    rw [List.cons_append, dispatches_cons, ih, dispatches_cons a rest]
    omega

theorem dispatches_replicate {α : Type} (n : Nat) :
    dispatches (List.replicate n (Action.dispatch : Action α)) = n := by
  induction n with
  | zero => rfl
  | succ n ih => rw [List.replicate_succ, dispatches, ih]

theorem exec_userID {α : Type} (marshal : α → Option Bytes) {acts : List (Action α)}
    {s s' : State} (h : exec marshal s acts = .ok s') (c : ClientPtr) :
    (s'.mem c).userID = (s.mem c).userID := by
  induction acts generalizing s with
  | nil =>
    simp only [exec, Except.ok.injEq] at h
    subst h
    rfl
  | cons a rest ih =>
    obtain ⟨s₁, h1, h2⟩ := exec_cons_ok h
    exact (ih h2).trans (step_timeline marshal h1 c).1

/-- Along an interleaving the timeline of a connection can only shorten or be
extended by the payloads submitted for its subject. -/
theorem exec_timeline {α : Type} (marshal : α → Option Bytes) {acts : List (Action α)}
    {s s' : State} (h : exec marshal s acts = .ok s') (c : ClientPtr) :
    List.Sublist (timeline s' c)
      (timeline s c ++ submitted marshal (s.mem c).userID acts) := by
  induction acts generalizing s with
  | nil =>
    simp only [exec, Except.ok.injEq] at h
    subst h
    exact List.sublist_append_left _ _
  | cons a rest ih =>
    obtain ⟨s₁, h1, h2⟩ := exec_cons_ok h
    obtain ⟨hu1, hs1⟩ := step_timeline marshal h1 c
    have hs2 := ih h2
    rw [submitted_cons, ← List.append_assoc]
    rw [hu1] at hs2
    exact hs2.trans (List.Sublist.append hs1 (List.Sublist.refl _))

/-- What one step does to the pending publishes: a dispatch takes the oldest
one; every other step keeps them, and a `Broadcast` may add one at the end. -/
theorem step_pending {α : Type} (marshal : α → Option Bytes) {s s' : State} {a : Action α}
    (h : step marshal s a = .ok s') :
    (dispatches [a] = 0 ∧ ∃ extra, s'.hub.broadcast = s.hub.broadcast ++ extra) ∨
    (dispatches [a] = 1 ∧ ∃ msg, s.hub.broadcast = msg :: s'.hub.broadcast) := by
  cases a with
  | broadcast userID event =>
    left
    refine ⟨rfl, ?_⟩
    simp only [step, Broadcast] at h
    cases hm : marshal event with
    | none =>
      rw [hm] at h
      cases h
      exact ⟨[], by simp⟩
    | some data =>
      rw [hm] at h
      by_cases hl : s.hub.broadcast.length < broadcastCap
      · simp only [hl, if_true, Except.ok.injEq] at h
        subst h
        exact ⟨[⟨userID, data⟩], rfl⟩
      · simp [hl] at h
  | register d =>
    left
    simp only [step, handleRegister, Except.ok.injEq] at h
    subst h
    exact ⟨rfl, [], by simp⟩
  | unregister d =>
    left
    refine ⟨rfl, [], ?_⟩
    rcases handleUnregister_ok h with ⟨_, rfl⟩ | ⟨_, _, rfl⟩ <;> simp
  | dispatch =>
    right
    have h' : recvBroadcast s = .ok s' := h
    obtain ⟨msg, rest, e1, _, e3⟩ := recvBroadcast_ok h'
    exact ⟨rfl, msg, by rw [e1, e3]⟩
  | write d w =>
    left
    have h' : writePumpStep s d w = .ok s' := h
    refine ⟨rfl, [], ?_⟩
    rw [(writePumpStep_frame h').1]
    simp

/-- The channel `h.broadcast` is first in, first out: a publish with `older`
ahead of it is at the head once as many dispatches have happened as there are
publishes in `older`, whatever else happens in between. -/
theorem exec_pending_head {α : Type} (marshal : α → Option Bytes) {mid : List (Action α)}
    {s s' : State} (h : exec marshal s mid = .ok s') (older : List broadcastMsg)
    (p : broadcastMsg) (newer : List broadcastMsg)
    (hb : s.hub.broadcast = older ++ p :: newer) (hn : dispatches mid = older.length) :
    ∃ newer', s'.hub.broadcast = p :: newer' := by
  induction mid generalizing s older newer with
  | nil =>
    simp only [exec, Except.ok.injEq] at h
    subst h
    have : older = [] := List.length_eq_zero.mp hn.symm
    subst this
    exact ⟨newer, hb⟩
  | cons a rest ih =>
    obtain ⟨s₁, h1, h2⟩ := exec_cons_ok h
    rw [dispatches_cons] at hn
    rcases step_pending marshal h1 with ⟨d0, extra, he⟩ | ⟨d1, msg, he⟩
    · exact ih h2 older (newer ++ extra) (by rw [he, hb]; simp) (by omega)
    · cases older with
      | nil =>
        simp only [List.length_nil] at hn
        omega
      | cons m older' =>
        rw [hb] at he
        simp only [List.cons_append, List.cons.injEq] at he
        simp only [List.length_cons] at hn
        exact ih h2 older' newer he.2.symm (by omega)

/-- A connection that is not registered and has nothing queued stays so, and
nothing is written to its stream, as long as it is not registered. -/
theorem step_absent {α : Type} (marshal : α → Option Bytes) {s s' : State} {a : Action α}
    (h : step marshal s a = .ok s') {c : ClientPtr} (hc : c ∉ s.hub.clients)
    (hq : (s.mem c).send.buf = []) (ha : a ≠ .register c) :
    c ∉ s'.hub.clients ∧ (s'.mem c).send.buf = [] ∧
      (s'.mem c).conn.written = (s.mem c).conn.written := by
  cases a with
  | broadcast userID event =>
    simp only [step, Broadcast] at h
    cases hm : marshal event with
    | none =>
      rw [hm] at h
      cases h
      exact ⟨hc, hq, rfl⟩
    | some data =>
      rw [hm] at h
      by_cases hl : s.hub.broadcast.length < broadcastCap
      · simp only [hl, if_true, Except.ok.injEq] at h
        subst h
        exact ⟨hc, hq, rfl⟩
      · simp [hl] at h
  | register d =>
    have hcd : c ≠ d := fun e => ha (by rw [e])
    simp only [step, handleRegister, Except.ok.injEq] at h
    subst h
    refine ⟨?_, hq, rfl⟩
    simp only [State.setClients_clients, ClientMap.mem_insert, not_or]
    exact ⟨hcd, hc⟩
  | unregister d =>
    rcases handleUnregister_ok h with ⟨_, rfl⟩ | ⟨hd, _, rfl⟩
    · exact ⟨hc, hq, rfl⟩
    · have hcd : c ≠ d := fun e => hc (e ▸ hd)
      rw [State.setSend_mem_of_ne _ _ hcd]
      refine ⟨?_, hq, rfl⟩
      simp only [State.setSend_hub, State.setClients_clients, ClientMap.mem_delete]
      exact fun hh => hc hh.1
  | dispatch =>
    have h' : recvBroadcast s = .ok s' := h
    obtain ⟨msg, rest, _, h2, _⟩ := recvBroadcast_ok h'
    have hc' : c ∉ s.hub.clients.keys := hc
    have hm := fanOut_mem_of_not_mem h2 hc'
    refine ⟨fun hx => hc (fanOut_clients_sub h2 hx), ?_, ?_⟩
    · rw [hm]; exact hq
    · rw [hm]
  | write d w =>
    have h' : writePumpStep s d w = .ok s' := h
    by_cases hcd : c = d
    · subst hcd
      unfold writePumpStep at h'
      by_cases hdone : s.writerDone c = true
      · simp [hdone] at h'
      · simp only [hdone, Bool.false_eq_true, if_false] at h'
        rw [hq] at h'
        simp only at h'
        by_cases hcl : (s.mem c).send.closed = true
        · simp only [hcl, if_true, Except.ok.injEq] at h'
          subst h'
          exact ⟨hc, by simp [State.writerExit, hq], by simp [State.writerExit]⟩
        · simp [hcl] at h'
    · obtain ⟨f1, f2, _⟩ := writePumpStep_frame h'
      rw [f2 c hcd, f1]
      exact ⟨hc, hq, rfl⟩

theorem exec_absent {α : Type} (marshal : α → Option Bytes) {acts : List (Action α)}
    {s s' : State} (h : exec marshal s acts = .ok s') {c : ClientPtr}
    (hc : c ∉ s.hub.clients) (hq : (s.mem c).send.buf = [])
    (hreg : Action.register c ∉ acts) :
    c ∉ s'.hub.clients ∧ (s'.mem c).send.buf = [] ∧
      (s'.mem c).conn.written = (s.mem c).conn.written := by
  induction acts generalizing s with
  | nil =>
    simp only [exec, Except.ok.injEq] at h
    subst h
    exact ⟨hc, hq, rfl⟩
  | cons a rest ih =>
    obtain ⟨s₁, h1, h2⟩ := exec_cons_ok h
    have ha : a ≠ .register c := fun e => hreg (e ▸ List.mem_cons_self _ _)
    obtain ⟨e1, e2, e3⟩ := step_absent marshal h1 hc hq ha
    obtain ⟨r1, r2, r3⟩ := ih h2 e1 e2 (fun hm => hreg (List.mem_cons_of_mem _ hm))
    exact ⟨r1, r2, r3.trans e3⟩

/-- A registered connection with room in its queue stays registered through a
step that is not its unregister, and only a dispatch can add to its queue, one
message. -/
theorem step_present {α : Type} (marshal : α → Option Bytes) {s s' : State} {a : Action α}
    (h : step marshal s a = .ok s') {c : ClientPtr} (hc : c ∈ s.hub.clients)
    (hl : (s.mem c).send.buf.length < sendCap) (ha : a ≠ .unregister c) :
    c ∈ s'.hub.clients ∧
      (s'.mem c).send.buf.length ≤ (s.mem c).send.buf.length + dispatches [a] := by
  cases a with
  | broadcast userID event =>
    simp only [step, Broadcast] at h
    cases hm : marshal event with
    | none =>
      rw [hm] at h
      cases h
      exact ⟨hc, Nat.le_add_right _ _⟩
    | some data =>
      rw [hm] at h
      by_cases hr : s.hub.broadcast.length < broadcastCap
      · simp only [hr, if_true, Except.ok.injEq] at h
        subst h
        exact ⟨hc, Nat.le_add_right _ _⟩
      · simp [hr] at h
  | register d =>
    simp only [step, handleRegister, Except.ok.injEq] at h
    subst h
    refine ⟨?_, Nat.le_add_right _ _⟩
    simp only [State.setClients_clients, ClientMap.mem_insert]
    exact Or.inr hc
  | unregister d =>
    have hcd : c ≠ d := fun e => ha (by rw [e])
    rcases handleUnregister_ok h with ⟨_, rfl⟩ | ⟨hd, _, rfl⟩
    · exact ⟨hc, Nat.le_add_right _ _⟩
    · rw [State.setSend_mem_of_ne _ _ hcd]
      refine ⟨?_, Nat.le_add_right _ _⟩
      simp only [State.setSend_hub, State.setClients_clients, ClientMap.mem_delete]
      exact ⟨hc, hcd⟩
  | dispatch =>
    have h' : recvBroadcast s = .ok s' := h
    obtain ⟨msg, rest, _, h2, _⟩ := recvBroadcast_ok h'
    by_cases hu : (s.mem c).userID = msg.userID
    · have hd := handleBroadcast_deliver h2 (c := c) hc hu hl
      rw [hd.1]
      refine ⟨hd.2, ?_⟩
      simp [dispatches]
    · have ho := fanOut_other_subject h2 (p := c) hu
      rw [ho.1]
      exact ⟨ho.2.mpr hc, Nat.le_add_right _ _⟩
  | write d w =>
    have h' : writePumpStep s d w = .ok s' := h
    obtain ⟨f1, f2, _, _, f5⟩ := writePumpStep_frame h'
    refine ⟨by rw [f1]; exact hc, ?_⟩
    by_cases hcd : c = d
    · subst hcd
      rcases f5 with e | ⟨m, e⟩
      · rw [e]; exact Nat.le_add_right _ _
      · rw [e]; simp only [List.length_cons]; omega
    · rw [f2 c hcd]
      exact Nat.le_add_right _ _

theorem exec_present {α : Type} (marshal : α → Option Bytes) {acts : List (Action α)}
    {s s' : State} (h : exec marshal s acts = .ok s') {c : ClientPtr}
    (hc : c ∈ s.hub.clients) (hun : Action.unregister c ∉ acts)
    (hl : (s.mem c).send.buf.length + dispatches acts < sendCap) :
    c ∈ s'.hub.clients ∧
      (s'.mem c).send.buf.length ≤ (s.mem c).send.buf.length + dispatches acts := by
  induction acts generalizing s with
  | nil =>
    simp only [exec, Except.ok.injEq] at h
    subst h
    exact ⟨hc, Nat.le_add_right _ _⟩
  | cons a rest ih =>
    obtain ⟨s₁, h1, h2⟩ := exec_cons_ok h
    have ha : a ≠ .unregister c := fun e => hun (e ▸ List.mem_cons_self _ _)
    rw [dispatches_cons] at hl ⊢
    obtain ⟨e1, e2⟩ := step_present marshal h1 hc (by omega) ha
    obtain ⟨r1, r2⟩ := ih h2 e1 (fun hm => hun (List.mem_cons_of_mem _ hm)) (by omega)
    exact ⟨r1, by omega⟩

/-- With a publish at the head of `h.broadcast` and the registered queues
open, the dispatch completes, takes that publish and leaves the registered
queues open. -/
theorem recvBroadcast_total {s : State} {p : broadcastMsg} {newer : List broadcastMsg}
    (hb : s.hub.broadcast = p :: newer) (hopen : RegisteredOpen s) :
    ∃ s', recvBroadcast s = .ok s' ∧ RegisteredOpen s' ∧ s'.hub.broadcast = newer := by
  have hopen' : RegisteredOpen
      ⟨⟨s.hub.clients, newer, s.hub.jwtSecret⟩, s.mem, s.writerDone⟩ := hopen
  obtain ⟨s', h⟩ := handleBroadcast_total p hopen'
  refine ⟨s', ?_, ?_, (fanOut_conn_broadcast h 0).2⟩
  · unfold recvBroadcast
    rw [hb]
    exact h
  · intro d hd
    rcases handleBroadcast_effect h d with ⟨e1, e2⟩ | ⟨_, _, _, e4⟩
    · rw [e1]
      exact hopen d (e2.mp hd)
    · exact absurd hd e4

/-- The dispatches of the pending publishes complete while the registered
queues are open. -/
theorem exec_dispatches_total {α : Type} (marshal : α → Option Bytes) (n : Nat) {s : State}
    (hopen : RegisteredOpen s) (hn : n ≤ s.hub.broadcast.length) :
    ∃ s', exec marshal s (List.replicate n .dispatch) = .ok s' ∧ RegisteredOpen s' := by
  induction n generalizing s with
  | zero => exact ⟨s, rfl, hopen⟩
  | succ n ih =>
    cases hb : s.hub.broadcast with
    | nil =>
      rw [hb] at hn
      simp at hn
    | cons p newer =>
      obtain ⟨s₁, h1, ho1, hb1⟩ := recvBroadcast_total hb hopen
      have hn1 : n ≤ s₁.hub.broadcast.length := by
        rw [hb1]
        rw [hb] at hn
        simp only [List.length_cons] at hn
        omega
      obtain ⟨s', h2, ho2⟩ := ih ho1 hn1
      have hstep : step marshal s (.dispatch : Action α) = .ok s₁ := h1
      exact ⟨s', by rw [List.replicate_succ, exec_cons_of_ok marshal _ hstep]; exact h2, ho2⟩

/-- A publish that `Broadcast` has accepted behind the pending ones is at the
head of `h.broadcast` after as many dispatches as there were pending ones,
whatever else happens in between; `Broadcast` accepted it because fewer than
256 were pending. -/
theorem accepted_reaches_head {α : Type} (marshal : α → Option Bytes) {s s₃ : State}
    {userID : String} {event : α} {data : Bytes} (hm : marshal event = some data)
    {mid : List (Action α)} (hmid : dispatches mid = s.hub.broadcast.length)
    (h : exec marshal s (.broadcast userID event :: mid) = .ok s₃) :
    (∃ newer, s₃.hub.broadcast = ⟨userID, data⟩ :: newer) ∧
      s.hub.broadcast.length < broadcastCap := by
  obtain ⟨s₁, h1, h2⟩ := exec_cons_ok h
  simp only [step, Broadcast, hm] at h1
  by_cases hroom : s.hub.broadcast.length < broadcastCap
  · simp only [hroom, if_true, Except.ok.injEq] at h1
    have hb1 : s₁.hub.broadcast = s.hub.broadcast ++ (⟨userID, data⟩ : broadcastMsg) :: [] := by
      rw [← h1]
    exact ⟨exec_pending_head marshal h2 s.hub.broadcast ⟨userID, data⟩ [] hb1 hmid, hroom⟩
  · simp [hroom] at h1

/-- What the dispatch of a publish does with a connection of its subject is
decided by the registry at that moment. -/
theorem dispatch_decides {s₃ s₄ : State} {p : broadcastMsg} {newer : List broadcastMsg}
    (hb : s₃.hub.broadcast = p :: newer) (h4 : recvBroadcast s₃ = .ok s₄) (c : ClientPtr)
    (hu : (s₃.mem c).userID = p.userID) :
    (c ∈ s₃.hub.clients → (s₃.mem c).send.buf.length < sendCap →
      (s₄.mem c).send.buf = (s₃.mem c).send.buf ++ [p.data] ∧ c ∈ s₄.hub.clients) ∧
    (c ∉ s₃.hub.clients → (s₄.mem c).send.buf = (s₃.mem c).send.buf) := by
  obtain ⟨msg, rest, f1, f2, _⟩ := recvBroadcast_ok h4
  rw [hb] at f1
  simp only [List.cons.injEq] at f1
  obtain ⟨rfl, _⟩ := f1
  refine ⟨fun hc hl => ?_, fun hc => ?_⟩
  · have hd := handleBroadcast_deliver f2 (c := c) hc hu hl
    exact ⟨by rw [hd.1], hd.2⟩
  · have hc' : c ∉ s₃.hub.clients.keys := hc
    rw [fanOut_mem_of_not_mem f2 hc']

/-- A connection that was not registered and had an empty queue when a publish
was accepted, is registered before the publish is handled and not unregistered
after, is registered with room in its queue when the publish is handled: its
queue holds at most one message for each dispatch since its registration, and
fewer than 256 publishes were pending. -/
theorem late_registered_room {α : Type} (marshal : α → Option Bytes) {s s₃ : State}
    {userID : String} {event : α} {c : ClientPtr} {mid₁ mid₂ : List (Action α)}
    (hc : c ∉ s.hub.clients) (hq : (s.mem c).send.buf = [])
    (hreg : Action.register c ∉ mid₁) (hun : Action.unregister c ∉ mid₂)
    (hd : dispatches (mid₁ ++ .register c :: mid₂) < sendCap)
    (h : exec marshal s (.broadcast userID event :: (mid₁ ++ .register c :: mid₂)) = .ok s₃) :
    c ∈ s₃.hub.clients ∧ (s₃.mem c).send.buf.length < sendCap := by
  have h' : exec marshal s ((.broadcast userID event :: mid₁) ++ .register c :: mid₂)
      = .ok s₃ := h
  obtain ⟨s₂, h3, h5⟩ := exec_append_ok h'
  have hreg' : Action.register c ∉ Action.broadcast userID event :: mid₁ := by
    intro hmem
    rcases List.mem_cons.mp hmem with e | e
    · cases e
    · exact hreg e
  obtain ⟨e1, e2, _⟩ := exec_absent marshal h3 hc hq hreg'
  obtain ⟨s₂', h6, h7⟩ := exec_cons_ok h5
  simp only [step, handleRegister, Except.ok.injEq] at h6
  subst h6
  rw [dispatches_append, dispatches_cons] at hd
  have hin : c ∈ (s₂.setClients (s₂.hub.clients.insert c)).hub.clients :=
    (ClientMap.mem_insert _ _ _).mpr (Or.inl rfl)
  have hlen : ((s₂.setClients (s₂.hub.clients.insert c)).mem c).send.buf.length = 0 := by
    simp only [State.setClients_mem, e2, List.length_nil]
  obtain ⟨r1, r2⟩ := exec_present marshal h7 hin hun (by rw [hlen]; omega)
  exact ⟨r1, by rw [hlen] at r2; omega⟩

/-- C29. Let `Broadcast` accept a publish for a subject behind the publishes
already pending. Whatever the goroutines do next (further `Broadcast` calls,
registrations, unregistrations, write-task iterations and the dispatches of
the older pending publishes, in any order), the dispatch that follows receives
that publish, completes when the registered queues are open, and what it does
with a connection `c` of the subject is decided by the registry at that
moment: if `c` is registered with room in its queue the payload is appended to
its queue, if `c` is not registered its queue is left alone; whether `c` was
registered when `Broadcast` was called plays no part. In particular, if `c`
was not registered and had an empty queue when `Broadcast` was called, is
registered at any point before that dispatch and is not unregistered after,
then the payload is appended to its queue. The schedule in which the loop
registers `c` and then handles the pending publishes in turn runs to
completion. -/
theorem pending_reaches_late {α : Type} (marshal : α → Option Bytes) (s : State)
    (userID : String) (event : α) (data : Bytes) (c : ClientPtr)
    (hm : marshal event = some data) (hu : (s.mem c).userID = userID) :
    (∀ (mid : List (Action α)) (s₃ : State),
      dispatches mid = s.hub.broadcast.length →
      exec marshal s (.broadcast userID event :: mid) = .ok s₃ →
      (RegisteredOpen s₃ → ∃ s₄, step marshal s₃ .dispatch = .ok s₄) ∧
      ∀ s₄, step marshal s₃ .dispatch = .ok s₄ →
        (c ∈ s₃.hub.clients → (s₃.mem c).send.buf.length < 256 →
          (s₄.mem c).send.buf = (s₃.mem c).send.buf ++ [data] ∧ c ∈ s₄.hub.clients) ∧
        (c ∉ s₃.hub.clients → (s₄.mem c).send.buf = (s₃.mem c).send.buf)) ∧
    (∀ (mid₁ mid₂ : List (Action α)) (s₃ s₄ : State),
      c ∉ s.hub.clients → (s.mem c).send.buf = [] →
      Action.register c ∉ mid₁ → Action.unregister c ∉ mid₂ →
      dispatches (mid₁ ++ .register c :: mid₂) = s.hub.broadcast.length →
      exec marshal s (.broadcast userID event :: (mid₁ ++ .register c :: mid₂)) = .ok s₃ →
      step marshal s₃ .dispatch = .ok s₄ →
      (s₄.mem c).send.buf = (s₃.mem c).send.buf ++ [data] ∧ c ∈ s₄.hub.clients) ∧
    (RegisteredOpen s → c ∉ s.hub.clients → (s.mem c).send = Chan.make →
      s.hub.broadcast.length < 256 →
      ∃ s₃ s₄, exec marshal s (.broadcast userID event :: .register c ::
          List.replicate s.hub.broadcast.length .dispatch) = .ok s₃ ∧
        step marshal s₃ .dispatch = .ok s₄ ∧
        (s₄.mem c).send.buf = (s₃.mem c).send.buf ++ [data] ∧ c ∈ s₄.hub.clients) ∧
    (s.hub.broadcast = [] → RegisteredOpen s → (s.mem c).send.closed = false →
      (s.mem c).send.buf.length < 256 →
      ∃ s', exec marshal s [.broadcast userID event, .register c, .dispatch] = .ok s' ∧
        (s'.mem c).send.buf = (s.mem c).send.buf ++ [data] ∧ c ∈ s'.hub.clients) := by
  have hu3 : ∀ (acts : List (Action α)) (s₃ : State), exec marshal s acts = .ok s₃ →
      (s₃.mem c).userID = userID := fun acts s₃ h => (exec_userID marshal h c).trans hu
  refine ⟨fun mid s₃ hmid h => ?_, fun mid₁ mid₂ s₃ s₄ hc hq hreg hun hd h h4 => ?_,
    fun hopen hc hmake hlen => ?_, fun hb hopen hcl hl => ?_⟩
  · obtain ⟨⟨newer, hb3⟩, _⟩ := accepted_reaches_head marshal hm hmid h
    refine ⟨fun hopen => ?_, fun s₄ h4 => ?_⟩
    · obtain ⟨s₄, h4, _, _⟩ := recvBroadcast_total hb3 hopen
      exact ⟨s₄, h4⟩
    · exact dispatch_decides hb3 h4 c (hu3 _ s₃ h)
  · obtain ⟨⟨newer, hb3⟩, hroom⟩ := accepted_reaches_head marshal hm hd h
    have hd' : dispatches (mid₁ ++ .register c :: mid₂) < sendCap := by
      rw [hd]
      exact hroom
    obtain ⟨r1, r2⟩ := late_registered_room marshal hc hq hreg hun hd' h
    exact (dispatch_decides hb3 h4 c (hu3 _ s₃ h)).1 r1 r2
  · have h1 : step marshal s (.broadcast userID event)
        = .ok ⟨⟨s.hub.clients, s.hub.broadcast ++ [⟨userID, data⟩], s.hub.jwtSecret⟩, s.mem,
            s.writerDone⟩ := by
      have hroom : s.hub.broadcast.length < broadcastCap := hlen
      simp only [step, Broadcast, hm, hroom, if_true]
    have h2 : step marshal
          ⟨⟨s.hub.clients, s.hub.broadcast ++ [⟨userID, data⟩], s.hub.jwtSecret⟩, s.mem,
            s.writerDone⟩ (.register c)
        = .ok ⟨⟨s.hub.clients.insert c, s.hub.broadcast ++ [⟨userID, data⟩],
            s.hub.jwtSecret⟩, s.mem, s.writerDone⟩ := rfl
    have hopen' : RegisteredOpen
        ⟨⟨s.hub.clients.insert c, s.hub.broadcast ++ [⟨userID, data⟩], s.hub.jwtSecret⟩,
          s.mem, s.writerDone⟩ := by
      intro p hp
      have hp' : p ∈ s.hub.clients.insert c := hp
      rw [ClientMap.mem_insert] at hp'
      rcases hp' with rfl | hp'
      · show (s.mem p).send.closed = false
        rw [hmake]
        rfl
      · exact hopen p hp'
    obtain ⟨s₃, h3, ho3⟩ := exec_dispatches_total marshal s.hub.broadcast.length hopen'
      (by simp)
    have hexec : exec marshal s (.broadcast userID event :: .register c ::
        List.replicate s.hub.broadcast.length .dispatch) = .ok s₃ := by
      rw [exec_cons_of_ok marshal _ h1, exec_cons_of_ok marshal _ h2]
      exact h3
    have hcount : dispatches (([] : List (Action α)) ++ .register c ::
        List.replicate s.hub.broadcast.length .dispatch) = s.hub.broadcast.length := by
      simp [dispatches, dispatches_replicate]
    obtain ⟨⟨newer, hb3⟩, _⟩ := accepted_reaches_head marshal hm hcount hexec
    obtain ⟨s₄, h4, _, _⟩ := recvBroadcast_total hb3 ho3
    have hq : (s.mem c).send.buf = [] := by rw [hmake]; rfl
    have hun : Action.unregister c ∉ List.replicate s.hub.broadcast.length
        (Action.dispatch : Action α) := by
      intro hmem
      cases (List.mem_replicate.mp hmem).2
    have hreg : Action.register c ∉ ([] : List (Action α)) := List.not_mem_nil _
    obtain ⟨r1, r2⟩ := late_registered_room marshal hc hq hreg hun
      (by rw [hcount]; exact hlen) hexec
    exact ⟨s₃, s₄, hexec, h4, (dispatch_decides hb3 h4 c (hu3 _ s₃ hexec)).1 r1 r2⟩
  · have hroom : s.hub.broadcast.length < broadcastCap := by rw [hb]; decide
    have h1 : step marshal s (.broadcast userID event)
        = .ok ⟨⟨s.hub.clients, [⟨userID, data⟩], s.hub.jwtSecret⟩, s.mem, s.writerDone⟩ := by
      simp only [step, Broadcast, hm, hroom, if_true]
      rw [hb]
      rfl
    have h2 : step marshal
          ⟨⟨s.hub.clients, [⟨userID, data⟩], s.hub.jwtSecret⟩, s.mem, s.writerDone⟩
          (.register c)
        = .ok ⟨⟨s.hub.clients.insert c, [⟨userID, data⟩], s.hub.jwtSecret⟩, s.mem,
            s.writerDone⟩ := rfl
    have hopen' : RegisteredOpen
        ⟨⟨s.hub.clients.insert c, [], s.hub.jwtSecret⟩, s.mem, s.writerDone⟩ := by
      intro p hp
      have hp' : p ∈ s.hub.clients.insert c := hp
      rw [ClientMap.mem_insert] at hp'
      rcases hp' with rfl | hp'
      · exact hcl
      · exact hopen p hp'
    obtain ⟨s', h3⟩ := handleBroadcast_total ⟨userID, data⟩ hopen'
    have hcin : c ∈ (⟨⟨s.hub.clients.insert c, [], s.hub.jwtSecret⟩, s.mem,
        s.writerDone⟩ : State).hub.clients := by
      show c ∈ s.hub.clients.insert c
      rw [ClientMap.mem_insert]
      exact Or.inl rfl
    have hd := handleBroadcast_deliver h3 hcin hu hl
    refine ⟨s', ?_, by rw [hd.1], hd.2⟩
    rw [exec_cons_of_ok marshal _ h1, exec_cons_of_ok marshal _ h2]
    have h4 : step marshal
          ⟨⟨s.hub.clients.insert c, [⟨userID, data⟩], s.hub.jwtSecret⟩, s.mem, s.writerDone⟩
          .dispatch = .ok s' := h3
    rw [exec_cons_of_ok marshal _ h4]
    rfl

/-- C29, scenario: the task update is accepted for "u1" while the client at
address 4, of "u1", is not registered; the loop registers that client, the
task deletion is published to "u1", and the loop then handles the two
publishes. The first dispatch puts the update in the queue of the client at
address 4, the second one the deletion behind it. -/
theorem pending_reaches_late_witness :
    4 ∉ scenario.hub.clients ∧ (scenario.mem 4).send.buf = [] ∧
    exec sampleMarshal scenario (.broadcast "u1" 0 :: lateAdmission)
      = .ok (after scenario (exec sampleMarshal scenario (.broadcast "u1" 0 :: lateAdmission))) ∧
    ((after scenario (exec sampleMarshal scenario
        (.broadcast "u1" 0 :: lateAdmission))).mem 4).send.buf = [] ∧
    ((after scenario (exec sampleMarshal scenario
        (.broadcast "u1" 0 :: (lateAdmission ++ [.dispatch])))).mem 4).send.buf
      = [] ++ [taskUpdate] ∧
    4 ∈ (after scenario (exec sampleMarshal scenario
        (.broadcast "u1" 0 :: (lateAdmission ++ [.dispatch])))).hub.clients ∧
    ((after scenario (exec sampleMarshal scenario
        (.broadcast "u1" 0 :: (lateAdmission ++ [.dispatch, .dispatch])))).mem 4).send.buf
      = [taskUpdate, taskDelete] := by
  have key := (pending_reaches_late sampleMarshal scenario "u1" 0 taskUpdate 4 rfl rfl).2.1
    [] [.broadcast "u1" 1]
    (after scenario (exec sampleMarshal scenario (.broadcast "u1" 0 :: lateAdmission)))
    (after scenario (exec sampleMarshal scenario
      (.broadcast "u1" 0 :: (lateAdmission ++ [(.dispatch : Action Nat)]))))
    (by decide) rfl (by simp) (by simp) rfl rfl rfl
  exact ⟨by decide, rfl, rfl, rfl, key.1, key.2, by decide⟩

/-! ## Publishes pending at the admission -/

/-- C16, as stated, fails. In the scenario the task update is published to
"u1" and `Broadcast` returns while the client at address 4, of "u1", is not
registered and has an empty queue; the loop then handles the registration of
that client and only after it the pending publish. No publish is made after
the registration, yet the queue of the client holds the task update, which was
published before. -/
theorem no_redelivery_counterexample :
    4 ∉ scenario.hub.clients ∧ (scenario.mem 4).send.buf = [] ∧
    submitted sampleMarshal "u1" [.broadcast "u1" 0] = [taskUpdate] ∧
    submitted sampleMarshal "u1" [.register 4, .dispatch] = [] ∧
    exec sampleMarshal scenario earlyPublish
      = .ok (after scenario (exec sampleMarshal scenario earlyPublish)) ∧
    ((after scenario (exec sampleMarshal scenario earlyPublish)).mem 4).send.buf
      = [taskUpdate] :=
  ⟨by decide, rfl, rfl, rfl, rfl, by decide⟩

/-- C16, amended. Handling `register(c)` leaves every queue as it is. On a new
hub, as long as `c` has not been registered its queue stays empty whatever is
published and handled, and after any run in which `c` is first registered
after the requests `pre`, the queue of `c` holds, in order, only payloads of
publishes for its subject that the loop handled after that registration.
Counted from the calls of `Broadcast`: along every interleaving in which `c`
is first registered after the steps `pre`, nothing has been queued for `c` or
written to its stream when the registration is handled, and what `c` is sent
afterwards, on its stream and in its queue, are in order only payloads of
publishes for its subject that were pending in `h.broadcast` at that moment or
were submitted after it. -/
theorem no_redelivery {α : Type} (marshal : α → Option Bytes) (jwtSecret : String)
    (users : ClientPtr → String) (c : ClientPtr) :
    (∀ s, ∃ s', handle s (.register c) = .ok s' ∧ s'.mem = s.mem) ∧
    (∀ pre post : List Req, Req.register c ∉ pre →
      (∀ s₁, Run (boot jwtSecret users) pre = .ok s₁ → (s₁.mem c).send.buf = []) ∧
      (∀ s', Run (boot jwtSecret users) (pre ++ .register c :: post) = .ok s' →
        List.Sublist (s'.mem c).send.buf (payloadsFor (users c) post))) ∧
    (∀ (pre post : List (Action α)) (s₁ s' : State), Action.register c ∉ pre →
      exec marshal (boot jwtSecret users) pre = .ok s₁ →
      exec marshal s₁ (.register c :: post) = .ok s' →
      (s₁.mem c).conn.written = [] ∧ (s₁.mem c).send.buf = [] ∧
      List.Sublist ((s'.mem c).conn.written ++ (s'.mem c).send.buf)
        (pendingFor s₁ (users c) ++ submitted marshal (users c) post)) := by
  have hboot : c ∉ (boot jwtSecret users).hub.clients := by
    simp [boot, NewHub, ClientMap.empty, ClientMap.mem_iff]
  refine ⟨fun s => ⟨_, handleRegister_eq s c, rfl⟩, fun pre post hpre => ?_,
    fun pre post s₁ s' hpre h1 h2 => ?_⟩
  · have hempty : ∀ s₁, Run (boot jwtSecret users) pre = .ok s₁ →
        (s₁.mem c).send.buf = [] ∧ (s₁.mem c).userID = users c := by
      intro s₁ h
      have h1 := (Run_unregistered h hboot hpre).2
      have h2 := (Run_buf_sublist h c).1
      rw [h1, h2]
      exact ⟨rfl, rfl⟩
    refine ⟨fun s₁ h => (hempty s₁ h).1, fun s' h => ?_⟩
    obtain ⟨s₁, h1, h2⟩ := Run_append_ok h
    obtain ⟨s₂, h3, h4⟩ := Run_cons_ok h2
    rw [handleRegister_eq] at h3
    cases h3
    have := (Run_buf_sublist h4 c).2
    simp only [State.setClients_mem, (hempty s₁ h1).1, (hempty s₁ h1).2,
      List.nil_append] at this
    exact this
  · obtain ⟨_, e2, e3⟩ := exec_absent marshal h1 hboot rfl hpre
    have e3' : (s₁.mem c).conn.written = [] := e3
    have hu : (s₁.mem c).userID = users c := exec_userID marshal h1 c
    have ht := exec_timeline marshal h2 c
    simp only [timeline, e2, e3', hu, List.nil_append, submitted] at ht
    exact ⟨e3', e2, (List.sublist_append_left _ _).trans ht⟩

/-- C16, two sample runs. Handled before the client at address 1 registers,
the task update does not reach it; the task deletion, handled after, does. And
counted from the calls of `Broadcast`: the task update is pending when the
client at address 4 registers and the task deletion is published after; its
queue then holds both, and nothing else. -/
theorem no_redelivery_witness :
    ((after (boot "secret" scenarioUsers)
      (Run (boot "secret" scenarioUsers) lateJoin)).mem 1).send.buf = [taskDelete] ∧
    List.Sublist ((after (boot "secret" scenarioUsers)
      (Run (boot "secret" scenarioUsers) lateJoin)).mem 1).send.buf
      (payloadsFor "u1" [.publish ⟨"u1", taskDelete⟩]) ∧
    pendingFor (after (boot "secret" scenarioUsers)
      (exec sampleMarshal (boot "secret" scenarioUsers) [.broadcast "u1" 0])) "u1"
      = [taskUpdate] ∧
    ((after (boot "secret" scenarioUsers) (exec sampleMarshal (boot "secret" scenarioUsers)
      [.broadcast "u1" 0, .register 4, .broadcast "u1" 1, .dispatch, .dispatch])).mem 4).send.buf
      = [taskUpdate, taskDelete] ∧
    List.Sublist
      (((after (boot "secret" scenarioUsers) (exec sampleMarshal (boot "secret" scenarioUsers)
          [.broadcast "u1" 0, .register 4, .broadcast "u1" 1, .dispatch,
            .dispatch])).mem 4).conn.written ++
        ((after (boot "secret" scenarioUsers) (exec sampleMarshal (boot "secret" scenarioUsers)
          [.broadcast "u1" 0, .register 4, .broadcast "u1" 1, .dispatch,
            .dispatch])).mem 4).send.buf)
      (pendingFor (after (boot "secret" scenarioUsers)
          (exec sampleMarshal (boot "secret" scenarioUsers) [.broadcast "u1" 0])) "u1" ++
        submitted sampleMarshal "u1" [.broadcast "u1" 1, .dispatch, .dispatch]) :=
  ⟨by decide,
   ((no_redelivery sampleMarshal "secret" scenarioUsers 1).2.1
      [.register 2, .publish ⟨"u1", taskUpdate⟩] [.publish ⟨"u1", taskDelete⟩]
      (by decide)).2 _ rfl,
   rfl, by decide,
   ((no_redelivery sampleMarshal "secret" scenarioUsers 4).2.2 [.broadcast "u1" 0]
      [.broadcast "u1" 1, .dispatch, .dispatch]
      (after (boot "secret" scenarioUsers)
        (exec sampleMarshal (boot "secret" scenarioUsers) [.broadcast "u1" 0]))
      (after (boot "secret" scenarioUsers) (exec sampleMarshal (boot "secret" scenarioUsers)
        [.broadcast "u1" 0, .register 4, .broadcast "u1" 1, .dispatch, .dispatch]))
      (by simp) rfl rfl).2.2⟩

/-! ## The lock discipline of the loop -/

theorem tracedFanOutOne_fst (msg : broadcastMsg) (s : State) (c : ClientPtr) :
    (tracedFanOutOne msg s c).map Prod.fst = fanOutOne msg s c := by
  unfold tracedFanOutOne fanOutOne
  split_ifs
  · cases (s.mem c).send.trySend msg.data with
    | error e => rfl
    | ok r =>
      cases r with
      | some ch => rfl
      | none =>
        simp only
        cases (s.mem c).send.close with
        | error e => rfl
        | ok ch => rfl
  · rfl

theorem tracedFanOut_fst (msg : broadcastMsg) (order : List ClientPtr) (s : State) :
    (tracedFanOut msg order s).map Prod.fst = fanOut msg order s := by
  induction order generalizing s with
  | nil => rfl
  | cons c rest ih =>
    unfold tracedFanOut fanOut
    rw [← tracedFanOutOne_fst]
    cases tracedFanOutOne msg s c with
    | error e => rfl
    | ok r =>
      obtain ⟨s₁, ops⟩ := r
      simp only [Except.map]
      rw [← ih]
      cases tracedFanOut msg rest s₁ with
      | error e => rfl
      | ok r' => rfl

/-- The handling with its lock operations is the handling: dropping the
operations gives `handle`. -/
theorem tracedHandle_fst (s : State) (r : Req) :
    (tracedHandle s r).map Prod.fst = handle s r := by
  cases r with
  | register c => rfl
  | unregister c =>
    simp only [tracedHandle, handle, tracedUnregister, handleUnregister]
    split_ifs
    · cases (s.mem c).send.close with
      | error e => rfl
      | ok ch => rfl
    · rfl
  | publish msg =>
    simp only [tracedHandle, handle, tracedBroadcast, handleBroadcast]
    rw [← tracedFanOut_fst]
    cases tracedFanOut msg s.hub.clients.keys s with
    | error e => rfl
    | ok r => rfl

theorem Mutex.run_append (m : Mutex) (a b : List LockOp) :
    Mutex.run m (a ++ b) = (Mutex.run m a).bind (fun m' => Mutex.run m' b) := by
  induction a generalizing m with
  | nil => rfl
  | cons o rest ih =>
    simp only [List.cons_append, Mutex.run]
    cases m.op o with
    | none => rfl
    | some m' => exact ih m'

/-- An iteration of the fan-out starts and ends with the mutex held by the one
reader, and its operations are legal. -/
theorem tracedFanOutOne_locks {msg : broadcastMsg} {s s' : State} {c : ClientPtr}
    {ops : List LockOp} (h : tracedFanOutOne msg s c = .ok (s', ops)) :
    Mutex.run (.readHeld 0) ops = some (.readHeld 0) := by
  unfold tracedFanOutOne at h
  split_ifs at h
  · cases ht : (s.mem c).send.trySend msg.data with
    | error e => rw [ht] at h; cases h
    | ok r =>
      rw [ht] at h
      cases r with
      | some ch =>
        simp only [Except.ok.injEq, Prod.mk.injEq] at h
        rw [← h.2]; rfl
      | none =>
        simp only at h
        cases hc : (s.mem c).send.close with
        | error e => rw [hc] at h; cases h
        | ok ch =>
          rw [hc] at h
          simp only [Except.ok.injEq, Prod.mk.injEq] at h
          rw [← h.2]; rfl
  · simp only [Except.ok.injEq, Prod.mk.injEq] at h
    rw [← h.2]; rfl

theorem tracedFanOut_locks {msg : broadcastMsg} {order : List ClientPtr} {s s' : State}
    {ops : List LockOp} (h : tracedFanOut msg order s = .ok (s', ops)) :
    Mutex.run (.readHeld 0) ops = some (.readHeld 0) := by
  induction order generalizing s s' ops with
  | nil =>
    simp only [tracedFanOut, Except.ok.injEq, Prod.mk.injEq] at h
    rw [← h.2]; rfl
  | cons c rest ih =>
    unfold tracedFanOut at h
    cases h1 : tracedFanOutOne msg s c with
    | error e => rw [h1] at h; cases h
    | ok r =>
      obtain ⟨s₁, ops₁⟩ := r
      rw [h1] at h
      simp only at h
      cases h2 : tracedFanOut msg rest s₁ with
      | error e => rw [h2] at h; cases h
      | ok r' =>
        obtain ⟨s₂, ops₂⟩ := r'
        rw [h2] at h
        simp only [Except.ok.injEq, Prod.mk.injEq] at h
        rw [← h.2, Mutex.run_append, tracedFanOutOne_locks h1]
        exact ih h2

/-- C30. Every handling of a register, unregister or publish request by `Run`
that starts with the mutex free performs only lock operations that are legal
in the state they are issued in and ends with the mutex free, a fan-out that
evicts connections through `RUnlock`, `Lock`, `Unlock`, `RLock` included; the
state it leaves is the one `handle` gives; and in every hub state whose
registered connections have open queues the handling does complete. -/
theorem lock_discipline (s : State) (r : Req) :
    (∀ s' ops, tracedHandle s r = .ok (s', ops) →
      Mutex.run .free ops = some .free ∧ handle s r = .ok s') ∧
    (RegisteredOpen s → ∃ s' ops, tracedHandle s r = .ok (s', ops)) := by
  have hfst := tracedHandle_fst s r
  refine ⟨fun s' ops h => ⟨?_, ?_⟩, fun hopen => ?_⟩
  · cases r with
    | register c =>
      simp only [tracedHandle, tracedRegister, Except.ok.injEq, Prod.mk.injEq] at h
      rw [← h.2]; rfl
    | unregister c =>
      simp only [tracedHandle, tracedUnregister] at h
      split_ifs at h
      · cases hc : (s.mem c).send.close with
        | error e => rw [hc] at h; cases h
        | ok ch =>
          rw [hc] at h
          simp only [Except.ok.injEq, Prod.mk.injEq] at h
          rw [← h.2]; rfl
      · simp only [Except.ok.injEq, Prod.mk.injEq] at h
        rw [← h.2]; rfl
    | publish msg =>
      simp only [tracedHandle, tracedBroadcast] at h
      cases h1 : tracedFanOut msg s.hub.clients.keys s with
      | error e => rw [h1] at h; cases h
      | ok r' =>
        obtain ⟨s₁, ops₁⟩ := r'
        rw [h1] at h
        simp only [Except.ok.injEq, Prod.mk.injEq] at h
        rw [← h.2, Mutex.run_append, Mutex.run_append]
        have := tracedFanOut_locks h1
        simp only [Mutex.run, Mutex.op, Option.bind, this]
  · rw [← hfst, h]; rfl
  · have htotal : ∃ s', handle s r = .ok s' := by
      cases r with
      | register c => exact ⟨_, rfl⟩
      | unregister c =>
        by_cases hc : c ∈ s.hub.clients
        · exact ⟨(s.setClients (s.hub.clients.delete c)).setSend c ⟨(s.mem c).send.buf, true⟩,
            by simp [handle, handleUnregister, hc, Chan.close, hopen c hc]⟩
        · exact ⟨s, by simp [handle, handleUnregister, hc]⟩
      | publish msg => exact handleBroadcast_total msg hopen
    obtain ⟨s', h⟩ := htotal
    rw [← hfst] at h
    cases ht : tracedHandle s r with
    | error e => rw [ht] at h; cases h
    | ok r' => exact ⟨r'.1, r'.2, rfl⟩

theorem saturated_traced :
    tracedHandle saturated (.publish ⟨"u1", taskUpdate⟩)
      = .ok ((saturated.setClients (saturated.hub.clients.delete 1)).setSend 1
          ⟨backlog, true⟩, [.RLock, .RUnlock, .Lock, .Unlock, .RLock, .RUnlock]) := by
  have hm : saturated.mem 1 = ⟨"u1", ⟨backlog, false⟩, ⟨[], false⟩⟩ := rfl
  have hk : saturated.hub.clients.keys = [1] := rfl
  simp [tracedHandle, tracedBroadcast, hk, tracedFanOut, tracedFanOutOne, hm, Chan.trySend,
    Chan.close, sendCap, backlog_length]

/-- C30, two handlings: the publish that evicts the stalled connection issues
`RLock`, `RUnlock`, `Lock`, `Unlock`, `RLock`, `RUnlock`; a registration in the
scenario state issues `Lock`, `Unlock`. Both sequences are legal from a free
mutex and leave it free. -/
theorem lock_discipline_witness :
    tracedHandle saturated (.publish ⟨"u1", taskUpdate⟩)
      = .ok ((saturated.setClients (saturated.hub.clients.delete 1)).setSend 1
          ⟨backlog, true⟩, [.RLock, .RUnlock, .Lock, .Unlock, .RLock, .RUnlock]) ∧
    Mutex.run .free [.RLock, .RUnlock, .Lock, .Unlock, .RLock, .RUnlock] = some .free ∧
    Mutex.run .free [.Lock, .Unlock] = some .free ∧
    Mutex.run .free [.RLock, .Unlock] = none :=
  ⟨saturated_traced,
   ((lock_discipline saturated (.publish ⟨"u1", taskUpdate⟩)).1 _ _ saturated_traced).1,
   ((lock_discipline scenario (.register 4)).1 _ _ rfl).1,
   by decide⟩

end Websocket
